import Mathlib

/-!
Shallow embedding of the ELF object differencing engine in
`create-diff-object.c` (xsplice-build), together with proofs of the
spec-level claims about it.  C strings are modelled as `List Char`
(NUL-free char sequences); machine integers as `Nat`/`Int` with explicit
truncation where the code narrows; fallible code returns `Option` or
`Except`.  Loops whose termination is not structural are given a fuel
argument; a fuel of the length of the consumed list is always enough, and
the wrappers supply it.
-/

set_option maxHeartbeats 1000000

namespace XspliceBuild

/-- Element status, as in the enum used by `struct section`/`struct symbol`. -/
inductive Status where
  | same
  | changed
  | new
deriving DecidableEq, Repr

/-- ELF symbol types used by the tool (subset of the STT_* values). -/
inductive SymTy where
  | stNotype
  | stFunc
  | stObject
  | stSection
  | stFile
deriving DecidableEq, Repr

/-- ELF symbol bindings used by the tool (subset of the STB_* values). -/
inductive SymBind where
  | sbLocal
  | sbGlobal
  | sbWeak
deriving DecidableEq, Repr

/-- Model of C `isdigit(s[1])` applied to the character after the cursor:
the head of the remaining tail, with the terminating NUL seen as a
non-digit when the tail is empty. -/
def headDigit : List Char → Bool
  | [] => false
  | c :: _ => c.isDigit

/-- Loop body of `xsplice_mangled_strcmp` (create-diff-object.c:198-216),
made structural with a fuel argument; one unit of fuel is spent per loop
iteration, and each iteration consumes at least one character of the
first string, so a fuel of the first string's length always suffices. -/
def mangledGo : Nat → List Char → List Char → Int
  | _, [], [] => 0
  | f + 1, c1 :: t1, c2 :: t2 =>
    if c1 = c2 then
      if c1 = '.' ∧ headDigit t1 then
        if headDigit t2 then
          mangledGo f (t1.dropWhile Char.isDigit) (t2.dropWhile Char.isDigit)
        else 1
      else mangledGo f t1 t2
    else 1
  | _, [], _ :: _ => 1
  | _, _ :: _, [] => 1
  | 0, _ :: _, _ :: _ => 1

/-- Embedding of `xsplice_mangled_strcmp` (create-diff-object.c:198-216).
Walks both strings in lock-step; at a `.` followed by a digit on the left,
requires a digit after the `.` on the right as well and skips the digit
runs on both sides; returns 0 on success and 1 on any mismatch (the C
function never returns -1). -/
def xsplice_mangled_strcmp (s1 s2 : List Char) : Int :=
  mangledGo s1.length s1 s2

/-- Helper: the length of `dropWhile` output is bounded by the input's. -/
theorem lengthDropWhileLe (p : Char → Bool) (l : List Char) :
    (l.dropWhile p).length ≤ l.length :=
  (List.dropWhile_suffix p).sublist.length_le

/-- Helper: the loop result is insensitive to the fuel, as long as the fuel
covers the first string. -/
theorem mangledGo_fuel : ∀ (f1 f2 : Nat) (s1 s2 : List Char),
    s1.length ≤ f1 → s1.length ≤ f2 → mangledGo f1 s1 s2 = mangledGo f2 s1 s2 := by
  intro f1
  induction f1 with
  | zero =>
    intro f2 s1 s2 h1 _
    match s1, s2 with
    | [], [] => cases f2 <;> rfl
    | [], _ :: _ => cases f2 <;> rfl
    | _ :: _, _ => simp at h1
  | succ f ih =>
    intro f2 s1 s2 h1 h2
    match s1, s2 with
    | [], [] => cases f2 <;> rfl
    | [], _ :: _ => cases f2 <;> rfl
    | c1 :: t1, [] => cases f2 <;> rfl
    | c1 :: t1, c2 :: t2 =>
      match f2 with
      | 0 => simp at h2
      | g + 1 =>
        simp only [mangledGo]
        by_cases hc : c1 = c2
        · rw [if_pos hc, if_pos hc]
          by_cases hd : c1 = '.' ∧ headDigit t1
          · rw [if_pos hd, if_pos hd]
            by_cases h2d : headDigit t2
            · rw [if_pos h2d, if_pos h2d]
              apply ih
              · exact le_trans (lengthDropWhileLe _ _) (Nat.le_of_succ_le_succ h1)
              · exact le_trans (lengthDropWhileLe _ _) (Nat.le_of_succ_le_succ h2)
            · rw [if_neg h2d, if_neg h2d]
          · rw [if_neg hd, if_neg hd]
            exact ih g t1 t2 (Nat.le_of_succ_le_succ h1) (Nat.le_of_succ_le_succ h2)
        · rw [if_neg hc, if_neg hc]

/-- Helper: the loop result is always 0 or 1. -/
theorem mangledGo_range : ∀ (f : Nat) (s1 s2 : List Char),
    mangledGo f s1 s2 = 0 ∨ mangledGo f s1 s2 = 1 := by
  intro f
  induction f with
  | zero =>
    intro s1 s2
    match s1, s2 with
    | [], [] => left; rfl
    | [], _ :: _ => right; rfl
    | _ :: _, [] => right; rfl
    | _ :: _, _ :: _ => right; rfl
  | succ f ih =>
    intro s1 s2
    match s1, s2 with
    | [], [] => left; rfl
    | [], _ :: _ => right; rfl
    | _ :: _, [] => right; rfl
    | c1 :: t1, c2 :: t2 =>
      simp only [mangledGo]
      by_cases hc : c1 = c2
      · rw [if_pos hc]
        by_cases hd : c1 = '.' ∧ headDigit t1
        · rw [if_pos hd]
          by_cases h2d : headDigit t2
          · rw [if_pos h2d]; exact ih _ _
          · rw [if_neg h2d]; right; rfl
        · rw [if_neg hd]; exact ih _ _
      · rw [if_neg hc]; right; rfl

/-- Helper: the loop returns 0 on two identical strings. -/
theorem mangledGo_refl : ∀ (f : Nat) (s : List Char),
    s.length ≤ f → mangledGo f s s = 0 := by
  intro f
  induction f with
  | zero =>
    intro s h
    match s with
    | [] => rfl
    | _ :: _ => simp at h
  | succ f ih =>
    intro s h
    match s with
    | [] => rfl
    | c :: t =>
      simp only [mangledGo, if_pos rfl]
      by_cases hd : c = '.' ∧ headDigit t
      · rw [if_pos hd, if_pos hd.2]
        exact ih _ (le_trans (lengthDropWhileLe _ _) (Nat.le_of_succ_le_succ h))
      · rw [if_neg hd]
        exact ih _ (Nat.le_of_succ_le_succ h)

/-- Helper: a digit-headed list never loop-compares equal to a
non-digit-headed list, at any fuel. -/
theorem mangledGo_head_mismatch (f : Nat) (t1 t2 : List Char)
    (h1 : headDigit t1 = true) (h2 : headDigit t2 = false) :
    mangledGo f t2 t1 = 1 := by
  match f, t2, t1 with
  | _, [], [] => simp [headDigit] at h1
  | 0, [], c :: t => rfl
  | g + 1, [], c :: t => rfl
  | 0, c2 :: s2, [] => simp [headDigit] at h1
  | g + 1, c2 :: s2, [] => simp [headDigit] at h1
  | 0, c2 :: s2, c1 :: s1 => rfl
  | g + 1, c2 :: s2, c1 :: s1 =>
    simp only [headDigit] at h1 h2
    have hne : ¬ (c2 = c1) := by
      intro he
      rw [he, h1] at h2
      exact Bool.noConfusion h2
    simp only [mangledGo, if_neg hne]

/-- Helper: symmetry of the zero-result of the loop at a common fuel. -/
theorem mangledGo_symm : ∀ (f : Nat) (s1 s2 : List Char),
    s1.length ≤ f → s2.length ≤ f →
    (mangledGo f s1 s2 = 0 ↔ mangledGo f s2 s1 = 0) := by
  intro f
  induction f with
  | zero =>
    intro s1 s2 h1 h2
    match s1, s2 with
    | [], [] => exact Iff.rfl
    | [], _ :: _ => simp at h2
    | _ :: _, _ => simp at h1
  | succ f ih =>
    intro s1 s2 h1 h2
    match s1, s2 with
    | [], [] => exact Iff.rfl
    | [], c :: t =>
      constructor <;> (intro h; exact absurd h (by simp [mangledGo]))
    | c :: t, [] =>
      constructor <;> (intro h; exact absurd h (by simp [mangledGo]))
    | c1 :: t1, c2 :: t2 =>
      simp only [mangledGo]
      by_cases hc : c1 = c2
      · subst hc
        rw [if_pos rfl, if_pos rfl]
        by_cases hdot : c1 = '.'
        · by_cases hd1 : headDigit t1
          · by_cases hd2 : headDigit t2
            · rw [if_pos ⟨hdot, hd1⟩, if_pos hd2, if_pos ⟨hdot, hd2⟩, if_pos hd1]
              exact ih _ _
                (le_trans (lengthDropWhileLe _ _) (Nat.le_of_succ_le_succ h1))
                (le_trans (lengthDropWhileLe _ _) (Nat.le_of_succ_le_succ h2))
            · rw [if_pos ⟨hdot, hd1⟩, if_neg (by simpa using hd2)]
              have hne : ¬ (c1 = '.' ∧ headDigit t2) := by
                intro hcon; exact absurd hcon.2 (by simpa using hd2)
              rw [if_neg hne]
              rw [mangledGo_head_mismatch f t1 t2 (by simpa using hd1) (by simpa using hd2)]
          · by_cases hd2 : headDigit t2
            · have hne : ¬ (c1 = '.' ∧ headDigit t1) := by
                intro hcon; exact absurd hcon.2 (by simpa using hd1)
              rw [if_neg hne, if_pos ⟨hdot, hd2⟩, if_neg (by simpa using hd1)]
              rw [mangledGo_head_mismatch f t2 t1 (by simpa using hd2) (by simpa using hd1)]
            · have hne1 : ¬ (c1 = '.' ∧ headDigit t1) := by
                intro hcon; exact absurd hcon.2 (by simpa using hd1)
              have hne2 : ¬ (c1 = '.' ∧ headDigit t2) := by
                intro hcon; exact absurd hcon.2 (by simpa using hd2)
              rw [if_neg hne1, if_neg hne2]
              exact ih _ _ (Nat.le_of_succ_le_succ h1) (Nat.le_of_succ_le_succ h2)
        · have hne1 : ¬ (c1 = '.' ∧ headDigit t1) := fun hcon => hdot hcon.1
          have hne2 : ¬ (c1 = '.' ∧ headDigit t2) := fun hcon => hdot hcon.1
          rw [if_neg hne1, if_neg hne2]
          exact ih _ _ (Nat.le_of_succ_le_succ h1) (Nat.le_of_succ_le_succ h2)
      · rw [if_neg hc, if_neg (fun h => hc h.symm)]

/-- C9: `xsplice_mangled_strcmp` is a boolean predicate: it returns only 0
or 1 (never -1), returns 0 on two identical strings, and its zero-result
is symmetric in its two arguments. -/
theorem mangled_strcmp_is_boolean (s1 s2 : List Char) :
    (xsplice_mangled_strcmp s1 s2 = 0 ∨ xsplice_mangled_strcmp s1 s2 = 1) ∧
    xsplice_mangled_strcmp s1 s1 = 0 ∧
    (xsplice_mangled_strcmp s1 s2 = 0 ↔ xsplice_mangled_strcmp s2 s1 = 0) := by
  refine ⟨mangledGo_range _ _ _, mangledGo_refl _ _ le_rfl, ?_⟩
  unfold xsplice_mangled_strcmp
  rw [mangledGo_fuel s1.length (max s1.length s2.length) s1 s2 le_rfl (le_max_left _ _)]
  rw [mangledGo_fuel s2.length (max s1.length s2.length) s2 s1 le_rfl (le_max_right _ _)]
  exact mangledGo_symm _ _ _ (le_max_left _ _) (le_max_right _ _)

/-! ### Symbol views, special statics, constant labels, relocation equality -/

/-- View of a symbol as needed by the relocation comparator: its name,
type and binding, plus (for `STT_SECTION` symbols) the name/type/binding
of its section's bundled symbol (`sym->sec->sym`), when that exists. -/
structure SymView where
  name : List Char
  typ : SymTy
  bind : SymBind
  secBundled : Option (List Char × SymTy × SymBind)
deriving DecidableEq, Repr

/-- The special-static name list of `is_special_static`
(create-diff-object.c:297-304). -/
def specialPrefixList : List (List Char) :=
  ["__key.".toList, "__warned.".toList, "descriptor.".toList,
   "__func__.".toList, "_rs.".toList]

/-- The non-section part of `is_special_static`: a local object whose name
begins with one of the special-static name starts. -/
def specialCore (name : List Char) (t : SymTy) (b : SymBind) : Bool :=
  if t ≠ SymTy.stObject ∨ b ≠ SymBind.sbLocal then false
  else specialPrefixList.any (fun p => p.isPrefixOf name)

/-- Embedding of `is_special_static` (create-diff-object.c:295-331): for a
section symbol, `__verbose` is special, otherwise the section's bundled
symbol (if any) is consulted; for other symbols the local-object
name-start rule applies directly. -/
def is_special_static (s : SymView) : Bool :=
  if s.typ = SymTy.stSection then
    if s.name = "__verbose".toList then true
    else
      match s.secBundled with
      | none => false
      | some (n, t, b) => specialCore n t b
  else specialCore s.name s.typ s.bind

/-- Embedding of `is_constant_label` (create-diff-object.c:333-350): a
local symbol named `.LC` followed by one or more digits. -/
def is_constant_label (s : SymView) : Bool :=
  if s.bind ≠ SymBind.sbLocal then false
  else
    match s.name with
    | '.' :: 'L' :: 'C' :: rest => !rest.isEmpty && rest.all Char.isDigit
    | _ => false

/-- Model of `struct rela` as used by the comparator: relocation type,
offset, addend, optional inlined string, and the target symbol view. -/
structure RelaV where
  typ : Nat
  offset : Nat
  addend : Int
  str : Option (List Char)
  sym : SymView
deriving DecidableEq, Repr

/-- Embedding of `rela_equal` (create-diff-object.c:571-592).  Note the
early return when the patched-side relocation has an inlined string, and
that only the patched-side (first) target is tested for special-static
status before falling back to literal name comparison. -/
def rela_equal (r1 r2 : RelaV) : Bool :=
  if r1.typ ≠ r2.typ ∨ r1.offset ≠ r2.offset then false
  else
    match r1.str with
    | some s1 =>
      match r2.str with
      | some s2 => s1 = s2
      | none => false
    | none =>
      if r1.addend ≠ r2.addend then false
      else if is_constant_label r1.sym ∧ is_constant_label r2.sym then true
      else if is_special_static r1.sym then
        xsplice_mangled_strcmp r1.sym.name r2.sym.name = 0
      else r1.sym.name = r2.sym.name

/-- Relocation equality as claim C3 words it: same type and offset; equal
strings when the patched relocation carries one, equal addends otherwise;
and for the targets, both constant labels are equal, EITHER side being a
special static forces mangled-name equality, and otherwise the names must
be equal literally. -/
def rela_equal_claimed (r1 r2 : RelaV) : Bool :=
  (r1.typ = r2.typ) && (r1.offset = r2.offset) &&
  (match r1.str with
   | some s1 => r2.str = some s1
   | none => r1.addend = r2.addend) &&
  (if is_constant_label r1.sym ∧ is_constant_label r2.sym then true
   else if is_special_static r1.sym ∨ is_special_static r2.sym then
     xsplice_mangled_strcmp r1.sym.name r2.sym.name = 0
   else r1.sym.name = r2.sym.name)

/-- A patched-side relocation target that is not a special static (it is a
function, not an object). -/
def c3SymPatched : SymView :=
  { name := "__warned.1".toList, typ := SymTy.stFunc, bind := SymBind.sbLocal,
    secBundled := none }

/-- A base-side relocation target that is a special static with a
digit-run-differing name. -/
def c3SymBase : SymView :=
  { name := "__warned.2".toList, typ := SymTy.stObject, bind := SymBind.sbLocal,
    secBundled := none }

/-- Concrete patched-side relocation for the C3 counterexample. -/
def c3Rela1 : RelaV :=
  { typ := 1, offset := 0, addend := 5, str := none, sym := c3SymPatched }

/-- Concrete base-side relocation for the C3 counterexample. -/
def c3Rela2 : RelaV :=
  { typ := 1, offset := 0, addend := 5, str := none, sym := c3SymBase }

/-- C3 counterexample: the claim's "either target is a special static"
reading disagrees with the code, which consults only the patched-side
target.  Here only the base-side target is a special static and the names
match under mangled equality, so the claimed predicate holds while
`rela_equal` compares the names literally and reports inequality. -/
theorem rela_equal_claim_counterexample :
    rela_equal c3Rela1 c3Rela2 = false ∧
    rela_equal_claimed c3Rela1 c3Rela2 = true := by
  constructor <;> rfl

/-- Relocation equality as amended to match the code: same type and
offset; when the patched relocation carries an inlined string the twin
must carry an equal string and neither addends nor targets are examined;
otherwise the addends must be equal and the targets compare as: both
constant labels are equal; a special-static PATCHED-side target forces
mangled-name equality; otherwise literal name equality. -/
def rela_equal_amended (r1 r2 : RelaV) : Bool :=
  (r1.typ = r2.typ) && (r1.offset = r2.offset) &&
  (match r1.str with
   | some s1 => r2.str = some s1
   | none =>
     (r1.addend = r2.addend) &&
     (if is_constant_label r1.sym ∧ is_constant_label r2.sym then true
      else if is_special_static r1.sym then
        xsplice_mangled_strcmp r1.sym.name r2.sym.name = 0
      else r1.sym.name = r2.sym.name))

/-- C3 (amended): `rela_equal` coincides with the amended relocation
equality predicate on all relocation pairs. -/
theorem rela_equal_amended_correct (r1 r2 : RelaV) :
    rela_equal r1 r2 = rela_equal_amended r1 r2 := by
  unfold rela_equal rela_equal_amended
  by_cases h1 : r1.typ = r2.typ
  · by_cases h2 : r1.offset = r2.offset
    · rw [if_neg (by simp [h1, h2])]
      cases hs : r1.str with
      | some s1 =>
        cases hs2 : r2.str with
        | some s2 =>
          by_cases he : s1 = s2
          · simp [h1, h2, he]
          · have he2 : ¬ (s2 = s1) := fun h => he h.symm
            simp [h1, h2, he, he2]
        | none => simp [h1, h2]
      | none =>
        by_cases h3 : r1.addend = r2.addend
        · rw [if_neg (by simp [h3])]
          simp [h1, h2, h3]
        · rw [if_pos (by simp [h3])]
          simp [h1, h2, h3]
    · simp [h2]
  · simp [h1]

/-! ### Correlated-section comparison (C10) -/

/-- The `SHT_NOBITS` section type value. -/
def SHT_NOBITS : Nat := 8

/-- Model of a correlated section as needed by
`xsplice_compare_correlated_section`: the compared header fields, the data
sizes, whether it is a relocation section, its data bytes and its
relocation list. -/
structure CmpSec where
  shType : Nat
  shFlags : Nat
  shAddr : Nat
  shAddralign : Nat
  shEntsize : Nat
  shSize : Nat
  dSize : Nat
  isRela : Bool
  dataBytes : List Nat
  relas : List RelaV
deriving DecidableEq, Repr

/-- Errors of the correlated-section comparison: a fatal header mismatch
(DIFF_FATAL), or the undefined behaviour of the twin-side relocation
cursor running off the end of the twin's relocation list (the C code
would dereference the list sentinel). -/
inductive CmpErr where
  | headerMismatch
  | runawayCursor
deriving DecidableEq, Repr

/-- Embedding of the lock-step walk of
`xsplice_compare_correlated_rela_section` (create-diff-object.c:594-609):
the twin cursor advances only on equality; the first mismatch reports
CHANGED; exhausting the patched list reports SAME.  `none` models the C
advancing the twin cursor past the twin's relocation list. -/
def compareRelaWalk : List RelaV → List RelaV → Option Status
  | [], _ => some Status.same
  | _ :: _, [] => none
  | r1 :: t1, r2 :: t2 =>
    if rela_equal r1 r2 then compareRelaWalk t1 t2 else some Status.changed

/-- Embedding of `xsplice_compare_correlated_nonrela_section`
(create-diff-object.c:611-620). -/
def xsplice_compare_correlated_nonrela_section (s1 s2 : CmpSec) : Status :=
  if s1.shType ≠ SHT_NOBITS ∧ s1.dataBytes ≠ s2.dataBytes then Status.changed
  else Status.same

/-- Embedding of `xsplice_compare_correlated_section`
(create-diff-object.c:622-649): fatal on header mismatch; CHANGED when
the sizes disagree (without walking any relocations); otherwise the rela
walk or the byte comparison. -/
def xsplice_compare_correlated_section (s1 s2 : CmpSec) : Except CmpErr Status :=
  if s1.shType ≠ s2.shType ∨ s1.shFlags ≠ s2.shFlags ∨ s1.shAddr ≠ s2.shAddr ∨
     s1.shAddralign ≠ s2.shAddralign ∨ s1.shEntsize ≠ s2.shEntsize then
    .error .headerMismatch
  else if s1.shSize ≠ s2.shSize ∨ s1.dSize ≠ s2.dSize then .ok .changed
  else if s1.isRela then
    match compareRelaWalk s1.relas s2.relas with
    | some st => .ok st
    | none => .error .runawayCursor
  else .ok (xsplice_compare_correlated_nonrela_section s1 s2)

/-- Helper: the walk is total when the lists have equal lengths. -/
theorem compareRelaWalk_total : ∀ (l1 l2 : List RelaV), l1.length = l2.length →
    compareRelaWalk l1 l2 ≠ none := by
  intro l1
  induction l1 with
  | nil => intro l2 _; simp [compareRelaWalk]
  | cons r1 t1 ih =>
    intro l2 hlen
    match l2 with
    | [] => simp at hlen
    | r2 :: t2 =>
      simp only [compareRelaWalk]
      by_cases he : rela_equal r1 r2
      · rw [if_pos he]
        exact ih t2 (by simpa using hlen)
      · rw [if_neg he]
        simp

/-- Helper: whenever the walk returns, it returns SAME or CHANGED. -/
theorem compareRelaWalk_status : ∀ (l1 l2 : List RelaV) (st : Status),
    compareRelaWalk l1 l2 = some st → st = Status.same ∨ st = Status.changed := by
  intro l1
  induction l1 with
  | nil =>
    intro l2 st h
    simp only [compareRelaWalk, Option.some.injEq] at h
    left; exact h.symm
  | cons r1 t1 ih =>
    intro l2 st h
    match l2 with
    | [] => simp [compareRelaWalk] at h
    | r2 :: t2 =>
      simp only [compareRelaWalk] at h
      by_cases he : rela_equal r1 r2
      · rw [if_pos he] at h
        exact ih t2 st h
      · rw [if_neg he] at h
        simp only [Option.some.injEq] at h
        right; exact h.symm

/-- C10: when both correlated relocation sections obey the ELF invariant
that the data size is the entry count times `sizeof(GElf_Rela)` (24), the
rela walk is reached only with equally many entries, never runs the
twin-side cursor off the twin's list, and the whole comparison is total,
ending in SAME or CHANGED (or a fatal header mismatch, never the cursor
overrun). -/
theorem compare_correlated_section_safe (s1 s2 : CmpSec)
    (h1 : s1.dSize = s1.relas.length * 24)
    (h2 : s2.dSize = s2.relas.length * 24) :
    xsplice_compare_correlated_section s1 s2 ≠ .error .runawayCursor ∧
    (∀ st, xsplice_compare_correlated_section s1 s2 = .ok st →
      st = Status.same ∨ st = Status.changed) := by
  unfold xsplice_compare_correlated_section
  by_cases hh : s1.shType ≠ s2.shType ∨ s1.shFlags ≠ s2.shFlags ∨ s1.shAddr ≠ s2.shAddr ∨
      s1.shAddralign ≠ s2.shAddralign ∨ s1.shEntsize ≠ s2.shEntsize
  · rw [if_pos hh]
    exact ⟨by simp, by simp⟩
  · rw [if_neg hh]
    by_cases hsz : s1.shSize ≠ s2.shSize ∨ s1.dSize ≠ s2.dSize
    · rw [if_pos hsz]
      exact ⟨by simp, fun st hst => by simp at hst; right; exact hst.symm⟩
    · rw [if_neg hsz]
      push_neg at hsz
      have hlen : s1.relas.length = s2.relas.length := by
        have := hsz.2
        rw [h1, h2] at this
        omega
      by_cases hr : s1.isRela
      · rw [if_pos hr]
        cases hw : compareRelaWalk s1.relas s2.relas with
        | none => exact absurd hw (compareRelaWalk_total _ _ hlen)
        | some st0 =>
          constructor
          · simp
          · intro st hst
            simp only [Except.ok.injEq] at hst
            subst hst
            exact compareRelaWalk_status _ _ _ hw
      · rw [if_neg hr]
        constructor
        · simp
        · intro st hst
          simp only [Except.ok.injEq] at hst
          subst hst
          unfold xsplice_compare_correlated_nonrela_section
          by_cases hb : s1.shType ≠ SHT_NOBITS ∧ s1.dataBytes ≠ s2.dataBytes
          · rw [if_pos hb]; right; rfl
          · rw [if_neg hb]; left; rfl

/-- Concrete relocation section used to witness C10's theorem. -/
def c10Sec : CmpSec :=
  { shType := 4, shFlags := 0, shAddr := 0, shAddralign := 8, shEntsize := 24,
    shSize := 24, dSize := 24, isRela := true, dataBytes := [],
    relas := [c3Rela1] }

/-- Witness for C10: the safety theorem applies to a concrete one-entry
relocation section compared with itself. -/
theorem compare_correlated_section_safe_witness :
    c10Sec.dSize = c10Sec.relas.length * 24 ∧
    xsplice_compare_correlated_section c10Sec c10Sec ≠ .error .runawayCursor :=
  ⟨rfl, (compare_correlated_section_safe c10Sec c10Sec rfl rfl).1⟩

/-! ### Symbol reordering (C8) -/

/-- Model of `struct symbol` as carried through inclusion, migration and
reordering: name, type, binding, status, owning section (index), twin
(present or not) and the include flag. -/
structure KSym where
  name : List Char
  typ : SymTy
  bind : SymBind
  status : Status
  sec : Option Nat
  twin : Option Nat
  incl : Bool
  stSize : Nat
deriving DecidableEq, Repr

/-- Embedding of `is_null_sym` (create-diff-object.c:1592-1595). -/
def is_null_sym (s : KSym) : Bool := s.name.isEmpty

/-- Embedding of `is_file_sym` (create-diff-object.c:1597-1600). -/
def is_file_sym (s : KSym) : Bool := s.typ = SymTy.stFile

/-- Embedding of `is_local_func_sym` (create-diff-object.c:1602-1605). -/
def is_local_func_sym (s : KSym) : Bool :=
  s.bind = SymBind.sbLocal ∧ s.typ = SymTy.stFunc

/-- Modelled from the spec: `is_local_sym` lives in the common helpers
outside this file; per the reorder step of the spec it selects the
remaining `STB_LOCAL` symbols. -/
def is_local_sym (s : KSym) : Bool := s.bind = SymBind.sbLocal

/-- Embedding of `xsplice_migrate_symbols` (create-diff-object.c:1324-1337):
moves the symbols matching `select` (all of them when `select` is NULL)
from the source list to the tail of the destination list, preserving
their relative order; returns (moved, remaining). -/
def xsplice_migrate_symbols (src : List KSym) (select : Option (KSym → Bool)) :
    List KSym × List KSym :=
  match select with
  | none => (src, [])
  | some p => (src.filter p, src.filter (fun s => !p s))

/-- Embedding of `xsplice_reorder_symbols` (create-diff-object.c:1607-1623):
five successive migrations into the bucket list (null symbol, STT_FILE,
local functions, other locals, everything remaining), then the bucket
list replaces the symbol list. -/
def xsplice_reorder_symbols (syms : List KSym) : List KSym :=
  let m1 := xsplice_migrate_symbols syms (some is_null_sym)
  let m2 := xsplice_migrate_symbols m1.2 (some is_file_sym)
  let m3 := xsplice_migrate_symbols m2.2 (some is_local_func_sym)
  let m4 := xsplice_migrate_symbols m3.2 (some is_local_sym)
  let m5 := xsplice_migrate_symbols m4.2 none
  m1.1 ++ (m2.1 ++ (m3.1 ++ (m4.1 ++ m5.1)))

/-- Bucket predicate: the null symbol. -/
def bktNull (s : KSym) : Bool := is_null_sym s

/-- Bucket predicate: `STT_FILE` symbols not already in an earlier bucket. -/
def bktFile (s : KSym) : Bool := !is_null_sym s && is_file_sym s

/-- Bucket predicate: local function symbols not already in an earlier
bucket. -/
def bktLocalFunc (s : KSym) : Bool :=
  !is_null_sym s && !is_file_sym s && is_local_func_sym s

/-- Bucket predicate: the remaining local symbols. -/
def bktOtherLocal (s : KSym) : Bool :=
  !is_null_sym s && !is_file_sym s && !is_local_func_sym s && is_local_sym s

/-- Bucket predicate: everything else (the global bucket). -/
def bktRest (s : KSym) : Bool :=
  !is_null_sym s && !is_file_sym s && !is_local_func_sym s && !is_local_sym s

/-- C8: reordering produces exactly the five buckets in sequence, each
bucket a filter of the original list (hence preserving the original
relative order within each bucket), and the result is a permutation of
the input (no symbol dropped or duplicated). -/
theorem reorder_symbols_buckets (syms : List KSym) :
    xsplice_reorder_symbols syms =
      syms.filter bktNull ++ (syms.filter bktFile ++ (syms.filter bktLocalFunc ++
        (syms.filter bktOtherLocal ++ syms.filter bktRest))) ∧
    (xsplice_reorder_symbols syms).Perm syms := by
  have hform : xsplice_reorder_symbols syms =
      syms.filter bktNull ++ (syms.filter bktFile ++ (syms.filter bktLocalFunc ++
        (syms.filter bktOtherLocal ++ syms.filter bktRest))) := by
    unfold xsplice_reorder_symbols xsplice_migrate_symbols
    simp only [List.filter_filter]
    unfold bktNull bktFile bktLocalFunc bktOtherLocal bktRest
    congr 1
    congr 1
    · apply List.filter_congr
      intro s _
      cases hn : is_null_sym s <;> cases hf : is_file_sym s <;> simp [hn, hf]
    congr 1
    · apply List.filter_congr
      intro s _
      cases hn : is_null_sym s <;> cases hf : is_file_sym s <;>
        cases hl : is_local_func_sym s <;> simp [hn, hf, hl]
    congr 1
    · apply List.filter_congr
      intro s _
      cases hn : is_null_sym s <;> cases hf : is_file_sym s <;>
        cases hl : is_local_func_sym s <;> cases ho : is_local_sym s <;>
        simp [hn, hf, hl, ho]
    · apply List.filter_congr
      intro s _
      cases hn : is_null_sym s <;> cases hf : is_file_sym s <;>
        cases hl : is_local_func_sym s <;> cases ho : is_local_sym s <;>
        simp [hn, hf, hl, ho]
  refine ⟨hform, ?_⟩
  unfold xsplice_reorder_symbols xsplice_migrate_symbols
  refine List.Perm.trans ?_ (List.filter_append_perm is_null_sym syms)
  apply List.Perm.append_left
  refine List.Perm.trans ?_ (List.filter_append_perm is_file_sym _)
  apply List.Perm.append_left
  refine List.Perm.trans ?_ (List.filter_append_perm is_local_func_sym _)
  apply List.Perm.append_left
  refine List.Perm.trans ?_ (List.filter_append_perm is_local_sym _)
  exact List.Perm.refl _

/-! ### Patch-table emitter (C2) -/

/-- The `R_X86_64_64` relocation type value. -/
def R_X86_64_64 : Nat := 1

/-- An emitted `struct xsplice_patch_func` entry.  Field widths follow the
record layout of the spec (old_addr/new_addr u64, old_size/new_size u32,
pad arch-specific); the `name` slot is deliberately not modelled because
the code leaves it uninitialized (the companion relocation fills it at
load time). -/
structure PatchFunc where
  old_addr : Nat
  new_addr : Nat
  old_size : Nat
  new_size : Nat
  pad : List Nat
deriving DecidableEq, Repr

/-- Target of an emitted patch-table relocation: either the patched
function symbol itself or the `.xsplice.strings` section symbol. -/
inductive PTarget where
  | funcSym (s : KSym)
  | stringsSecSym
deriving DecidableEq, Repr

/-- An emitted relocation of `.rela.xsplice.funcs`. -/
structure PRela where
  target : PTarget
  typ : Nat
  addend : Int
  offset : Nat
deriving DecidableEq, Repr

/-- Embedding of `mangle_local_symbol` (create-diff-object.c:1402-1416):
`filename # symbolname`. -/
def mangle_local_symbol (filename symname : List Char) : List Char :=
  filename ++ '#' :: symname

/-- Modelled from the spec: `offset_of_string` lives in the common helpers
outside this file; per the spec the string pool is a NUL-terminated
concatenation in insertion order, and the helper returns the byte offset
of the name in the pool, appending the name at the end when absent. -/
def offset_of_string : List (List Char) → List Char → Nat × List (List Char)
  | [], n => (0, [n])
  | s :: rest, n =>
    if s = n then (0, s :: rest)
    else
      let r := offset_of_string rest n
      (s.length + 1 + r.1, s :: r.2)

/-- Byte offset of the first occurrence of a name in the final string
pool (each entry contributing its length plus a NUL). -/
def offsetInPool : List (List Char) → List Char → Nat
  | [], _ => 0
  | s :: rest, n => if s = n then 0 else s.length + 1 + offsetInPool rest n

/-- The emitter's per-symbol test: a CHANGED function symbol. -/
def isChangedFunc (s : KSym) : Bool :=
  s.typ = SymTy.stFunc ∧ s.status = Status.changed

/-- Errors of the patch-table emitter. -/
inductive PatchErr where
  | lookupFailed (n : List Char)
  | tooSmall (n : List Char)
deriving DecidableEq, Repr

/-- The byte size of a `struct xsplice_patch_func` with the given pad
size: two u64, two u32, the u64 name slot, then the pad. -/
def patchFuncSize (padBytes : Nat) : Nat := 32 + padBytes

/-- The byte offset of the `name` field inside the record (after
old_addr, new_addr, old_size, new_size). -/
def patchFuncNameOff : Nat := 24

/-- Loop of `xsplice_create_patches_sections` (create-diff-object.c:
1498-1590) over the symbol list: for every CHANGED `STT_FUNC` symbol,
look the (for locals, hint-qualified) name up, fail if absent or smaller
than the minimum patch site, emit one table entry and a pair of
relocations, and thread the string pool through `offset_of_string`. -/
def createPatchesLoop (lookupG lookupL : List Char → Option (Nat × Nat))
    (hint : List Char) (resolve : Bool) (padBytes patchInsnSize : Nat) :
    List KSym → Nat → List (List Char) →
    Except PatchErr (List PatchFunc × List PRela × List (List Char))
  | [], _, strings => .ok ([], [], strings)
  | sym :: rest, index, strings =>
    if isChangedFunc sym then
      let looked : Except PatchErr (List Char × Nat × Nat) :=
        if sym.bind = SymBind.sbLocal then
          match lookupL sym.name with
          | none => .error (.lookupFailed sym.name)
          | some (v, sz) => .ok (mangle_local_symbol hint sym.name, v, sz)
        else
          match lookupG sym.name with
          | none => .error (.lookupFailed sym.name)
          | some (v, sz) => .ok (sym.name, v, sz)
      match looked with
      | .error e => .error e
      | .ok (funcname, v, sz) =>
        if sz < patchInsnSize then .error (.tooSmall sym.name)
        else
          let entry : PatchFunc :=
            { old_addr := if resolve then v else 0,
              old_size := sz % 2 ^ 32,
              new_addr := 0,
              new_size := sym.stSize % 2 ^ 32,
              pad := List.replicate padBytes 0 }
          let r1 : PRela :=
            { target := .funcSym sym, typ := R_X86_64_64, addend := 0,
              offset := index * patchFuncSize padBytes }
          let strres := offset_of_string strings funcname
          let r2 : PRela :=
            { target := .stringsSecSym, typ := R_X86_64_64,
              addend := (strres.1 : Int),
              offset := index * patchFuncSize padBytes + patchFuncNameOff }
          match createPatchesLoop lookupG lookupL hint resolve padBytes
              patchInsnSize rest (index + 1) strres.2 with
          | .error e => .error e
          | .ok (fs, rs, st) => .ok (entry :: fs, r1 :: r2 :: rs, st)
    else
      createPatchesLoop lookupG lookupL hint resolve padBytes patchInsnSize
        rest index strings

/-- Embedding of `xsplice_create_patches_sections`: run the loop from
index 0 on the model's symbol list with the current (empty at the call
site) string pool. -/
def xsplice_create_patches_sections (lookupG lookupL : List Char → Option (Nat × Nat))
    (hint : List Char) (resolve : Bool) (padBytes patchInsnSize : Nat)
    (syms : List KSym) (strings : List (List Char)) :
    Except PatchErr (List PatchFunc × List PRela × List (List Char)) :=
  createPatchesLoop lookupG lookupL hint resolve padBytes patchInsnSize syms 0 strings

/-- Helper: `offset_of_string` leaves the pool unchanged or appends the
looked-up name at the end. -/
theorem offset_of_string_extends : ∀ (pool : List (List Char)) (n : List Char),
    (offset_of_string pool n).2 = pool ∨ (offset_of_string pool n).2 = pool ++ [n] := by
  intro pool
  induction pool with
  | nil => intro n; right; rfl
  | cons s rest ih =>
    intro n
    by_cases h : s = n
    · left; simp [offset_of_string, h]
    · rcases ih n with h2 | h2 <;>
        simp [offset_of_string, h, h2]

/-- Helper: after `offset_of_string`, the name is in the pool at the
returned offset. -/
theorem offset_of_string_found : ∀ (pool : List (List Char)) (n : List Char),
    n ∈ (offset_of_string pool n).2 ∧
    offsetInPool (offset_of_string pool n).2 n = (offset_of_string pool n).1 := by
  intro pool
  induction pool with
  | nil => intro n; simp [offset_of_string, offsetInPool]
  | cons s rest ih =>
    intro n
    by_cases h : s = n
    · simp [offset_of_string, offsetInPool, h]
    · have := ih n
      constructor
      · simp only [offset_of_string, if_neg h]
        exact List.mem_cons_of_mem s this.1
      · simp only [offset_of_string, offsetInPool, if_neg h]
        rw [this.2]

/-- Helper: offsets of names already present are stable under appending
more names to the pool. -/
theorem offsetInPool_append : ∀ (pool ext : List (List Char)) (n : List Char),
    n ∈ pool → offsetInPool (pool ++ ext) n = offsetInPool pool n := by
  intro pool
  induction pool with
  | nil => intro ext n h; simp at h
  | cons s rest ih =>
    intro ext n h
    by_cases he : s = n
    · simp [offsetInPool, he]
    · have hmem : n ∈ rest := by
        rcases List.mem_cons.mp h with h1 | h1
        · exact absurd h1.symm he
        · exact h1
      simp only [List.cons_append, offsetInPool, if_neg he]
      rw [show rest.append ext = rest ++ ext from rfl, ih ext n hmem]

/-- The name the emitter places in the string pool for a patched
function: the file-hint-mangled name for locals, the plain name for
globals. -/
def emittedFuncName (hint : List Char) (sym : KSym) : List Char :=
  if sym.bind = SymBind.sbLocal then mangle_local_symbol hint sym.name else sym.name

/-- The lookup the emitter performs for a patched function: the local
lookup for locals, the global lookup otherwise. -/
def symLookup (lookupG lookupL : List Char → Option (Nat × Nat)) (sym : KSym) :
    Option (Nat × Nat) :=
  if sym.bind = SymBind.sbLocal then lookupL sym.name else lookupG sym.name

/-- Helper: full characterization of the emitter loop on success, proved
by induction on the symbol list: one entry per CHANGED function in
order, two relocations per entry at the claimed offsets and addends, and
the string pool only ever grows. -/
theorem createPatchesLoop_spec (lookupG lookupL : List Char → Option (Nat × Nat))
    (hint : List Char) (resolve : Bool) (padBytes patchInsnSize : Nat) :
    ∀ (syms : List KSym) (index : Nat) (strings0 : List (List Char))
      (fs : List PatchFunc) (rs : List PRela) (strings1 : List (List Char)),
      createPatchesLoop lookupG lookupL hint resolve padBytes patchInsnSize
        syms index strings0 = .ok (fs, rs, strings1) →
      fs.length = (syms.filter isChangedFunc).length ∧
      rs.length = 2 * (syms.filter isChangedFunc).length ∧
      (∃ ext, strings1 = strings0 ++ ext) ∧
      (∀ i sym, (syms.filter isChangedFunc).get? i = some sym →
        ∃ v sz, symLookup lookupG lookupL sym = some (v, sz) ∧ patchInsnSize ≤ sz ∧
          fs.get? i = some
            { old_addr := if resolve then v else 0, old_size := sz % 2 ^ 32,
              new_addr := 0, new_size := sym.stSize % 2 ^ 32,
              pad := List.replicate padBytes 0 } ∧
          rs.get? (2 * i) = some
            { target := .funcSym sym, typ := R_X86_64_64, addend := 0,
              offset := (index + i) * patchFuncSize padBytes } ∧
          rs.get? (2 * i + 1) = some
            { target := .stringsSecSym, typ := R_X86_64_64,
              addend := (offsetInPool strings1 (emittedFuncName hint sym) : Int),
              offset := (index + i) * patchFuncSize padBytes + patchFuncNameOff }) := by
  intro syms
  induction syms with
  | nil =>
    intro index s0 fs rs s1 hok
    simp only [createPatchesLoop, Except.ok.injEq, Prod.mk.injEq] at hok
    obtain ⟨h1, h2, h3⟩ := hok
    subst h1; subst h2; subst h3
    refine ⟨rfl, rfl, ⟨[], by simp⟩, ?_⟩
    intro i sym h
    simp at h
  | cons sym rest ih =>
    intro index s0 fs rs s1 hok
    rw [createPatchesLoop] at hok
    by_cases hc : isChangedFunc sym = true
    · rw [if_pos hc] at hok
      have hlook : ∃ fn v sz,
          (if sym.bind = SymBind.sbLocal then
            match lookupL sym.name with
            | none => Except.error (PatchErr.lookupFailed sym.name)
            | some (v, sz) => Except.ok (mangle_local_symbol hint sym.name, v, sz)
          else
            match lookupG sym.name with
            | none => Except.error (PatchErr.lookupFailed sym.name)
            | some (v, sz) => Except.ok (sym.name, v, sz)) =
            (Except.ok (fn, v, sz) : Except PatchErr (List Char × Nat × Nat)) ∧
          fn = emittedFuncName hint sym ∧
          symLookup lookupG lookupL sym = some (v, sz) := by
        by_cases hb : sym.bind = SymBind.sbLocal
        · rw [if_pos hb]
          cases hl : lookupL sym.name with
          | none =>
            rw [if_pos hb] at hok
            rw [hl] at hok
            simp at hok
          | some p =>
            obtain ⟨v0, sz0⟩ := p
            exact ⟨mangle_local_symbol hint sym.name, v0, sz0,
              rfl, by rw [emittedFuncName, if_pos hb],
              by rw [symLookup, if_pos hb, hl]⟩
        · rw [if_neg hb]
          cases hl : lookupG sym.name with
          | none =>
            rw [if_neg hb] at hok
            rw [hl] at hok
            simp at hok
          | some p =>
            obtain ⟨v0, sz0⟩ := p
            exact ⟨sym.name, v0, sz0,
              rfl, by rw [emittedFuncName, if_neg hb],
              by rw [symLookup, if_neg hb, hl]⟩
      obtain ⟨fn, v, sz, heq, hfn, hsl⟩ := hlook
      simp only [heq] at hok
      by_cases hsz : sz < patchInsnSize
      · rw [if_pos hsz] at hok
        simp at hok
      · rw [if_neg hsz] at hok
        cases hrec : createPatchesLoop lookupG lookupL hint resolve padBytes
            patchInsnSize rest (index + 1) (offset_of_string s0 fn).2 with
        | error e => simp [hrec] at hok
        | ok trip =>
          obtain ⟨fs', rs', st'⟩ := trip
          simp only [hrec] at hok
          simp only [Except.ok.injEq, Prod.mk.injEq] at hok
          obtain ⟨h1, h2, h3⟩ := hok
          subst h1; subst h2; subst h3
          obtain ⟨ihl, ihr, ⟨ext, hext⟩, ihp⟩ := ih (index + 1) _ _ _ _ hrec
          have hfilter : (sym :: rest).filter isChangedFunc =
              sym :: rest.filter isChangedFunc := by
            rw [List.filter_cons_of_pos hc]
          refine ⟨?_, ?_, ?_, ?_⟩
          · rw [hfilter]; simp [ihl]
          · rw [hfilter]; simp [ihr]; omega
          · rcases offset_of_string_extends s0 fn with h | h
            · exact ⟨ext, by rw [hext, h]⟩
            · exact ⟨[fn] ++ ext, by rw [hext, h, List.append_assoc]⟩
          · intro i s hi
            rw [hfilter] at hi
            match i with
            | 0 =>
              simp only [List.get?_cons_zero, Option.some.injEq] at hi
              subst hi
              refine ⟨v, sz, hsl, not_lt.mp hsz, ?_, ?_, ?_⟩
              · simp
              · simp
              · simp only [List.get?_cons_succ, List.get?_cons_zero, Option.some.injEq]
                have hin := offset_of_string_found s0 fn
                have : offsetInPool st' (emittedFuncName hint sym) =
                    (offset_of_string s0 fn).1 := by
                  rw [hext, ← hfn, offsetInPool_append _ _ _ hin.1, hin.2]
                rw [this]
                simp
            | Nat.succ j =>
              simp only [List.get?_cons_succ] at hi
              obtain ⟨v', sz', hsl', hsz', hf', hr1', hr2'⟩ := ihp j s hi
              refine ⟨v', sz', hsl', hsz', ?_, ?_, ?_⟩
              · simpa using hf'
              · have harith : 2 * (j + 1) = (2 * j) + 1 + 1 := by omega
                rw [harith]
                simp only [List.get?_cons_succ]
                have hidx : index + 1 + j = index + (j + 1) := by omega
                rw [← hidx]
                exact hr1'
              · have harith : 2 * (j + 1) + 1 = (2 * j + 1) + 1 + 1 := by omega
                rw [harith]
                simp only [List.get?_cons_succ]
                have hidx : index + 1 + j = index + (j + 1) := by omega
                rw [← hidx]
                exact hr2'
    · rw [if_neg hc] at hok
      obtain ⟨ihl, ihr, hext, ihp⟩ := ih index _ _ _ _ hok
      have hfilter : (sym :: rest).filter isChangedFunc =
          rest.filter isChangedFunc := by
        rw [List.filter_cons_of_neg (by simpa using hc)]
      exact ⟨by rw [hfilter]; exact ihl, by rw [hfilter]; exact ihr, hext,
        by rw [hfilter]; exact ihp⟩

/-- C2: on success, the patch-table emitter produces exactly one
`.xsplice.funcs` entry per CHANGED `STT_FUNC` symbol, in order, whose
old_addr is the looked-up address when resolving and 0 otherwise, whose
old_size is the looked-up size, whose new_addr is 0, whose new_size is
the patched symbol's st_size, with the pad zeroed; and per entry two
64-bit absolute relocations: one at offset index*entsize targeting the
function symbol with addend 0, and one at the entry's name field
targeting `.xsplice.strings` with addend the offset of the (for locals,
hint-mangled) name in the final string pool. -/
theorem create_patches_sections_spec (lookupG lookupL : List Char → Option (Nat × Nat))
    (hint : List Char) (resolve : Bool) (padBytes patchInsnSize : Nat)
    (syms : List KSym) (strings0 : List (List Char))
    (fs : List PatchFunc) (rs : List PRela) (strings1 : List (List Char))
    (hok : xsplice_create_patches_sections lookupG lookupL hint resolve padBytes
      patchInsnSize syms strings0 = .ok (fs, rs, strings1)) :
    fs.length = (syms.filter isChangedFunc).length ∧
    rs.length = 2 * (syms.filter isChangedFunc).length ∧
    (∀ i sym, (syms.filter isChangedFunc).get? i = some sym →
      ∃ v sz, symLookup lookupG lookupL sym = some (v, sz) ∧ patchInsnSize ≤ sz ∧
        fs.get? i = some
          { old_addr := if resolve then v else 0, old_size := sz % 2 ^ 32,
            new_addr := 0, new_size := sym.stSize % 2 ^ 32,
            pad := List.replicate padBytes 0 } ∧
        rs.get? (2 * i) = some
          { target := .funcSym sym, typ := R_X86_64_64, addend := 0,
            offset := i * patchFuncSize padBytes } ∧
        rs.get? (2 * i + 1) = some
          { target := .stringsSecSym, typ := R_X86_64_64,
            addend := (offsetInPool strings1 (emittedFuncName hint sym) : Int),
            offset := i * patchFuncSize padBytes + patchFuncNameOff }) := by
  obtain ⟨h1, h2, _, h4⟩ := createPatchesLoop_spec lookupG lookupL hint resolve
    padBytes patchInsnSize syms 0 strings0 fs rs strings1 hok
  refine ⟨h1, h2, ?_⟩
  intro i sym hi
  obtain ⟨v, sz, hsl, hsz, hf, hr1, hr2⟩ := h4 i sym hi
  rw [Nat.zero_add] at hr1 hr2
  exact ⟨v, sz, hsl, hsz, hf, hr1, hr2⟩

/-- Concrete changed local function used to witness C2's theorem. -/
def c2Sym : KSym :=
  { name := "foo".toList, typ := SymTy.stFunc, bind := SymBind.sbLocal,
    status := Status.changed, sec := some 0, twin := none, incl := true,
    stSize := 42 }

/-- Concrete lookup table for the C2 witness: `foo` is at 0x100 with
size 8. -/
def c2Lookup (n : List Char) : Option (Nat × Nat) :=
  if n = "foo".toList then some (256, 8) else none

/-- Witness for C2: the emitter theorem applied to a one-symbol model
with a concrete lookup table, hint `f.c`, resolve on, no pad and a
5-byte minimum patch size. -/
theorem create_patches_sections_spec_witness :
    ∃ fs rs strings1,
      xsplice_create_patches_sections c2Lookup c2Lookup "f.c".toList true 0 5
        [c2Sym] [] = .ok (fs, rs, strings1) ∧
      fs.length = ([c2Sym].filter isChangedFunc).length := by
  refine ⟨_, _, _, rfl, ?_⟩
  exact (create_patches_sections_spec c2Lookup c2Lookup "f.c".toList true 0 5
    [c2Sym] [] _ _ _ rfl).1

/-! ### Special-section regeneration (C4) -/

/-- Target symbol view for the special-section walk: type, owning section
index and the include flag that the walk may set. -/
structure SSym where
  typ : SymTy
  sec : Option Nat
  incl : Bool
deriving DecidableEq, Repr

/-- A relocation of a special section's relocation list: its offset in
the base section and the index of its target symbol. -/
structure SRela where
  offset : Nat
  symIdx : Nat
deriving DecidableEq, Repr

/-- Whether a relocation's offset falls within the group starting at `s`
of size `n`. -/
def relaInRange (r : SRela) (s n : Nat) : Bool :=
  decide (s ≤ r.offset) && decide (r.offset < s + n)

/-- Whether the symbol at the given index is an `STT_FUNC` whose owning
section is already included (the per-relocation test of
`should_keep_rela_group`). -/
def symIsIncludedFunc (syms : List SSym) (secIncl : List Bool) (i : Nat) : Bool :=
  match syms.get? i with
  | none => false
  | some sy =>
    (sy.typ == SymTy.stFunc) &&
    (match sy.sec with
     | none => false
     | some si => secIncl.getD si false)

/-- Embedding of `should_keep_rela_group` (create-diff-object.c:916-934):
a group is kept iff some relocation in its range targets an `STT_FUNC`
symbol whose section is included. -/
def should_keep_rela_group (relas : List SRela) (syms : List SSym)
    (secIncl : List Bool) (start size : Nat) : Bool :=
  relas.any (fun r => relaInRange r start size && symIsIncludedFunc syms secIncl r.symIdx)

/-- Set the include flag of the symbol at the given index. -/
def setSymIncl (syms : List SSym) (i : Nat) : List SSym :=
  match syms.get? i with
  | none => syms
  | some s => syms.set i { s with incl := true }

/-- Mark every symbol in the index list as included. -/
def markIncluded (syms : List SSym) (idxs : List Nat) : List SSym :=
  idxs.foldl setSymIncl syms

/-- One special section pair (base section and its relocation section) as
touched by `xsplice_regenerate_special_section`: statuses, include flags,
the base data, the base header size and alignment, and the relocation
list. -/
structure SpecialSecState where
  baseStatus : Status
  relaStatus : Status
  baseIncl : Bool
  relaIncl : Bool
  baseData : List Nat
  baseShSize : Nat
  baseAlign : Nat
  relas : List SRela
deriving DecidableEq, Repr

/-- The group walk of `xsplice_regenerate_special_section`
(create-diff-object.c:952-985), fuelled: advance `src_offset` by the
group size each iteration; for a kept group move its relocations (in list
order) to the accumulator rebased by `dest_offset - src_offset`, mark
their targets included, and append the group's bytes to the output
buffer.  Returns (final src offset, final dest offset, moved relas,
updated symbols, output bytes). -/
def regenLoop (gs : Nat → Nat) (shSize : Nat) (data : List Nat) (secIncl : List Bool) :
    Nat → Nat → Nat → List SRela → List SSym → List SRela → List Nat →
    Option (Nat × Nat × List SRela × List SSym × List Nat)
  | fuel, srcOff, destOff, relas, syms, accR, accD =>
    if shSize ≤ srcOff then some (srcOff, destOff, accR, syms, accD)
    else
      match fuel with
      | 0 => none
      | fuel + 1 =>
        if should_keep_rela_group relas syms secIncl srcOff (gs srcOff) then
          regenLoop gs shSize data secIncl fuel (srcOff + gs srcOff)
            (destOff + gs srcOff)
            (relas.filter (fun r => !(relaInRange r srcOff (gs srcOff))))
            (markIncluded syms
              ((relas.filter (fun r => relaInRange r srcOff (gs srcOff))).map (·.symIdx)))
            (accR ++ (relas.filter (fun r => relaInRange r srcOff (gs srcOff))).map
              (fun r => { r with offset := r.offset - srcOff + destOff }))
            (accD ++ (data.drop srcOff).take (gs srcOff))
        else
          regenLoop gs shSize data secIncl fuel (srcOff + gs srcOff) destOff
            relas syms accR accD

/-- Embedding of `xsplice_regenerate_special_section`
(create-diff-object.c:936-1016): run the walk; fail if the final source
offset is not the alignment-rounded section size; if nothing was kept,
force the pair SAME and not included; otherwise install the moved
relocations, include both sections and replace the base data with the
compacted buffer. -/
def xsplice_regenerate_special_section (gs : Nat → Nat) (secIncl : List Bool)
    (st : SpecialSecState) (syms : List SSym) :
    Option (SpecialSecState × List SSym) :=
  match regenLoop gs st.baseShSize st.baseData secIncl (st.baseShSize + 1) 0 0
      st.relas syms [] [] with
  | none => none
  | some (srcFinal, destOff, accR, syms2, accD) =>
    if srcFinal ≠ ((st.baseShSize + st.baseAlign - 1) / st.baseAlign) * st.baseAlign then
      none
    else if destOff = 0 then
      some ({ st with
                baseStatus := Status.same
                relaStatus := Status.same
                baseIncl := false
                relaIncl := false }, syms2)
    else
      some ({ st with
                relas := accR
                baseIncl := true
                relaIncl := true
                baseData := accD }, syms2)

/-- Declarative walk of the group decomposition: final source offset and
the list of kept groups (start, size) under the given keep predicate. -/
def walkGroups (gs : Nat → Nat) (shSize : Nat) (keep : Nat → Nat → Bool) :
    Nat → Nat → Option (Nat × List (Nat × Nat))
  | fuel, srcOff =>
    if shSize ≤ srcOff then some (srcOff, [])
    else
      match fuel with
      | 0 => none
      | fuel + 1 =>
        match walkGroups gs shSize keep fuel (srcOff + gs srcOff) with
        | none => none
        | some (fin, l) =>
          some (fin, if keep srcOff (gs srcOff) then (srcOff, gs srcOff) :: l else l)

/-- Concatenation of the byte ranges of a group list. -/
def dataConcat (data : List Nat) : List (Nat × Nat) → List Nat
  | [] => []
  | (s, n) :: rest => (data.drop s).take n ++ dataConcat data rest

/-- Total size of a group list. -/
def sumSizes : List (Nat × Nat) → Nat
  | [] => 0
  | (_, n) :: rest => n + sumSizes rest

/-- The relocation list rebuilt from the kept groups: for each kept group
in order, the original relocations falling in its range, rebased to the
group's destination offset. -/
def rebuildRelas (relasOrig : List SRela) : List (Nat × Nat) → Nat → List SRela
  | [], _ => []
  | (s, n) :: rest, destOff =>
    ((relasOrig.filter (fun r => relaInRange r s n)).map
      (fun r => { r with offset := r.offset - s + destOff })) ++
    rebuildRelas relasOrig rest (destOff + n)

/-- The target-symbol indices of the kept groups' relocations, in walk
order. -/
def groupTargets (relasOrig : List SRela) : List (Nat × Nat) → List Nat
  | [] => []
  | (s, n) :: rest =>
    (relasOrig.filter (fun r => relaInRange r s n)).map (·.symIdx) ++
    groupTargets relasOrig rest

/-- Shape of a symbol as consulted by the keep test: type and owning
section (the walk changes only include flags). -/
def symShape (s : SSym) : SymTy × Option Nat := (s.typ, s.sec)

/-- Two symbol lists agree pointwise on type and owning section. -/
def SameShape (a b : List SSym) : Prop :=
  ∀ j, (a.get? j).map symShape = (b.get? j).map symShape

/-- Helper: any over a filtered list. -/
theorem anyFilterHelper (l : List SRela) (q p : SRela → Bool) :
    (l.filter q).any p = l.any (fun a => q a && p a) := by
  induction l with
  | nil => rfl
  | cons a t ih =>
    by_cases hq : q a
    · rw [List.filter_cons_of_pos hq]
      simp [hq, ih]
    · rw [List.filter_cons_of_neg (by simpa using hq)]
      simp only [List.any_cons]
      rw [ih]
      simp [show q a = false from by simpa using hq]

/-- Helper: `setSymIncl` preserves the list length. -/
theorem setSymIncl_length (syms : List SSym) (i : Nat) :
    (setSymIncl syms i).length = syms.length := by
  unfold setSymIncl
  cases hg : syms.get? i with
  | none => rfl
  | some s => exact List.length_set syms i _

/-- Helper: `markIncluded` preserves the list length. -/
theorem markIncluded_length (idxs : List Nat) : ∀ (syms : List SSym),
    (markIncluded syms idxs).length = syms.length := by
  induction idxs with
  | nil => intro syms; rfl
  | cons i rest ih =>
    intro syms
    show (markIncluded (setSymIncl syms i) rest).length = _
    rw [ih, setSymIncl_length]

/-- Helper: `setSymIncl` preserves type and owning section pointwise. -/
theorem setSymIncl_shape (syms : List SSym) (i : Nat) :
    SameShape (setSymIncl syms i) syms := by
  intro j
  unfold setSymIncl
  cases hg : syms.get? i with
  | none => rfl
  | some s =>
    by_cases hij : i = j
    · subst hij
      have hlt : i < syms.length := by
        by_contra hc
        rw [List.get?_eq_none.mpr (le_of_not_lt hc)] at hg
        exact Option.noConfusion hg
      rw [List.get?_set_eq_of_lt _ hlt, hg]
      rfl
    · rw [List.get?_set_ne _ _ hij]

/-- Helper: `markIncluded` preserves type and owning section pointwise. -/
theorem markIncluded_shape (idxs : List Nat) : ∀ (syms : List SSym),
    SameShape (markIncluded syms idxs) syms := by
  induction idxs with
  | nil => intro syms j; rfl
  | cons i rest ih =>
    intro syms j
    show ((markIncluded (setSymIncl syms i) rest).get? j).map symShape = _
    rw [ih (setSymIncl syms i) j, setSymIncl_shape syms i j]

/-- Helper: the keep test only consults type and owning section. -/
theorem symIsIncludedFunc_shape {a b : List SSym} (h : SameShape a b)
    (secIncl : List Bool) (i : Nat) :
    symIsIncludedFunc a secIncl i = symIsIncludedFunc b secIncl i := by
  unfold symIsIncludedFunc
  have hsh := h i
  cases ha : a.get? i with
  | none =>
    rw [ha] at hsh
    cases hb : b.get? i with
    | none => rfl
    | some vb => rw [hb] at hsh; simp at hsh
  | some va =>
    rw [ha] at hsh
    cases hb : b.get? i with
    | none => rw [hb] at hsh; simp at hsh
    | some vb =>
      rw [hb] at hsh
      have hsh2 : symShape va = symShape vb := by simpa using hsh
      have h1 : va.typ = vb.typ := congrArg Prod.fst hsh2
      have h2 : va.sec = vb.sec := congrArg Prod.snd hsh2
      simp only [h1, h2]

/-- Helper: `should_keep_rela_group` is insensitive to include-flag
changes of the symbol list. -/
theorem should_keep_shape {syms syms0 : List SSym} (hsh : SameShape syms syms0)
    (relas : List SRela) (secIncl : List Bool) (s n : Nat) :
    should_keep_rela_group relas syms secIncl s n =
      should_keep_rela_group relas syms0 secIncl s n := by
  unfold should_keep_rela_group
  congr 1
  funext r
  rw [symIsIncludedFunc_shape hsh]

/-- Helper: the keep test over the not-yet-moved relocations equals the
test over the original list, for groups at or beyond the cursor, because
only relocations below the cursor have been moved away. -/
theorem should_keep_filter (relasOrig : List SRela) (q : SRela → Bool)
    (syms : List SSym) (secIncl : List Bool) (srcOff s n : Nat)
    (hq : ∀ r : SRela, srcOff ≤ r.offset → q r = true) (hs : srcOff ≤ s) :
    should_keep_rela_group (relasOrig.filter q) syms secIncl s n =
      should_keep_rela_group relasOrig syms secIncl s n := by
  unfold should_keep_rela_group
  rw [anyFilterHelper]
  congr 1
  funext r
  by_cases hr : relaInRange r s n
  · have hoff : s ≤ r.offset := by
      have := hr
      unfold relaInRange at this
      simp only [Bool.and_eq_true, decide_eq_true_eq] at this
      exact this.1
    rw [hq r (le_trans hs hoff)]
    simp
  · simp [show relaInRange r s n = false from by simpa using hr]

/-- Helper: the moved relocations of a group drawn from the not-yet-moved
list equal those drawn from the original list, for groups at or beyond
the cursor. -/
theorem moved_filter (relasOrig : List SRela) (q : SRela → Bool)
    (srcOff s n : Nat)
    (hq : ∀ r : SRela, srcOff ≤ r.offset → q r = true) (hs : srcOff ≤ s) :
    (relasOrig.filter q).filter (fun r => relaInRange r s n) =
      relasOrig.filter (fun r => relaInRange r s n) := by
  rw [List.filter_filter]
  apply List.filter_congr
  intro r _
  by_cases hr : relaInRange r s n
  · have hoff : s ≤ r.offset := by
      have := hr
      unfold relaInRange at this
      simp only [Bool.and_eq_true, decide_eq_true_eq] at this
      exact this.1
    rw [hr, hq r (le_trans hs hoff)]
    rfl
  · rw [show relaInRange r s n = false from by simpa using hr]
    simp

/-- Helper: `markIncluded` distributes over index-list concatenation. -/
theorem markIncluded_append (syms : List SSym) (a b : List Nat) :
    markIncluded syms (a ++ b) = markIncluded (markIncluded syms a) b :=
  List.foldl_append _ _ _ _

/-- Helper: the declarative walk never moves the cursor backwards. -/
theorem walkGroups_le (gs : Nat → Nat) (shSize : Nat) (keep : Nat → Nat → Bool) :
    ∀ (fuel srcOff fin : Nat) (gl : List (Nat × Nat)),
    walkGroups gs shSize keep fuel srcOff = some (fin, gl) → srcOff ≤ fin := by
  intro fuel
  induction fuel with
  | zero =>
    intro srcOff fin gl h
    rw [walkGroups] at h
    by_cases hs : shSize ≤ srcOff
    · rw [if_pos hs] at h
      simp only [Option.some.injEq, Prod.mk.injEq] at h
      omega
    · rw [if_neg hs] at h
      simp at h
  | succ f ih =>
    intro srcOff fin gl h
    rw [walkGroups] at h
    by_cases hs : shSize ≤ srcOff
    · rw [if_pos hs] at h
      simp only [Option.some.injEq, Prod.mk.injEq] at h
      omega
    · rw [if_neg hs] at h
      cases hrec : walkGroups gs shSize keep f (srcOff + gs srcOff) with
      | none => rw [hrec] at h; simp at h
      | some p =>
        obtain ⟨fin2, gl2⟩ := p
        rw [hrec] at h
        simp only [Option.some.injEq, Prod.mk.injEq] at h
        have := ih (srcOff + gs srcOff) fin2 gl2 hrec
        omega

/-- Helper: every kept group of the declarative walk starts at or after
the starting cursor, ends at or before the final offset, and has the
architecture group size of its start. -/
theorem walkGroups_bounds (gs : Nat → Nat) (shSize : Nat) (keep : Nat → Nat → Bool) :
    ∀ (fuel srcOff fin : Nat) (gl : List (Nat × Nat)),
    walkGroups gs shSize keep fuel srcOff = some (fin, gl) →
    ∀ g ∈ gl, srcOff ≤ g.1 ∧ g.1 + g.2 ≤ fin ∧ g.2 = gs g.1 := by
  intro fuel
  induction fuel with
  | zero =>
    intro srcOff fin gl h g hg
    rw [walkGroups] at h
    by_cases hs : shSize ≤ srcOff
    · rw [if_pos hs] at h
      simp only [Option.some.injEq, Prod.mk.injEq] at h
      rw [← h.2] at hg
      simp at hg
    · rw [if_neg hs] at h
      simp at h
  | succ f ih =>
    intro srcOff fin gl h g hg
    rw [walkGroups] at h
    by_cases hs : shSize ≤ srcOff
    · rw [if_pos hs] at h
      simp only [Option.some.injEq, Prod.mk.injEq] at h
      rw [← h.2] at hg
      simp at hg
    · rw [if_neg hs] at h
      cases hrec : walkGroups gs shSize keep f (srcOff + gs srcOff) with
      | none => rw [hrec] at h; simp at h
      | some p =>
        obtain ⟨fin2, gl2⟩ := p
        rw [hrec] at h
        simp only [Option.some.injEq, Prod.mk.injEq] at h
        obtain ⟨hfin, hgl⟩ := h
        have hle := walkGroups_le gs shSize keep f (srcOff + gs srcOff) fin2 gl2 hrec
        by_cases hk : keep srcOff (gs srcOff)
        · rw [if_pos hk] at hgl
          rw [← hgl] at hg
          rcases List.mem_cons.mp hg with h1 | h1
          · subst h1
            exact ⟨le_rfl, by omega, rfl⟩
          · obtain ⟨t1, t2, t3⟩ := ih (srcOff + gs srcOff) fin2 gl2 hrec g h1
            exact ⟨by omega, by omega, t3⟩
        · rw [if_neg hk] at hgl
          rw [← hgl] at hg
          obtain ⟨t1, t2, t3⟩ := ih (srcOff + gs srcOff) fin2 gl2 hrec g hg
          exact ⟨by omega, by omega, t3⟩

/-- Helper: length of the compacted buffer when every group fits in the
source data. -/
theorem dataConcat_length (data : List Nat) : ∀ (gl : List (Nat × Nat)),
    (∀ g ∈ gl, g.1 + g.2 ≤ data.length) →
    (dataConcat data gl).length = sumSizes gl := by
  intro gl
  induction gl with
  | nil => intro _; rfl
  | cons g rest ih =>
    intro hb
    obtain ⟨s, n⟩ := g
    have hg := hb (s, n) (List.mem_cons_self _ _)
    simp only [dataConcat, sumSizes, List.length_append]
    rw [ih (fun g hg2 => hb g (List.mem_cons_of_mem _ hg2))]
    have : ((data.drop s).take n).length = n := by
      rw [List.length_take, List.length_drop]
      simp only at hg
      omega
    omega

/-- Helper: `markIncluded` leaves unlisted indices untouched. -/
theorem markIncluded_get_not_mem (idxs : List Nat) : ∀ (syms : List SSym) (i : Nat),
    i ∉ idxs → (markIncluded syms idxs).get? i = syms.get? i := by
  induction idxs with
  | nil => intro syms i _; rfl
  | cons j rest ih =>
    intro syms i hi
    have hij : j ≠ i := fun h => hi (h ▸ List.mem_cons_self _ _)
    have hrest : i ∉ rest := fun h => hi (List.mem_cons_of_mem _ h)
    show (markIncluded (setSymIncl syms j) rest).get? i = _
    rw [ih _ _ hrest]
    unfold setSymIncl
    cases hg : syms.get? j with
    | none => rfl
    | some s => exact List.get?_set_ne _ _ hij

/-- Helper: `markIncluded` sets the include flag of every listed,
in-range index, leaving the other fields as they were. -/
theorem markIncluded_get_mem (idxs : List Nat) : ∀ (syms : List SSym) (i : Nat),
    i ∈ idxs → i < syms.length →
    (markIncluded syms idxs).get? i =
      (syms.get? i).map (fun s => { s with incl := true }) := by
  induction idxs with
  | nil => intro syms i hi _; simp at hi
  | cons j rest ih =>
    intro syms i hi hlt
    show (markIncluded (setSymIncl syms j) rest).get? i = _
    by_cases hmem : i ∈ rest
    · rw [ih _ _ hmem (by rw [setSymIncl_length]; exact hlt)]
      by_cases hij : j = i
      · subst hij
        cases hg : syms.get? j with
        | none =>
          have hid : setSymIncl syms j = syms := by unfold setSymIncl; rw [hg]
          rw [hid, hg]
        | some s =>
          have h1 : setSymIncl syms j = syms.set j { s with incl := true } := by
            unfold setSymIncl; rw [hg]
          have h2 : (syms.set j { s with incl := true }).get? j =
              some { s with incl := true } := List.get?_set_eq_of_lt _ hlt
          rw [h1, h2]
          rfl
      · have hother : (setSymIncl syms j).get? i = syms.get? i := by
          unfold setSymIncl
          cases hg : syms.get? j with
          | none => rfl
          | some s => exact List.get?_set_ne _ _ hij
        rw [hother]
    · have hij : j = i := by
        rcases List.mem_cons.mp hi with h | h
        · exact h.symm
        · exact absurd h hmem
      subst hij
      rw [markIncluded_get_not_mem rest _ _ hmem]
      cases hg : syms.get? j with
      | none =>
        exact absurd hg (by rw [List.get?_eq_none]; omega)
      | some s =>
        have h1 : setSymIncl syms j = syms.set j { s with incl := true } := by
          unfold setSymIncl; rw [hg]
        have h2 : (syms.set j { s with incl := true }).get? j =
            some { s with incl := true } := List.get?_set_eq_of_lt _ hlt
        rw [h1, h2]
        rfl

/-- Helper: full characterization of the regeneration walk, proved by
induction on the fuel.  Relative to the original relocation list (of
which the current list is the not-yet-moved filter), the walk computes
exactly the kept groups of the declarative walk, appending per kept group
its relocations rebased to the running destination offset, marking their
targets included, and concatenating its bytes. -/
theorem regenLoop_correct (gs : Nat → Nat) (shSize : Nat) (data : List Nat)
    (secIncl : List Bool) (relasOrig : List SRela) (syms0 : List SSym) :
    ∀ (fuel srcOff destOff : Nat) (relasCur : List SRela) (syms : List SSym)
      (accR : List SRela) (accD : List Nat) (q : SRela → Bool)
      (out : Nat × Nat × List SRela × List SSym × List Nat),
      regenLoop gs shSize data secIncl fuel srcOff destOff relasCur syms accR accD =
        some out →
      relasCur = relasOrig.filter q →
      (∀ r : SRela, srcOff ≤ r.offset → q r = true) →
      SameShape syms syms0 →
      ∃ fin gl,
        walkGroups gs shSize (should_keep_rela_group relasOrig syms0 secIncl)
          fuel srcOff = some (fin, gl) ∧
        out = (fin, destOff + sumSizes gl,
               accR ++ rebuildRelas relasOrig gl destOff,
               markIncluded syms (groupTargets relasOrig gl),
               accD ++ dataConcat data gl) := by
  intro fuel
  induction fuel with
  | zero =>
    intro srcOff destOff relasCur syms accR accD q out hok hrel hbound hsh
    rw [regenLoop] at hok
    by_cases hs : shSize ≤ srcOff
    · rw [if_pos hs] at hok
      simp only [Option.some.injEq] at hok
      refine ⟨srcOff, [], by rw [walkGroups, if_pos hs], ?_⟩
      rw [← hok]
      simp [rebuildRelas, groupTargets, dataConcat, sumSizes, markIncluded]
    · rw [if_neg hs] at hok
      simp at hok
  | succ f ih =>
    intro srcOff destOff relasCur syms accR accD q out hok hrel hbound hsh
    rw [regenLoop] at hok
    by_cases hs : shSize ≤ srcOff
    · rw [if_pos hs] at hok
      simp only [Option.some.injEq] at hok
      refine ⟨srcOff, [], by rw [walkGroups, if_pos hs], ?_⟩
      rw [← hok]
      simp [rebuildRelas, groupTargets, dataConcat, sumSizes, markIncluded]
    · rw [if_neg hs] at hok
      have hkbridge : should_keep_rela_group relasCur syms secIncl srcOff (gs srcOff) =
          should_keep_rela_group relasOrig syms0 secIncl srcOff (gs srcOff) := by
        rw [hrel, should_keep_filter relasOrig q syms secIncl srcOff srcOff (gs srcOff)
          hbound le_rfl, should_keep_shape hsh]
      have hmoved : relasCur.filter (fun r => relaInRange r srcOff (gs srcOff)) =
          relasOrig.filter (fun r => relaInRange r srcOff (gs srcOff)) := by
        rw [hrel]
        exact moved_filter relasOrig q srcOff srcOff (gs srcOff) hbound le_rfl
      by_cases hk : should_keep_rela_group relasCur syms secIncl srcOff (gs srcOff) = true
      · rw [if_pos hk] at hok
        have hkO : should_keep_rela_group relasOrig syms0 secIncl srcOff (gs srcOff) = true := by
          rw [← hkbridge]; exact hk
        have hrel2 : relasCur.filter (fun r => !(relaInRange r srcOff (gs srcOff))) =
            relasOrig.filter
              (fun r => (!(relaInRange r srcOff (gs srcOff))) && q r) := by
          rw [hrel, List.filter_filter]
        have hbound2 : ∀ r : SRela, srcOff + gs srcOff ≤ r.offset →
            ((!(relaInRange r srcOff (gs srcOff))) && q r) = true := by
          intro r hr
          have h1 : relaInRange r srcOff (gs srcOff) = false := by
            unfold relaInRange
            simp only [Bool.and_eq_false_iff, decide_eq_false_iff_not]
            right
            omega
          rw [h1, hbound r (by omega)]
          rfl
        have hsh2 : SameShape (markIncluded syms
            ((relasCur.filter (fun r => relaInRange r srcOff (gs srcOff))).map (·.symIdx)))
            syms0 := by
          intro j
          rw [markIncluded_shape _ _ j, hsh j]
        obtain ⟨fin, gl', hwalk', hout⟩ := ih (srcOff + gs srcOff) (destOff + gs srcOff)
          _ _ _ _ _ out hok hrel2 hbound2 hsh2
        refine ⟨fin, (srcOff, gs srcOff) :: gl', ?_, ?_⟩
        · rw [walkGroups, if_neg hs, hwalk']
          simp [hkO]
        · rw [hout]
          simp only [Prod.mk.injEq]
          refine ⟨trivial, ?_, ?_, ?_, ?_⟩
          · simp only [sumSizes]
            omega
          · rw [rebuildRelas, hmoved, List.append_assoc]
          · rw [groupTargets, markIncluded_append, hmoved]
          · rw [dataConcat, List.append_assoc]
      · rw [if_neg hk] at hok
        have hkO : should_keep_rela_group relasOrig syms0 secIncl srcOff (gs srcOff) = false := by
          rw [← hkbridge]
          simpa using hk
        have hbound2 : ∀ r : SRela, srcOff + gs srcOff ≤ r.offset → q r = true :=
          fun r hr => hbound r (by omega)
        obtain ⟨fin, gl', hwalk', hout⟩ := ih (srcOff + gs srcOff) destOff
          _ _ _ _ _ out hok hrel hbound2 hsh
        refine ⟨fin, gl', ?_, hout⟩
        rw [walkGroups, if_neg hs, hwalk']
        simp [hkO]

/-- Helper: a kept-group list with positive group sizes and zero total
size is empty. -/
theorem sumSizes_zero_nil (gl : List (Nat × Nat)) (hpos : ∀ g ∈ gl, 1 ≤ g.2)
    (hz : sumSizes gl = 0) : gl = [] := by
  cases gl with
  | nil => rfl
  | cons g rest =>
    have := hpos g (List.mem_cons_self _ _)
    simp only [sumSizes] at hz
    omega

/-- C4: on success, the special-section regeneration keeps exactly the
groups with a relocation targeting an STT_FUNC symbol of an included
section (the declarative walk with that keep predicate); the regenerated
data is the concatenation of the kept groups' bytes in original order and
its length is the sum of the kept group sizes; the relocation list is the
kept groups' relocations rebased by dest-src with their targets marked
included; and when no group is kept, the section pair is forced SAME and
not included. -/
theorem regenerate_special_section_spec (gs : Nat → Nat) (secIncl : List Bool)
    (st : SpecialSecState) (syms0 : List SSym)
    (stOut : SpecialSecState) (symsOut : List SSym)
    (hgs : ∀ o, 1 ≤ gs o)
    (hdata : ((st.baseShSize + st.baseAlign - 1) / st.baseAlign) * st.baseAlign ≤
      st.baseData.length)
    (hok : xsplice_regenerate_special_section gs secIncl st syms0 =
      some (stOut, symsOut)) :
    ∃ gl, walkGroups gs st.baseShSize
        (should_keep_rela_group st.relas syms0 secIncl) (st.baseShSize + 1) 0 =
        some (((st.baseShSize + st.baseAlign - 1) / st.baseAlign) * st.baseAlign, gl) ∧
      (gl = [] →
        stOut = { st with
                  baseStatus := Status.same
                  relaStatus := Status.same
                  baseIncl := false
                  relaIncl := false } ∧ symsOut = syms0) ∧
      (gl ≠ [] →
        stOut.relas = rebuildRelas st.relas gl 0 ∧
        stOut.baseData = dataConcat st.baseData gl ∧
        stOut.baseData.length = sumSizes gl ∧
        stOut.baseIncl = true ∧ stOut.relaIncl = true ∧
        symsOut = markIncluded syms0 (groupTargets st.relas gl) ∧
        (∀ i ∈ groupTargets st.relas gl, i < syms0.length →
          symsOut.get? i = (syms0.get? i).map (fun s => { s with incl := true }))) := by
  unfold xsplice_regenerate_special_section at hok
  cases hr : regenLoop gs st.baseShSize st.baseData secIncl (st.baseShSize + 1) 0 0
      st.relas syms0 [] [] with
  | none => rw [hr] at hok; exact absurd hok (by simp)
  | some out5 =>
    obtain ⟨srcF, dF, accR, syms2, accD⟩ := out5
    simp only [hr] at hok
    obtain ⟨fin, gl, hwalk, hout⟩ := regenLoop_correct gs st.baseShSize st.baseData
      secIncl st.relas syms0 (st.baseShSize + 1) 0 0 st.relas syms0 [] []
      (fun _ => true) _ hr (by rw [List.filter_true]) (fun r _ => rfl) (fun j => rfl)
    simp only [Prod.mk.injEq] at hout
    obtain ⟨hfin, hdF, haccR, hsyms2, haccD⟩ := hout
    simp only [List.nil_append, Nat.zero_add] at hdF haccR haccD
    by_cases hsrc : srcF ≠ ((st.baseShSize + st.baseAlign - 1) / st.baseAlign) * st.baseAlign
    · rw [if_pos hsrc] at hok
      exact absurd hok (by simp)
    · rw [if_neg hsrc] at hok
      push_neg at hsrc
      have hfin2 : fin = ((st.baseShSize + st.baseAlign - 1) / st.baseAlign) * st.baseAlign := by
        rw [← hfin, hsrc]
      rw [hfin2] at hwalk
      have hpos : ∀ g ∈ gl, 1 ≤ g.2 := by
        intro g hg
        have := walkGroups_bounds gs st.baseShSize _ _ _ _ _ hwalk g hg
        rw [this.2.2]
        exact hgs g.1
      refine ⟨gl, hwalk, ?_, ?_⟩
      · intro hnil
        subst hnil
        have hdF0 : dF = 0 := by rw [hdF]; rfl
        rw [if_pos hdF0] at hok
        simp only [Option.some.injEq, Prod.mk.injEq] at hok
        refine ⟨hok.1.symm, ?_⟩
        rw [← hok.2, hsyms2]
        rfl
      · intro hnnil
        have hdF0 : dF ≠ 0 := by
          rw [hdF]
          cases gl with
          | nil => exact absurd rfl hnnil
          | cons g rest =>
            have := hpos g (List.mem_cons_self _ _)
            simp only [sumSizes]
            omega
        rw [if_neg hdF0] at hok
        simp only [Option.some.injEq, Prod.mk.injEq] at hok
        obtain ⟨hst, hsy⟩ := hok
        have hbounds : ∀ g ∈ gl, g.1 + g.2 ≤ st.baseData.length := by
          intro g hg
          have := walkGroups_bounds gs st.baseShSize _ _ _ _ _ hwalk g hg
          omega
        refine ⟨?_, ?_, ?_, ?_, ?_, ?_, ?_⟩
        · rw [← hst, haccR]
        · rw [← hst, haccD]
        · rw [← hst]
          show accD.length = _
          rw [haccD]
          exact dataConcat_length st.baseData gl hbounds
        · rw [← hst]
        · rw [← hst]
        · rw [← hsy, hsyms2]
        · intro i hi hlt
          rw [← hsy, hsyms2]
          exact markIncluded_get_mem _ _ _ hi hlt

/-- Concrete group-size function (8-byte groups) for the C4 witness. -/
def c4gs (o : Nat) : Nat := 8

/-- Concrete section-include table for the C4 witness. -/
def c4secIncl : List Bool := [true]

/-- Concrete symbol table for the C4 witness: one function symbol in
section 0, not yet included. -/
def c4syms : List SSym := [{ typ := SymTy.stFunc, sec := some 0, incl := false }]

/-- Concrete special-section state for the C4 witness: an 8-byte section
with one relocation at offset 0. -/
def c4st : SpecialSecState :=
  { baseStatus := Status.changed, relaStatus := Status.changed,
    baseIncl := false, relaIncl := false,
    baseData := [1, 2, 3, 4, 5, 6, 7, 8], baseShSize := 8, baseAlign := 8,
    relas := [{ offset := 0, symIdx := 0 }] }

/-- Expected regenerated state for the C4 witness. -/
def c4stOut : SpecialSecState :=
  { baseStatus := Status.changed, relaStatus := Status.changed,
    baseIncl := true, relaIncl := true,
    baseData := [1, 2, 3, 4, 5, 6, 7, 8], baseShSize := 8, baseAlign := 8,
    relas := [{ offset := 0, symIdx := 0 }] }

/-- Expected symbol table after the C4 witness run: the target marked
included. -/
def c4symsOut : List SSym := [{ typ := SymTy.stFunc, sec := some 0, incl := true }]

/-- Witness for C4: the regeneration theorem applies to a concrete
one-group section whose single relocation targets an included function. -/
theorem regenerate_special_section_spec_witness :
    (∀ o : Nat, 1 ≤ c4gs o) ∧
    xsplice_regenerate_special_section c4gs c4secIncl c4st c4syms =
      some (c4stOut, c4symsOut) ∧
    ∃ gl, walkGroups c4gs c4st.baseShSize
        (should_keep_rela_group c4st.relas c4syms c4secIncl) (c4st.baseShSize + 1) 0 =
        some (((c4st.baseShSize + c4st.baseAlign - 1) / c4st.baseAlign) * c4st.baseAlign,
          gl) := by
  refine ⟨fun o => by norm_num [c4gs], by decide, ?_⟩
  obtain ⟨gl, hw, _⟩ := regenerate_special_section_spec c4gs c4secIncl c4st c4syms
    c4stOut c4symsOut (fun o => by norm_num [c4gs]) (by decide) (by decide)
  exact ⟨gl, hw⟩

/-! ### Mangled-function renaming (C5) -/

/-- Symbol view for the renaming pass: name, type and owning section. -/
structure RnSym where
  name : List Char
  typ : SymTy
  secIdx : Option Nat
deriving DecidableEq, Repr

/-- Section view for the renaming pass: name, relocation section,
section symbol and bundled symbol (all as indices). -/
structure RnSec where
  name : List Char
  relaIdx : Option Nat
  secsymIdx : Option Nat
  symIdx : Option Nat
deriving DecidableEq, Repr

/-- An object model as touched by the renaming pass. -/
structure RnElf where
  secs : List RnSec
  syms : List RnSym
deriving DecidableEq, Repr

/-- Embedding of C `strstr` as a containment test. -/
def strContains : List Char → List Char → Bool
  | s, needle =>
    match s with
    | [] => needle.isEmpty
    | h :: t => needle.isPrefixOf (h :: t) || strContains t needle

/-- The compiler-mangling markers tested by
`xsplice_rename_mangled_functions` (create-diff-object.c:238-241). -/
def hasMangledMarker (name : List Char) : Bool :=
  strContains name ".isra.".toList || strContains name ".constprop.".toList ||
  strContains name ".part.".toList

/-- Set the name of the symbol at an index. -/
def setSymName (syms : List RnSym) (i : Nat) (n : List Char) : List RnSym :=
  match syms.get? i with
  | none => syms
  | some s => syms.set i { s with name := n }

/-- Set the name of the section at an index. -/
def setSecName (secs : List RnSec) (i : Nat) (n : List Char) : List RnSec :=
  match secs.get? i with
  | none => secs
  | some s => secs.set i { s with name := n }

/-- Find the index of the first section with the given name
(`find_section_by_name`). -/
def findSecByName (secs : List RnSec) (n : List Char) : Option Nat :=
  secs.findIdx? (fun s => s.name = n)

/-- The `.rodata.` sibling name of a function name. -/
def rodataName (n : List Char) : List Char := ".rodata.".toList ++ n

/-- One iteration of `xsplice_rename_mangled_functions`
(create-diff-object.c:234-285) for the patched symbol at index `i`:
skip non-functions and unmangled names; find the FIRST base symbol whose
name is mangled-equal; skip when absent or literally equal; rename the
symbol; when it is its section's bundled symbol also rename the section,
its relocation section, and any `.rodata.` sibling pair.  `none` models
the C dereferencing a NULL section or relocation section. -/
def renameStep (base : RnElf) (st : RnElf) (i : Nat) : Option RnElf :=
  match st.syms.get? i with
  | none => some st
  | some sym =>
    if sym.typ ≠ SymTy.stFunc then some st
    else if ¬ hasMangledMarker sym.name then some st
    else
      match base.syms.find? (fun b => decide (xsplice_mangled_strcmp b.name sym.name = 0)) with
      | none => some st
      | some basesym =>
        if sym.name = basesym.name then some st
        else
          let st1 : RnElf := { st with syms := setSymName st.syms i basesym.name }
          match sym.secIdx with
          | none => none
          | some sid =>
            match st.secs.get? sid with
            | none => none
            | some sec =>
              if sec.symIdx ≠ some i then some st1
              else
                match basesym.secIdx with
                | none => none
                | some bsid =>
                  match base.secs.get? bsid with
                  | none => none
                  | some bsec =>
                    let st2 : RnElf := { st1 with secs := setSecName st1.secs sid bsec.name }
                    match
                      (match sec.relaIdx with
                       | none => some st2
                       | some rid =>
                         match bsec.relaIdx with
                         | none => none
                         | some brid =>
                           match base.secs.get? brid with
                           | none => none
                           | some brsec =>
                             some { st2 with secs := setSecName st2.secs rid brsec.name }) with
                    | none => none
                    | some st3 =>
                      match findSecByName st3.secs (rodataName sym.name) with
                      | none => some st3
                      | some rsid =>
                        match findSecByName base.secs (rodataName basesym.name) with
                        | none => some st3
                        | some brsid =>
                          match base.secs.get? brsid, st3.secs.get? rsid with
                          | some brsec2, some rsec =>
                            let st4 : RnElf :=
                              { st3 with secs := setSecName st3.secs rsid brsec2.name }
                            match rsec.secsymIdx with
                            | none => none
                            | some ssid =>
                              let st5 : RnElf :=
                                { st4 with syms := setSymName st4.syms ssid brsec2.name }
                              match rsec.relaIdx with
                              | none => some st5
                              | some rrid =>
                                match brsec2.relaIdx with
                                | none => none
                                | some brrid =>
                                  match base.secs.get? brrid with
                                  | none => none
                                  | some brrsec =>
                                    some { st5 with
                                           secs := setSecName st5.secs rrid brrsec.name }
                          | _, _ => none

/-- The renaming pass as a loop over the given patched symbol indices. -/
def renameLoop (base : RnElf) : RnElf → List Nat → Option RnElf
  | st, [] => some st
  | st, i :: rest =>
    match renameStep base st i with
    | none => none
    | some st2 => renameLoop base st2 rest

/-- Embedding of `xsplice_rename_mangled_functions`
(create-diff-object.c:226-286): the per-symbol step applied to every
patched symbol in list order. -/
def xsplice_rename_mangled_functions (base patched : RnElf) : Option RnElf :=
  renameLoop base patched (List.range patched.syms.length)

/-- Base model for the C5 counterexample: TWO functions match
`foo.isra.1` under mangled equality. -/
def c5base : RnElf :=
  { secs := [],
    syms := [{ name := "foo.isra.2".toList, typ := SymTy.stFunc, secIdx := none },
             { name := "foo.isra.3".toList, typ := SymTy.stFunc, secIdx := none }] }

/-- Patched model for the C5 counterexample: one mangled function living
in a section that is not bundled to it. -/
def c5patched : RnElf :=
  { secs := [{ name := ".text.custom".toList, relaIdx := none, secsymIdx := none,
               symIdx := none }],
    syms := [{ name := "foo.isra.1".toList, typ := SymTy.stFunc, secIdx := some 0 }] }

/-- C5 counterexample: the claim requires exactly ONE matching base
function before renaming, but the code renames to the FIRST match even
when two base functions match under mangled equality. -/
theorem rename_mangled_claim_counterexample :
    (c5base.syms.filter
      (fun b => decide (xsplice_mangled_strcmp b.name "foo.isra.1".toList = 0))).length = 2 ∧
    xsplice_rename_mangled_functions c5base c5patched =
      some { secs := c5patched.secs,
             syms := [{ name := "foo.isra.2".toList, typ := SymTy.stFunc,
                        secIdx := some 0 }] } := by
  constructor
  · decide
  · decide

/-- The name the renaming pass gives a patched symbol, per the amended
claim: for a function whose name carries a mangling marker, the name of
the FIRST base symbol matching under mangled equality (when one exists);
otherwise the name is unchanged. -/
def renamedName (base : RnElf) (sym : RnSym) : List Char :=
  if sym.typ = SymTy.stFunc ∧ hasMangledMarker sym.name then
    match base.syms.find? (fun b => decide (xsplice_mangled_strcmp b.name sym.name = 0)) with
    | none => sym.name
    | some b => b.name
  else sym.name

/-- Helper: `setSymName` leaves other indices untouched. -/
theorem setSymName_other (syms : List RnSym) (i : Nat) (n : List Char) (j : Nat)
    (h : j ≠ i) : (setSymName syms i n).get? j = syms.get? j := by
  unfold setSymName
  cases hg : syms.get? i with
  | none => rfl
  | some s => exact List.get?_set_ne _ _ (fun he => h he.symm)

/-- Helper: `setSymName` renames the targeted index. -/
theorem setSymName_self (syms : List RnSym) (i : Nat) (n : List Char) (s : RnSym)
    (hg : syms.get? i = some s) :
    (setSymName syms i n).get? i = some { s with name := n } := by
  have hlt : i < syms.length := by
    by_contra hc
    rw [List.get?_eq_none.mpr (le_of_not_lt hc)] at hg
    exact Option.noConfusion hg
  unfold setSymName
  rw [hg]
  exact List.get?_set_eq_of_lt _ hlt

/-- Helper: characterization of one renaming iteration when no patched
section has a bundled symbol — only the symbol's own name can change,
and it changes to `renamedName`. -/
theorem renameStep_char (base st : RnElf) (i : Nat) (st2 : RnElf)
    (hnb : ∀ sec ∈ st.secs, sec.symIdx = none)
    (hok : renameStep base st i = some st2) :
    st2.secs = st.secs ∧
    (∀ j, j ≠ i → st2.syms.get? j = st.syms.get? j) ∧
    st2.syms.get? i =
      (st.syms.get? i).map (fun s => { s with name := renamedName base s }) := by
  unfold renameStep at hok
  cases hg : st.syms.get? i with
  | none =>
    simp only [hg, Option.some.injEq] at hok
    subst hok
    exact ⟨rfl, fun j _ => rfl, by rw [hg]; rfl⟩
  | some sym =>
    simp only [hg] at hok
    have hrfl : (some sym).map (fun s => { s with name := renamedName base s }) =
        some { sym with name := renamedName base sym } := rfl
    by_cases ht : sym.typ ≠ SymTy.stFunc
    · rw [if_pos ht] at hok
      simp only [Option.some.injEq] at hok
      subst hok
      refine ⟨rfl, fun j _ => rfl, ?_⟩
      rw [hg, hrfl]
      have hval : renamedName base sym = sym.name := by
        unfold renamedName
        rw [if_neg (fun hcon => ht hcon.1)]
      rw [hval]
    · rw [if_neg ht] at hok
      push_neg at ht
      by_cases hm : hasMangledMarker sym.name
      · rw [if_neg (by simpa using hm)] at hok
        cases hf : base.syms.find?
            (fun b => decide (xsplice_mangled_strcmp b.name sym.name = 0)) with
        | none =>
          simp only [hf, Option.some.injEq] at hok
          subst hok
          refine ⟨rfl, fun j _ => rfl, ?_⟩
          rw [hg, hrfl]
          have hval : renamedName base sym = sym.name := by
            unfold renamedName
            rw [if_pos ⟨ht, hm⟩, hf]
          rw [hval]
        | some basesym =>
          simp only [hf] at hok
          have hrn : renamedName base sym = basesym.name := by
            unfold renamedName
            rw [if_pos ⟨ht, hm⟩, hf]
          by_cases he : sym.name = basesym.name
          · rw [if_pos he] at hok
            simp only [Option.some.injEq] at hok
            subst hok
            refine ⟨rfl, fun j _ => rfl, ?_⟩
            rw [hg, hrfl, hrn, ← he]
          · rw [if_neg he] at hok
            cases hsec : sym.secIdx with
            | none =>
              simp only [hsec] at hok
              exact absurd hok (by simp)
            | some sid =>
              simp only [hsec] at hok
              cases hsg : st.secs.get? sid with
              | none =>
                simp only [hsg] at hok
                exact absurd hok (by simp)
              | some sec =>
                simp only [hsg] at hok
                have hsnone : sec.symIdx = none := hnb sec (List.get?_mem hsg)
                rw [if_pos (by rw [hsnone]; simp)] at hok
                simp only [Option.some.injEq] at hok
                subst hok
                refine ⟨rfl, fun j hj => setSymName_other _ _ _ _ hj, ?_⟩
                show (setSymName st.syms i basesym.name).get? i = _
                rw [hrfl, hrn]
                exact setSymName_self _ _ _ _ hg
      · rw [if_pos (by simpa using hm)] at hok
        simp only [Option.some.injEq] at hok
        subst hok
        refine ⟨rfl, fun j _ => rfl, ?_⟩
        rw [hg, hrfl]
        have hval : renamedName base sym = sym.name := by
          unfold renamedName
          rw [if_neg (fun hcon =>
            (by simpa using hm : ¬ hasMangledMarker sym.name = true) hcon.2)]
        rw [hval]

/-- Helper: characterization of the renaming loop over distinct indices. -/
theorem renameLoop_char (base : RnElf) : ∀ (L : List Nat) (st out : RnElf),
    L.Nodup →
    (∀ sec ∈ st.secs, sec.symIdx = none) →
    renameLoop base st L = some out →
    out.secs = st.secs ∧
    (∀ j, j ∉ L → out.syms.get? j = st.syms.get? j) ∧
    (∀ j, j ∈ L → out.syms.get? j =
      (st.syms.get? j).map (fun s => { s with name := renamedName base s })) := by
  intro L
  induction L with
  | nil =>
    intro st out _ _ hok
    simp only [renameLoop, Option.some.injEq] at hok
    subst hok
    exact ⟨rfl, fun j _ => rfl, fun j hj => by simp at hj⟩
  | cons i rest ih =>
    intro st out hnd hnb hok
    rw [renameLoop] at hok
    cases hs : renameStep base st i with
    | none => rw [hs] at hok; exact absurd hok (by simp)
    | some st2 =>
      rw [hs] at hok
      obtain ⟨hsecs, hother, hself⟩ := renameStep_char base st i st2 hnb hs
      have hnd2 := List.nodup_cons.mp hnd
      have hnb2 : ∀ sec ∈ st2.secs, sec.symIdx = none := by
        rw [hsecs]; exact hnb
      obtain ⟨osecs, onot, oin⟩ := ih st2 out hnd2.2 hnb2 hok
      refine ⟨by rw [osecs, hsecs], ?_, ?_⟩
      · intro j hj
        have hji : j ≠ i := fun h => hj (h ▸ List.mem_cons_self _ _)
        have hjr : j ∉ rest := fun h => hj (List.mem_cons_of_mem _ h)
        rw [onot j hjr, hother j hji]
      · intro j hj
        rcases List.mem_cons.mp hj with h | h
        · subst h
          rw [onot j hnd2.1, hself]
        · have hji : j ≠ i := by
            intro he
            subst he
            exact hnd2.1 h
          rw [oin j h, hother j hji]

/-- C5 (amended), in three parts.  (1) When no patched section has a
bundled symbol, the pass leaves the sections untouched and renames each
patched function carrying a mangling marker to the name of the FIRST
base symbol matching under mangled equality (when one exists and the
names differ); all other symbols keep their names.  (2) When the renamed
symbol IS its section's bundled symbol and no `.rodata.` sibling is
found, that iteration moreover renames the section and its relocation
section to the base section's names.  (3) When a `.rodata.` sibling pair
is found as well, the iteration additionally renames the sibling, its
section symbol and its relocation section to the base names. -/
theorem rename_mangled_amended :
    (∀ (base patched out : RnElf),
      (∀ sec ∈ patched.secs, sec.symIdx = none) →
      xsplice_rename_mangled_functions base patched = some out →
      out.secs = patched.secs ∧
      ∀ j, out.syms.get? j =
        (patched.syms.get? j).map (fun s => { s with name := renamedName base s })) ∧
    (∀ (base st : RnElf) (i sid bsid rid brid : Nat) (sym basesym : RnSym)
       (sec bsec brsec : RnSec),
      st.syms.get? i = some sym →
      sym.typ = SymTy.stFunc →
      hasMangledMarker sym.name = true →
      base.syms.find? (fun b => decide (xsplice_mangled_strcmp b.name sym.name = 0)) =
        some basesym →
      sym.name ≠ basesym.name →
      sym.secIdx = some sid →
      st.secs.get? sid = some sec →
      sec.symIdx = some i →
      basesym.secIdx = some bsid →
      base.secs.get? bsid = some bsec →
      sec.relaIdx = some rid →
      bsec.relaIdx = some brid →
      base.secs.get? brid = some brsec →
      findSecByName (setSecName (setSecName st.secs sid bsec.name) rid brsec.name)
        (rodataName sym.name) = none →
      renameStep base st i = some
        { secs := setSecName (setSecName st.secs sid bsec.name) rid brsec.name
          syms := setSymName st.syms i basesym.name }) ∧
    (∀ (base st : RnElf) (i sid bsid rid brid rsid brsid ssid rrid brrid : Nat)
       (sym basesym : RnSym) (sec bsec brsec brsec2 rsec brrsec : RnSec),
      st.syms.get? i = some sym →
      sym.typ = SymTy.stFunc →
      hasMangledMarker sym.name = true →
      base.syms.find? (fun b => decide (xsplice_mangled_strcmp b.name sym.name = 0)) =
        some basesym →
      sym.name ≠ basesym.name →
      sym.secIdx = some sid →
      st.secs.get? sid = some sec →
      sec.symIdx = some i →
      basesym.secIdx = some bsid →
      base.secs.get? bsid = some bsec →
      sec.relaIdx = some rid →
      bsec.relaIdx = some brid →
      base.secs.get? brid = some brsec →
      findSecByName (setSecName (setSecName st.secs sid bsec.name) rid brsec.name)
        (rodataName sym.name) = some rsid →
      findSecByName base.secs (rodataName basesym.name) = some brsid →
      base.secs.get? brsid = some brsec2 →
      (setSecName (setSecName st.secs sid bsec.name) rid brsec.name).get? rsid =
        some rsec →
      rsec.secsymIdx = some ssid →
      rsec.relaIdx = some rrid →
      brsec2.relaIdx = some brrid →
      base.secs.get? brrid = some brrsec →
      renameStep base st i = some
        { secs := setSecName (setSecName (setSecName (setSecName st.secs sid bsec.name)
            rid brsec.name) rsid brsec2.name) rrid brrsec.name
          syms := setSymName (setSymName st.syms i basesym.name) ssid brsec2.name }) := by
  refine ⟨?_, ?_, ?_⟩
  · intro base patched out hnb hok
    obtain ⟨hsecs, hnot, hin⟩ := renameLoop_char base (List.range patched.syms.length)
      patched out (List.nodup_range _) hnb hok
    refine ⟨hsecs, ?_⟩
    intro j
    by_cases hj : j < patched.syms.length
    · exact hin j (List.mem_range.mpr hj)
    · rw [hnot j (fun h => hj (List.mem_range.mp h))]
      rw [List.get?_eq_none.mpr (le_of_not_lt hj)]
      rfl
  · intro base st i sid bsid rid brid sym basesym sec bsec brsec hg ht hm hf hne hsec hsg
      hbundle hbsec hbsg hrel hbrel hbrsg hnorod
    unfold renameStep
    simp only [hg]
    rw [if_neg (fun hcon => hcon ht)]
    rw [if_neg (by simpa using hm)]
    simp only [hf]
    rw [if_neg hne]
    simp only [hsec, hsg]
    rw [if_neg (fun hcon => hcon hbundle)]
    simp only [hbsec, hbsg, hrel, hbrel, hbrsg]
    simp only [hnorod]
  · intro base st i sid bsid rid brid rsid brsid ssid rrid brrid sym basesym sec bsec
      brsec brsec2 rsec brrsec hg ht hm hf hne hsec hsg hbundle hbsec hbsg hrel hbrel
      hbrsg hrod hbrod hbg2 hrsg hssid hrrel hbrrel hbrrsg
    unfold renameStep
    simp only [hg]
    rw [if_neg (fun hcon => hcon ht)]
    rw [if_neg (by simpa using hm)]
    simp only [hf]
    rw [if_neg hne]
    simp only [hsec, hsg]
    rw [if_neg (fun hcon => hcon hbundle)]
    simp only [hbsec, hbsg, hrel, hbrel, hbrsg]
    simp only [hrod, hbrod, hbg2, hrsg, hssid, hrrel, hbrrel, hbrrsg]

/-- Base model for the bundled-renaming witness: `foo.isra.2` is the
bundled function of its text section, with a relocation section. -/
def c5bbase : RnElf :=
  { secs := [{ name := ".text.foo.isra.2".toList, relaIdx := some 1, secsymIdx := none,
               symIdx := some 0 },
             { name := ".rela.text.foo.isra.2".toList, relaIdx := none,
               secsymIdx := none, symIdx := none }],
    syms := [{ name := "foo.isra.2".toList, typ := SymTy.stFunc, secIdx := some 0 }] }

/-- Patched model for the bundled-renaming witness: `foo.isra.1` is the
bundled function of its text section, with a relocation section and no
`.rodata.` sibling. -/
def c5bpatched : RnElf :=
  { secs := [{ name := ".text.foo.isra.1".toList, relaIdx := some 1, secsymIdx := none,
               symIdx := some 0 },
             { name := ".rela.text.foo.isra.1".toList, relaIdx := none,
               secsymIdx := none, symIdx := none }],
    syms := [{ name := "foo.isra.1".toList, typ := SymTy.stFunc, secIdx := some 0 }] }

/-- Base model for the `.rodata.` sibling witness: as `c5bbase`, plus a
`.rodata.foo.isra.2` sibling with its relocation section. -/
def c5cbase : RnElf :=
  { secs := [{ name := ".text.foo.isra.2".toList, relaIdx := some 1, secsymIdx := none,
               symIdx := some 0 },
             { name := ".rela.text.foo.isra.2".toList, relaIdx := none,
               secsymIdx := none, symIdx := none },
             { name := ".rodata.foo.isra.2".toList, relaIdx := some 3,
               secsymIdx := none, symIdx := none },
             { name := ".rela.rodata.foo.isra.2".toList, relaIdx := none,
               secsymIdx := none, symIdx := none }],
    syms := [{ name := "foo.isra.2".toList, typ := SymTy.stFunc, secIdx := some 0 }] }

/-- Patched model for the `.rodata.` sibling witness: as `c5bpatched`,
plus a `.rodata.foo.isra.1` sibling with a section symbol and a
relocation section. -/
def c5cpatched : RnElf :=
  { secs := [{ name := ".text.foo.isra.1".toList, relaIdx := some 1, secsymIdx := none,
               symIdx := some 0 },
             { name := ".rela.text.foo.isra.1".toList, relaIdx := none,
               secsymIdx := none, symIdx := none },
             { name := ".rodata.foo.isra.1".toList, relaIdx := some 3,
               secsymIdx := some 1, symIdx := none },
             { name := ".rela.rodata.foo.isra.1".toList, relaIdx := none,
               secsymIdx := none, symIdx := none }],
    syms := [{ name := "foo.isra.1".toList, typ := SymTy.stFunc, secIdx := some 0 },
             { name := ".rodata.foo.isra.1".toList, typ := SymTy.stSection,
               secIdx := some 2 }] }

/-- Witness for C5's amended theorem: all three parts applied at
concrete models — the counterexample model for the unbundled loop
characterization, a bundled pair for the section/relocation renaming,
and a bundled pair with a `.rodata.` sibling. -/
theorem rename_mangled_amended_witness :
    ((∀ sec ∈ c5patched.secs, sec.symIdx = none) ∧
     ∃ out, xsplice_rename_mangled_functions c5base c5patched = some out ∧
       out.secs = c5patched.secs) ∧
    renameStep c5bbase c5bpatched 0 = some
      { secs := setSecName (setSecName c5bpatched.secs 0
          (".text.foo.isra.2".toList)) 1 (".rela.text.foo.isra.2".toList)
        syms := setSymName c5bpatched.syms 0 ("foo.isra.2".toList) } ∧
    renameStep c5cbase c5cpatched 0 = some
      { secs := setSecName (setSecName (setSecName (setSecName c5cpatched.secs 0
          (".text.foo.isra.2".toList)) 1 (".rela.text.foo.isra.2".toList)) 2
          (".rodata.foo.isra.2".toList)) 3 (".rela.rodata.foo.isra.2".toList)
        syms := setSymName (setSymName c5cpatched.syms 0 ("foo.isra.2".toList)) 1
          (".rodata.foo.isra.2".toList) } := by
  obtain ⟨hA, hB, hC⟩ := rename_mangled_amended
  refine ⟨⟨by decide, ?_⟩, ?_, ?_⟩
  · cases hok : xsplice_rename_mangled_functions c5base c5patched with
    | none => exact absurd hok (by decide)
    | some out =>
      exact ⟨out, rfl, (hA c5base c5patched out (by decide) hok).1⟩
  · exact hB c5bbase c5bpatched 0 0 0 1 1
      { name := "foo.isra.1".toList, typ := SymTy.stFunc, secIdx := some 0 }
      { name := "foo.isra.2".toList, typ := SymTy.stFunc, secIdx := some 0 }
      { name := ".text.foo.isra.1".toList, relaIdx := some 1, secsymIdx := none,
        symIdx := some 0 }
      { name := ".text.foo.isra.2".toList, relaIdx := some 1, secsymIdx := none,
        symIdx := some 0 }
      { name := ".rela.text.foo.isra.2".toList, relaIdx := none, secsymIdx := none,
        symIdx := none }
      (by decide) (by decide) (by decide) (by decide) (by decide) (by decide) (by decide)
      (by decide) (by decide) (by decide) (by decide) (by decide) (by decide) (by decide)
  · exact hC c5cbase c5cpatched 0 0 0 1 1 2 2 1 3 3
      { name := "foo.isra.1".toList, typ := SymTy.stFunc, secIdx := some 0 }
      { name := "foo.isra.2".toList, typ := SymTy.stFunc, secIdx := some 0 }
      { name := ".text.foo.isra.1".toList, relaIdx := some 1, secsymIdx := none,
        symIdx := some 0 }
      { name := ".text.foo.isra.2".toList, relaIdx := some 1, secsymIdx := none,
        symIdx := some 0 }
      { name := ".rela.text.foo.isra.2".toList, relaIdx := none, secsymIdx := none,
        symIdx := none }
      { name := ".rodata.foo.isra.2".toList, relaIdx := some 3, secsymIdx := none,
        symIdx := none }
      { name := ".rodata.foo.isra.1".toList, relaIdx := some 3, secsymIdx := some 1,
        symIdx := none }
      { name := ".rela.rodata.foo.isra.2".toList, relaIdx := none, secsymIdx := none,
        symIdx := none }
      (by decide) (by decide) (by decide) (by decide) (by decide) (by decide) (by decide)
      (by decide) (by decide) (by decide) (by decide) (by decide) (by decide) (by decide)
      (by decide) (by decide) (by decide) (by decide) (by decide) (by decide) (by decide)

/-! ### Correlation and twin symmetry (C6) -/

/-- A relocation as needed by the correlator: the index of its target
symbol (within its own model). -/
structure CRela where
  symIdx : Nat
deriving DecidableEq, Repr

/-- A section as needed by the correlator: name, header type, data bytes,
base/rela/section-symbol/bundled-symbol links (indices within its own
model), the twin (an index into the OTHER model's section list), and the
status. -/
structure CSec where
  name : List Char
  shType : Nat
  dataBytes : List Nat
  baseIdx : Option Nat
  relaIdx : Option Nat
  secsymIdx : Option Nat
  symIdx : Option Nat
  relas : List CRela
  twin : Option Nat
  status : Status
deriving DecidableEq, Repr

/-- A symbol as needed by the correlator: name, type, binding, owning
section, twin (an index into the OTHER model's symbol list) and status. -/
structure CSym where
  name : List Char
  typ : SymTy
  bind : SymBind
  secIdx : Option Nat
  twin : Option Nat
  status : Status
deriving DecidableEq, Repr

/-- The two input models (base and patched) side by side; twins always
point into the other model's list, so an element cannot be its own twin
by construction. -/
structure TwoElf where
  bsecs : List CSec
  bsyms : List CSym
  psecs : List CSec
  psyms : List CSym
deriving DecidableEq, Repr

/-- The `SHT_GROUP` section type value. -/
def SHT_GROUP : Nat := 17

/-- Embedding of `is_special_static` (create-diff-object.c:295-331) over a
correlation-model symbol, resolving the section and bundled-symbol links
within the given model side. -/
def isSpecialStaticC (secs : List CSec) (syms : List CSym) (sym : CSym) : Bool :=
  if sym.typ = SymTy.stSection then
    if sym.name = "__verbose".toList then true
    else
      match sym.secIdx.bind (fun si => secs.get? si) with
      | none => false
      | some sec =>
        match sec.symIdx.bind (fun bi => syms.get? bi) with
        | none => false
        | some bsym => specialCore bsym.name bsym.typ bsym.bind
  else specialCore sym.name sym.typ sym.bind

/-- The NULL-tolerant caller view of `is_special_static`
(`is_special_static(NULL)` is 0). -/
def isSpecialStaticOpt (secs : List CSec) (syms : List CSym) (si : Option Nat) : Bool :=
  match si with
  | none => false
  | some i =>
    match syms.get? i with
    | none => false
    | some sym => isSpecialStaticC secs syms sym

/-- Embedding of `is_constant_label` (create-diff-object.c:333-350) over a
correlation-model symbol. -/
def isConstantLabelC (sym : CSym) : Bool :=
  if sym.bind ≠ SymBind.sbLocal then false
  else
    match sym.name with
    | '.' :: 'L' :: 'C' :: rest => !rest.isEmpty && rest.all Char.isDigit
    | _ => false

/-- Update the section at an index. -/
def updSec (secs : List CSec) (i : Nat) (f : CSec → CSec) : List CSec :=
  match secs.get? i with
  | none => secs
  | some s => secs.set i (f s)

/-- Update the symbol at an index. -/
def updSym (syms : List CSym) (i : Nat) (f : CSym → CSym) : List CSym :=
  match syms.get? i with
  | none => syms
  | some s => syms.set i (f s)

/-- First index (from `k`) of an element satisfying the predicate;
`myFindIdx` is the plain first-match search of the correlation loops. -/
def findIdxFrom {α : Type} (p : α → Bool) : List α → Nat → Option Nat
  | [], _ => none
  | a :: t, k => if p a then some k else findIdxFrom p t (k + 1)

/-- First index of an element satisfying the predicate. -/
def myFindIdx {α : Type} (p : α → Bool) (l : List α) : Option Nat :=
  findIdxFrom p l 0

/-- The guard symbol of the section-correlation special-static exclusion:
for a relocation section (modelled per the data-model spec as having a
base back-reference), its base's section symbol, otherwise its own
section symbol. -/
def secGuardSym (secs : List CSec) (sec : CSec) : Option Nat :=
  if sec.baseIdx.isSome then
    (sec.baseIdx.bind (fun b => secs.get? b)).bind (·.secsymIdx)
  else sec.secsymIdx

/-- The patched-side match test of `xsplice_correlate_sections`
(create-diff-object.c:357-384): same name, and byte-identical contents
for `SHT_GROUP` sections. -/
def secMatch (sec1 sec2 : CSec) : Bool :=
  (sec1.name = sec2.name) &&
  (if sec1.shType = SHT_GROUP then
     (sec1.dataBytes.length = sec2.dataBytes.length) &&
     (sec1.dataBytes = sec2.dataBytes)
   else true)

/-- One base-section iteration of `xsplice_correlate_sections`: skip
special statics; find the first matching patched section; twin both ways
and set both statuses SAME. -/
def sectionsCorrelateOne (st : TwoElf) (i : Nat) : TwoElf :=
  match st.bsecs.get? i with
  | none => st
  | some sec1 =>
    if isSpecialStaticOpt st.bsecs st.bsyms (secGuardSym st.bsecs sec1) then st
    else
      match myFindIdx (fun sec2 => secMatch sec1 sec2) st.psecs with
      | none => st
      | some j =>
        { st with
          bsecs := updSec st.bsecs i (fun s => { s with twin := some j, status := Status.same })
          psecs := updSec st.psecs j (fun s => { s with twin := some i, status := Status.same }) }

/-- Embedding of `xsplice_correlate_sections` (create-diff-object.c:
352-386): the per-base-section step over the base list in order. -/
def xsplice_correlate_sections (st : TwoElf) : TwoElf :=
  (List.range st.bsecs.length).foldl sectionsCorrelateOne st

/-- The patched-side match test of `xsplice_correlate_symbols`
(create-diff-object.c:388-419): same name and type, and for symbols in
`SHT_GROUP` sections the section twins must agree. -/
def symMatch (bsecs : List CSec) (sym1 sym2 : CSym) : Bool :=
  (sym1.name = sym2.name) && (sym1.typ = sym2.typ) &&
  (match sym1.secIdx.bind (fun si => bsecs.get? si) with
   | some sec1 =>
     if sec1.shType = SHT_GROUP then decide (sec1.twin = sym2.secIdx) else true
   | none => true)

/-- One base-symbol iteration of `xsplice_correlate_symbols`: skip
special statics and constant labels; find the first matching patched
symbol; twin both ways and set both statuses SAME. -/
def symbolsCorrelateOne (st : TwoElf) (i : Nat) : TwoElf :=
  match st.bsyms.get? i with
  | none => st
  | some sym1 =>
    if isSpecialStaticC st.bsecs st.bsyms sym1 then st
    else if isConstantLabelC sym1 then st
    else
      match myFindIdx (fun sym2 => symMatch st.bsecs sym1 sym2) st.psyms with
      | none => st
      | some j =>
        { st with
          bsyms := updSym st.bsyms i (fun s => { s with twin := some j, status := Status.same })
          psyms := updSym st.psyms j (fun s => { s with twin := some i, status := Status.same }) }

/-- Embedding of `xsplice_correlate_symbols` (create-diff-object.c:
388-419). -/
def xsplice_correlate_symbols (st : TwoElf) : TwoElf :=
  (List.range st.bsyms.length).foldl symbolsCorrelateOne st

/-- Modelled from the spec: `is_text_section` lives in the common helpers
outside this file; a text section's name begins with `.text`. -/
def isTextSectionName (n : List Char) : Bool :=
  ".text".toList.isPrefixOf n

/-- Modelled from the spec: `is_debug_section` lives in the common
helpers outside this file; debug sections are the `.debug_*` sections and
their `.rela.debug_*` relocation sections. -/
def isDebugSectionName (n : List Char) : Bool :=
  ".debug_".toList.isPrefixOf n || ".rela.debug_".toList.isPrefixOf n

/-- Embedding of `xsplice_find_static_twin` (create-diff-object.c:
440-478): inside the relocation section that references the symbol,
error if another untwinned mangled-equal symbol is referenced; then scan
the twin's relocations for an untwinned mangled-equal base symbol,
erroring when two different candidates appear; `staticFoldStep` is the
per-relocation step of its base-side scan. -/
def staticFoldStep (st : TwoElf) (nm : List Char) (acc : Option Nat) (r : CRela) :
    Except (List Char) (Option Nat) :=
  match st.bsyms.get? r.symIdx with
  | none => .ok acc
  | some bs =>
    if bs.twin.isSome then .ok acc
    else if xsplice_mangled_strcmp bs.name nm ≠ 0 then .ok acc
    else
      match acc with
      | some prev =>
        if prev ≠ r.symIdx then
          .error "two static local variables match".toList
        else .ok acc
      | none => .ok (some r.symIdx)

/-- Embedding of `xsplice_find_static_twin` (create-diff-object.c:
440-478), built on `staticFoldStep`. -/
def findStaticTwin (st : TwoElf) (secIdx symIdx : Nat) : Except (List Char) (Option Nat) :=
  match st.psecs.get? secIdx with
  | none => .ok none
  | some sec =>
    match sec.twin with
    | none => .ok none
    | some twinIdx =>
      match st.psyms.get? symIdx with
      | none => .ok none
      | some sym =>
        if sec.relas.any (fun r =>
            (r.symIdx ≠ symIdx) &&
            (((st.psyms.get? r.symIdx).map (fun s =>
              s.twin.isNone && decide (xsplice_mangled_strcmp s.name sym.name = 0))).getD
              false)) then
          .error "another static local variable matches".toList
        else
          match st.bsecs.get? twinIdx with
          | none => .ok none
          | some twinSec =>
            twinSec.relas.foldlM (staticFoldStep st sym.name) none

/-- One text relocation-section iteration of the static-local scan
(create-diff-object.c:516-536): when the section references the symbol,
consult `findStaticTwin`, error on conflicting candidates across
sections, record the candidate and the last referencing section. -/
def staticScanStep (st : TwoElf) (k : Nat) (acc : Option Nat × Option Nat) (t : Nat) :
    Except (List Char) (Option Nat × Option Nat) :=
  match st.psecs.get? t with
  | none => .ok acc
  | some tmpsec =>
    if tmpsec.baseIdx.isNone then .ok acc
    else if ¬ isTextSectionName
        (((tmpsec.baseIdx.bind (fun b => st.psecs.get? b)).map (·.name)).getD []) then
      .ok acc
    else if isDebugSectionName tmpsec.name then .ok acc
    else if tmpsec.relas.any (fun r => r.symIdx = k) then
      match findStaticTwin st t k with
      | .error e => .error e
      | .ok tmpsym =>
        match acc.2, tmpsym with
        | some b, some tb =>
          if b ≠ tb then .error "two twins for static local variable".toList
          else .ok (some t, acc.2)
        | none, some tb => .ok (some t, some tb)
        | _, none => .ok (some t, acc.2)
    else .ok acc

/-- One patched-symbol iteration of
`xsplice_correlate_static_local_variables` (create-diff-object.c:
486-569): guards, the section scan, the bundle checks, then rename and
twin the symbol (and, when bundled, the sections).  `.error` models both
the pass's own ERROR calls and NULL dereferences. -/
def staticStep (st : TwoElf) (k : Nat) : Except (List Char) TwoElf :=
  match st.psyms.get? k with
  | none => .ok st
  | some sym =>
    if sym.typ ≠ SymTy.stObject ∨ sym.bind ≠ SymBind.sbLocal ∨ sym.twin.isSome = true then .ok st
    else if isSpecialStaticC st.psecs st.psyms sym then .ok st
    else if ¬ sym.name.contains '.' then .ok st
    else
      match (List.range st.psecs.length).foldlM (staticScanStep st k) (none, none) with
      | .error e => .error e
      | .ok (none, _) => .error "static local variable not used".toList
      | .ok (some _, none) => .ok st
      | .ok (some _, some bIdx) =>
        match st.bsyms.get? bIdx with
        | none => .ok st
        | some basesym =>
          match sym.secIdx with
          | none => .error "NULL section".toList
          | some sid =>
            match st.psecs.get? sid with
            | none => .error "NULL section".toList
            | some psec =>
              match basesym.secIdx with
              | none => .error "NULL section".toList
              | some bsid =>
                match st.bsecs.get? bsid with
                | none => .error "NULL section".toList
                | some bsec =>
                  if (decide (psec.symIdx = some k)) ≠ (decide (bsec.symIdx = some bIdx)) then
                    .error "bundle mismatch".toList
                  else if (!(decide (psec.symIdx = some k))) &&
                      (decide (psec.twin ≠ some bsid)) then
                    .error "sections are not correlated".toList
                  else if psec.symIdx = some k then
                    .ok { st with
                          psyms := updSym st.psyms k (fun s =>
                            { s with name := basesym.name, twin := some bIdx,
                                     status := Status.same })
                          bsyms := updSym st.bsyms bIdx (fun s =>
                            { s with twin := some k, status := Status.same })
                          psecs := updSec st.psecs sid (fun s => { s with twin := some bsid })
                          bsecs := updSec st.bsecs bsid (fun s => { s with twin := some sid }) }
                  else
                    .ok { st with
                          psyms := updSym st.psyms k (fun s =>
                            { s with name := basesym.name, twin := some bIdx,
                                     status := Status.same })
                          bsyms := updSym st.bsyms bIdx (fun s =>
                            { s with twin := some k, status := Status.same }) }

/-- Embedding of `xsplice_correlate_static_local_variables`
(create-diff-object.c:486-569). -/
def xsplice_correlate_static_local_variables (st : TwoElf) : Except (List Char) TwoElf :=
  (List.range st.psyms.length).foldlM staticStep st

/-- The three correlation passes in the order `main` runs them. -/
def correlationPasses (st : TwoElf) : Except (List Char) TwoElf :=
  xsplice_correlate_static_local_variables
    (xsplice_correlate_symbols (xsplice_correlate_sections st))

/-- A plain section named `A` for the C6 counterexample. -/
def c6secA : CSec :=
  { name := "A".toList, shType := 1, dataBytes := [], baseIdx := none,
    relaIdx := none, secsymIdx := none, symIdx := none, relas := [],
    twin := none, status := Status.new }

/-- C6 counterexample input: the base model has TWO sections named `A`,
the patched model one. -/
def c6st0 : TwoElf :=
  { bsecs := [c6secA, c6secA], bsyms := [], psecs := [c6secA], psyms := [] }

/-- C6 counterexample: after the correlation passes on a base model with
two same-named sections, base section 0 has twin 0 but patched section 0
has twin 1 — the first base section's twin pointer dangles, refuting the
claimed symmetry. -/
theorem correlate_twin_symmetry_counterexample :
    (correlationPasses c6st0).toOption.map (fun st3 =>
      ((st3.bsecs.get? 0).map (·.twin), (st3.psecs.get? 0).map (·.twin))) =
    some (some (some 0), some (some 1)) := by decide

/-- Helper: `updSec` leaves other indices untouched. -/
theorem updSec_other (secs : List CSec) (i : Nat) (f : CSec → CSec) (j : Nat)
    (h : j ≠ i) : (updSec secs i f).get? j = secs.get? j := by
  unfold updSec
  cases hg : secs.get? i with
  | none => rfl
  | some s => exact List.get?_set_ne _ _ (fun he => h he.symm)

/-- Helper: `updSec` applies the function at the targeted index. -/
theorem updSec_self (secs : List CSec) (i : Nat) (f : CSec → CSec) (s : CSec)
    (hg : secs.get? i = some s) : (updSec secs i f).get? i = some (f s) := by
  have hlt : i < secs.length := by
    by_contra hc
    rw [List.get?_eq_none.mpr (le_of_not_lt hc)] at hg
    exact Option.noConfusion hg
  unfold updSec
  rw [hg]
  exact List.get?_set_eq_of_lt _ hlt

/-- Helper: `updSym` leaves other indices untouched. -/
theorem updSym_other (syms : List CSym) (i : Nat) (f : CSym → CSym) (j : Nat)
    (h : j ≠ i) : (updSym syms i f).get? j = syms.get? j := by
  unfold updSym
  cases hg : syms.get? i with
  | none => rfl
  | some s => exact List.get?_set_ne _ _ (fun he => h he.symm)

/-- Helper: `updSym` applies the function at the targeted index. -/
theorem updSym_self (syms : List CSym) (i : Nat) (f : CSym → CSym) (s : CSym)
    (hg : syms.get? i = some s) : (updSym syms i f).get? i = some (f s) := by
  have hlt : i < syms.length := by
    by_contra hc
    rw [List.get?_eq_none.mpr (le_of_not_lt hc)] at hg
    exact Option.noConfusion hg
  unfold updSym
  rw [hg]
  exact List.get?_set_eq_of_lt _ hlt

/-- Helper: a successful `findIdxFrom` search returns an in-range index
of an element satisfying the predicate. -/
theorem findIdxFromGet {α : Type} (p : α → Bool) : ∀ (l : List α) (k j : Nat),
    findIdxFrom p l k = some j → k ≤ j ∧ ∃ x, l.get? (j - k) = some x ∧ p x = true := by
  intro l
  induction l with
  | nil => intro k j h; simp [findIdxFrom] at h
  | cons a t ih =>
    intro k j h
    rw [findIdxFrom] at h
    by_cases hp : p a
    · rw [if_pos hp] at h
      simp only [Option.some.injEq] at h
      subst h
      exact ⟨le_rfl, a, by simp, hp⟩
    · rw [if_neg hp] at h
      obtain ⟨hle, x, hx, hpx⟩ := ih (k + 1) j h
      refine ⟨by omega, x, ?_, hpx⟩
      have : j - k = (j - (k + 1)) + 1 := by omega
      rw [this]
      simpa using hx

/-- Helper: a successful `myFindIdx` search returns the element at the
found index, satisfying the predicate. -/
theorem myFindIdxGet {α : Type} (p : α → Bool) (l : List α) (j : Nat)
    (h : myFindIdx p l = some j) : ∃ x, l.get? j = some x ∧ p x = true := by
  obtain ⟨_, x, hx, hpx⟩ := findIdxFromGet p l 0 j h
  exact ⟨x, by simpa using hx, hpx⟩

/-- Twin symmetry of the section lists. -/
def SecSymmetric (st : TwoElf) : Prop :=
  (∀ i sec j, st.bsecs.get? i = some sec → sec.twin = some j →
    ∃ sec2, st.psecs.get? j = some sec2 ∧ sec2.twin = some i) ∧
  (∀ j sec2 i, st.psecs.get? j = some sec2 → sec2.twin = some i →
    ∃ sec, st.bsecs.get? i = some sec ∧ sec.twin = some j)

/-- Twin symmetry of the symbol lists. -/
def SymSymmetric (st : TwoElf) : Prop :=
  (∀ i sym j, st.bsyms.get? i = some sym → sym.twin = some j →
    ∃ sym2, st.psyms.get? j = some sym2 ∧ sym2.twin = some i) ∧
  (∀ j sym2 i, st.psyms.get? j = some sym2 → sym2.twin = some i →
    ∃ sym, st.bsyms.get? i = some sym ∧ sym.twin = some j)

/-- Twin symmetry of sections and symbols together (the C6 invariant);
twins point into the other model by construction, so no element can be
its own twin. -/
def TwinSymmetric (st : TwoElf) : Prop := SecSymmetric st ∧ SymSymmetric st

/-- Every twinned section pair carries equal names (maintained along the
section-correlation pass). -/
def SecPairsNamed (st : TwoElf) : Prop :=
  ∀ i sec j sec2, st.bsecs.get? i = some sec → sec.twin = some j →
    st.psecs.get? j = some sec2 → sec.name = sec2.name

/-- Base-model section names are pairwise distinct. -/
def BaseSecNamesDistinct (st : TwoElf) : Prop :=
  ∀ i1 i2 s1 s2, i1 ≠ i2 → st.bsecs.get? i1 = some s1 →
    st.bsecs.get? i2 = some s2 → s1.name ≠ s2.name

/-- Every twinned symbol pair agrees on name and type (maintained along
the symbol-correlation pass). -/
def SymPairsKeyed (st : TwoElf) : Prop :=
  ∀ i sym j sym2, st.bsyms.get? i = some sym → sym.twin = some j →
    st.psyms.get? j = some sym2 → sym.name = sym2.name ∧ sym.typ = sym2.typ

/-- Base-model symbol (name, type) keys are pairwise distinct. -/
def BaseSymKeysDistinct (st : TwoElf) : Prop :=
  ∀ i1 i2 s1 s2, i1 ≠ i2 → st.bsyms.get? i1 = some s1 →
    st.bsyms.get? i2 = some s2 → ¬ (s1.name = s2.name ∧ s1.typ = s2.typ)

/-- Every twinned section's bundled symbol is itself twinned, on both
sides (the static-local pass keeps this and needs it to avoid orphaning
a previously twinned section). -/
def BundledTwinClosed (st : TwoElf) : Prop :=
  (∀ i sec b sym, st.psecs.get? i = some sec → sec.twin.isSome →
    sec.symIdx = some b → st.psyms.get? b = some sym → sym.twin.isSome) ∧
  (∀ i sec b sym, st.bsecs.get? i = some sec → sec.twin.isSome →
    sec.symIdx = some b → st.bsyms.get? b = some sym → sym.twin.isSome)

/-- Helper: characterization of one section-correlation step when the
base slot is absent. -/
theorem sectionsCorrelateOne_eq_none (st : TwoElf) (i : Nat)
    (hg : st.bsecs.get? i = none) : sectionsCorrelateOne st i = st := by
  unfold sectionsCorrelateOne
  rw [hg]

/-- Helper: characterization of one section-correlation step when the
base section is excluded as a special static. -/
theorem sectionsCorrelateOne_eq_skip (st : TwoElf) (i : Nat) (sec1 : CSec)
    (hg : st.bsecs.get? i = some sec1)
    (hsp : isSpecialStaticOpt st.bsecs st.bsyms (secGuardSym st.bsecs sec1) = true) :
    sectionsCorrelateOne st i = st := by
  unfold sectionsCorrelateOne
  simp only [hg]
  rw [if_pos hsp]

/-- Helper: characterization of one section-correlation step when no
patched section matches. -/
theorem sectionsCorrelateOne_eq_nofind (st : TwoElf) (i : Nat) (sec1 : CSec)
    (hg : st.bsecs.get? i = some sec1)
    (hsp : ¬ isSpecialStaticOpt st.bsecs st.bsyms (secGuardSym st.bsecs sec1) = true)
    (hf : myFindIdx (fun sec2 => secMatch sec1 sec2) st.psecs = none) :
    sectionsCorrelateOne st i = st := by
  unfold sectionsCorrelateOne
  simp only [hg]
  rw [if_neg hsp]
  simp only [hf]

/-- Helper: characterization of one section-correlation step when the
first matching patched section is found: both twins are set. -/
theorem sectionsCorrelateOne_eq_twin (st : TwoElf) (i : Nat) (sec1 : CSec) (j : Nat)
    (hg : st.bsecs.get? i = some sec1)
    (hsp : ¬ isSpecialStaticOpt st.bsecs st.bsyms (secGuardSym st.bsecs sec1) = true)
    (hf : myFindIdx (fun sec2 => secMatch sec1 sec2) st.psecs = some j) :
    sectionsCorrelateOne st i =
      { st with
        bsecs := updSec st.bsecs i (fun s => { s with twin := some j, status := Status.same })
        psecs := updSec st.psecs j (fun s => { s with twin := some i, status := Status.same }) } := by
  unfold sectionsCorrelateOne
  simp only [hg]
  rw [if_neg hsp]
  simp only [hf]

/-- Helper: the section-correlation loop keeps the symbol lists intact
and establishes twin symmetry of the sections, provided base names are
pairwise distinct and the processed base indices are untwinned. -/
theorem secCorrLoop_symmetric : ∀ (L : List Nat) (st : TwoElf),
    L.Nodup →
    BaseSecNamesDistinct st →
    (∀ i, i ∈ L → ∀ sec, st.bsecs.get? i = some sec → sec.twin = none) →
    SecSymmetric st →
    SecPairsNamed st →
    (L.foldl sectionsCorrelateOne st).bsyms = st.bsyms ∧
    (L.foldl sectionsCorrelateOne st).psyms = st.psyms ∧
    SecSymmetric (L.foldl sectionsCorrelateOne st) := by
  intro L
  induction L with
  | nil => intro st _ _ _ hsym _; exact ⟨rfl, rfl, hsym⟩
  | cons i rest ih =>
    intro st hnd hd huntw hsym hnamed
    have hnd2 := List.nodup_cons.mp hnd
    simp only [List.foldl_cons]
    cases hg : st.bsecs.get? i with
    | none =>
      rw [sectionsCorrelateOne_eq_none st i hg]
      exact ih st hnd2.2 hd (fun r hr => huntw r (List.mem_cons_of_mem _ hr)) hsym hnamed
    | some sec1 =>
      by_cases hsp : isSpecialStaticOpt st.bsecs st.bsyms (secGuardSym st.bsecs sec1) = true
      · rw [sectionsCorrelateOne_eq_skip st i sec1 hg hsp]
        exact ih st hnd2.2 hd (fun r hr => huntw r (List.mem_cons_of_mem _ hr)) hsym hnamed
      · cases hf : myFindIdx (fun sec2 => secMatch sec1 sec2) st.psecs with
        | none =>
          rw [sectionsCorrelateOne_eq_nofind st i sec1 hg hsp hf]
          exact ih st hnd2.2 hd (fun r hr => huntw r (List.mem_cons_of_mem _ hr)) hsym hnamed
        | some j =>
          rw [sectionsCorrelateOne_eq_twin st i sec1 j hg hsp hf]
          obtain ⟨sec2, hsec2, hmatch⟩ := myFindIdxGet _ _ _ hf
          have hname12 : sec1.name = sec2.name := by
            unfold secMatch at hmatch
            simp only [Bool.and_eq_true, decide_eq_true_eq] at hmatch
            exact hmatch.1
          have h1untw : sec1.twin = none := huntw i (List.mem_cons_self _ _) sec1 hg
          have h2untw : sec2.twin = none := by
            cases hji : sec2.twin with
            | none => rfl
            | some i0 =>
              obtain ⟨sec0, h0get, h0twin⟩ := hsym.2 j sec2 i0 hsec2 hji
              have hne : i0 ≠ i := by
                intro he
                subst he
                rw [hg] at h0get
                injection h0get with he2
                subst he2
                rw [h1untw] at h0twin
                exact Option.noConfusion h0twin
              have hname0 : sec0.name = sec2.name :=
                hnamed i0 sec0 j sec2 h0get h0twin hsec2
              exact absurd (hname0.trans hname12.symm) (hd i0 i sec0 sec1 hne h0get hg)
          set st2 : TwoElf :=
            { st with
              bsecs := updSec st.bsecs i (fun s => { s with twin := some j, status := Status.same })
              psecs := updSec st.psecs j (fun s => { s with twin := some i, status := Status.same }) }
            with hst2
          have hbAt : ∀ r, st2.bsecs.get? r =
              if r = i then some { sec1 with twin := some j, status := Status.same }
              else st.bsecs.get? r := by
            intro r
            by_cases hr : r = i
            · subst hr
              rw [if_pos rfl]
              exact updSec_self st.bsecs r _ sec1 hg
            · rw [if_neg hr]
              exact updSec_other st.bsecs i _ r hr
          have hpAt : ∀ r, st2.psecs.get? r =
              if r = j then some { sec2 with twin := some i, status := Status.same }
              else st.psecs.get? r := by
            intro r
            by_cases hr : r = j
            · subst hr
              rw [if_pos rfl]
              exact updSec_self st.psecs r _ sec2 hsec2
            · rw [if_neg hr]
              exact updSec_other st.psecs j _ r hr
          have hd2 : BaseSecNamesDistinct st2 := by
            intro i1 i2 s1 s2 hne h1 h2
            rw [hbAt i1] at h1
            rw [hbAt i2] at h2
            by_cases h1i : i1 = i
            · rw [if_pos h1i] at h1
              injection h1 with h1e
              subst h1e
              by_cases h2i : i2 = i
              · exact absurd (h1i.trans h2i.symm) hne
              · rw [if_neg h2i] at h2
                subst h1i
                exact hd i1 i2 sec1 s2 hne hg h2
            · rw [if_neg h1i] at h1
              by_cases h2i : i2 = i
              · rw [if_pos h2i] at h2
                injection h2 with h2e
                subst h2e
                subst h2i
                exact hd i1 i2 s1 sec1 hne h1 hg
              · rw [if_neg h2i] at h2
                exact hd i1 i2 s1 s2 hne h1 h2
          have huntw2 : ∀ r, r ∈ rest → ∀ sec, st2.bsecs.get? r = some sec →
              sec.twin = none := by
            intro r hr sec hget
            rw [hbAt r] at hget
            have hri : r ≠ i := fun he => hnd2.1 (he ▸ hr)
            rw [if_neg hri] at hget
            exact huntw r (List.mem_cons_of_mem _ hr) sec hget
          have hsym2 : SecSymmetric st2 := by
            constructor
            · intro r sec jj hget htwin
              rw [hbAt r] at hget
              by_cases hri : r = i
              · rw [if_pos hri] at hget
                injection hget with hge
                subst hge
                simp only at htwin
                injection htwin with hje
                refine ⟨{ sec2 with twin := some i, status := Status.same }, ?_, ?_⟩
                · rw [hpAt jj, if_pos hje.symm]
                · rw [hri]
              · rw [if_neg hri] at hget
                obtain ⟨p, hpget, hptwin⟩ := hsym.1 r sec jj hget htwin
                have hjj : jj ≠ j := by
                  intro he
                  subst he
                  rw [hsec2] at hpget
                  injection hpget with hpe
                  subst hpe
                  rw [h2untw] at hptwin
                  exact Option.noConfusion hptwin
                refine ⟨p, ?_, hptwin⟩
                rw [hpAt jj, if_neg hjj]
                exact hpget
            · intro r sec jj hget htwin
              rw [hpAt r] at hget
              by_cases hrj : r = j
              · rw [if_pos hrj] at hget
                injection hget with hge
                subst hge
                simp only at htwin
                injection htwin with hje
                refine ⟨{ sec1 with twin := some j, status := Status.same }, ?_, ?_⟩
                · rw [hbAt jj, if_pos hje.symm]
                · rw [hrj]
              · rw [if_neg hrj] at hget
                obtain ⟨p, hpget, hptwin⟩ := hsym.2 r sec jj hget htwin
                have hjj : jj ≠ i := by
                  intro he
                  subst he
                  rw [hg] at hpget
                  injection hpget with hpe
                  subst hpe
                  rw [h1untw] at hptwin
                  exact Option.noConfusion hptwin
                refine ⟨p, ?_, hptwin⟩
                rw [hbAt jj, if_neg hjj]
                exact hpget
          have hnamed2 : SecPairsNamed st2 := by
            intro r sec jj sec2b hget htwin hpget
            rw [hbAt r] at hget
            rw [hpAt jj] at hpget
            by_cases hri : r = i
            · rw [if_pos hri] at hget
              injection hget with hge
              subst hge
              simp only at htwin
              injection htwin with hje
              rw [if_pos hje.symm] at hpget
              injection hpget with hpe
              subst hpe
              exact hname12
            · rw [if_neg hri] at hget
              by_cases hjj : jj = j
              · subst hjj
                obtain ⟨p, hp2, hp3⟩ := hsym.1 r sec jj hget htwin
                rw [hsec2] at hp2
                injection hp2 with hpe
                subst hpe
                rw [h2untw] at hp3
                exact Option.noConfusion hp3
              · rw [if_neg hjj] at hpget
                exact hnamed r sec jj sec2b hget htwin hpget
          obtain ⟨hb1, hb2, hb3⟩ := ih st2 hnd2.2 hd2 huntw2 hsym2 hnamed2
          exact ⟨hb1, hb2, hb3⟩

/-- Helper: the section-correlation pass keeps the symbol lists intact
and establishes twin symmetry of the sections when base names are
pairwise distinct and all twins start unset. -/
theorem correlate_sections_symmetric (st : TwoElf)
    (hd : BaseSecNamesDistinct st)
    (hbn : ∀ i sec, st.bsecs.get? i = some sec → sec.twin = none)
    (hpn : ∀ i sec, st.psecs.get? i = some sec → sec.twin = none) :
    (xsplice_correlate_sections st).bsyms = st.bsyms ∧
    (xsplice_correlate_sections st).psyms = st.psyms ∧
    SecSymmetric (xsplice_correlate_sections st) := by
  apply secCorrLoop_symmetric (List.range st.bsecs.length) st (List.nodup_range _) hd
    (fun i _ sec hget => hbn i sec hget)
  · constructor
    · intro i sec j hget htwin
      rw [hbn i sec hget] at htwin
      exact Option.noConfusion htwin
    · intro j sec2 i hget htwin
      rw [hpn j sec2 hget] at htwin
      exact Option.noConfusion htwin
  · intro i sec j sec2 hget htwin _
    rw [hbn i sec hget] at htwin
    exact Option.noConfusion htwin

/-- Helper: characterization of one symbol-correlation step when the
base slot is absent. -/
theorem symbolsCorrelateOne_eq_none (st : TwoElf) (i : Nat)
    (hg : st.bsyms.get? i = none) : symbolsCorrelateOne st i = st := by
  unfold symbolsCorrelateOne
  rw [hg]

/-- Helper: characterization of one symbol-correlation step when the
base symbol is excluded as a special static. -/
theorem symbolsCorrelateOne_eq_skip1 (st : TwoElf) (i : Nat) (sym1 : CSym)
    (hg : st.bsyms.get? i = some sym1)
    (hsp : isSpecialStaticC st.bsecs st.bsyms sym1 = true) :
    symbolsCorrelateOne st i = st := by
  unfold symbolsCorrelateOne
  simp only [hg]
  rw [if_pos hsp]

/-- Helper: characterization of one symbol-correlation step when the
base symbol is excluded as a constant label. -/
theorem symbolsCorrelateOne_eq_skip2 (st : TwoElf) (i : Nat) (sym1 : CSym)
    (hg : st.bsyms.get? i = some sym1)
    (hsp : ¬ isSpecialStaticC st.bsecs st.bsyms sym1 = true)
    (hcl : isConstantLabelC sym1 = true) :
    symbolsCorrelateOne st i = st := by
  unfold symbolsCorrelateOne
  simp only [hg]
  rw [if_neg hsp, if_pos hcl]

/-- Helper: characterization of one symbol-correlation step when no
patched symbol matches. -/
theorem symbolsCorrelateOne_eq_nofind (st : TwoElf) (i : Nat) (sym1 : CSym)
    (hg : st.bsyms.get? i = some sym1)
    (hsp : ¬ isSpecialStaticC st.bsecs st.bsyms sym1 = true)
    (hcl : ¬ isConstantLabelC sym1 = true)
    (hf : myFindIdx (fun sym2 => symMatch st.bsecs sym1 sym2) st.psyms = none) :
    symbolsCorrelateOne st i = st := by
  unfold symbolsCorrelateOne
  simp only [hg]
  rw [if_neg hsp, if_neg hcl]
  simp only [hf]

/-- Helper: characterization of one symbol-correlation step when the
first matching patched symbol is found: both twins are set. -/
theorem symbolsCorrelateOne_eq_twin (st : TwoElf) (i : Nat) (sym1 : CSym) (j : Nat)
    (hg : st.bsyms.get? i = some sym1)
    (hsp : ¬ isSpecialStaticC st.bsecs st.bsyms sym1 = true)
    (hcl : ¬ isConstantLabelC sym1 = true)
    (hf : myFindIdx (fun sym2 => symMatch st.bsecs sym1 sym2) st.psyms = some j) :
    symbolsCorrelateOne st i =
      { st with
        bsyms := updSym st.bsyms i (fun s => { s with twin := some j, status := Status.same })
        psyms := updSym st.psyms j (fun s => { s with twin := some i, status := Status.same }) } := by
  unfold symbolsCorrelateOne
  simp only [hg]
  rw [if_neg hsp, if_neg hcl]
  simp only [hf]

/-- Helper: a successful symbol match carries equal names and types. -/
theorem symMatch_key (bsecs : List CSec) (sym1 sym2 : CSym)
    (h : symMatch bsecs sym1 sym2 = true) :
    sym1.name = sym2.name ∧ sym1.typ = sym2.typ := by
  unfold symMatch at h
  simp only [Bool.and_eq_true, decide_eq_true_eq] at h
  exact ⟨h.1.1, h.1.2⟩

/-- Helper: the symbol-correlation loop keeps the section lists intact
and establishes twin symmetry of the symbols, provided base symbol keys
are pairwise distinct and the processed base indices are untwinned. -/
theorem symCorrLoop_symmetric : ∀ (L : List Nat) (st : TwoElf),
    L.Nodup →
    BaseSymKeysDistinct st →
    (∀ i, i ∈ L → ∀ sym, st.bsyms.get? i = some sym → sym.twin = none) →
    SymSymmetric st →
    SymPairsKeyed st →
    (L.foldl symbolsCorrelateOne st).bsecs = st.bsecs ∧
    (L.foldl symbolsCorrelateOne st).psecs = st.psecs ∧
    SymSymmetric (L.foldl symbolsCorrelateOne st) := by
  intro L
  induction L with
  | nil => intro st _ _ _ hsym _; exact ⟨rfl, rfl, hsym⟩
  | cons i rest ih =>
    intro st hnd hd huntw hsym hkeyed
    have hnd2 := List.nodup_cons.mp hnd
    simp only [List.foldl_cons]
    cases hg : st.bsyms.get? i with
    | none =>
      rw [symbolsCorrelateOne_eq_none st i hg]
      exact ih st hnd2.2 hd (fun r hr => huntw r (List.mem_cons_of_mem _ hr)) hsym hkeyed
    | some sym1 =>
      by_cases hsp : isSpecialStaticC st.bsecs st.bsyms sym1 = true
      · rw [symbolsCorrelateOne_eq_skip1 st i sym1 hg hsp]
        exact ih st hnd2.2 hd (fun r hr => huntw r (List.mem_cons_of_mem _ hr)) hsym hkeyed
      · by_cases hcl : isConstantLabelC sym1 = true
        · rw [symbolsCorrelateOne_eq_skip2 st i sym1 hg hsp hcl]
          exact ih st hnd2.2 hd (fun r hr => huntw r (List.mem_cons_of_mem _ hr)) hsym hkeyed
        · cases hf : myFindIdx (fun sym2 => symMatch st.bsecs sym1 sym2) st.psyms with
          | none =>
            rw [symbolsCorrelateOne_eq_nofind st i sym1 hg hsp hcl hf]
            exact ih st hnd2.2 hd (fun r hr => huntw r (List.mem_cons_of_mem _ hr)) hsym hkeyed
          | some j =>
            rw [symbolsCorrelateOne_eq_twin st i sym1 j hg hsp hcl hf]
            obtain ⟨sym2, hsym2g, hmatch⟩ := myFindIdxGet _ _ _ hf
            have hkey12 := symMatch_key st.bsecs sym1 sym2 hmatch
            have h1untw : sym1.twin = none := huntw i (List.mem_cons_self _ _) sym1 hg
            have h2untw : sym2.twin = none := by
              cases hji : sym2.twin with
              | none => rfl
              | some i0 =>
                obtain ⟨sym0, h0get, h0twin⟩ := hsym.2 j sym2 i0 hsym2g hji
                have hne : i0 ≠ i := by
                  intro he
                  subst he
                  rw [hg] at h0get
                  injection h0get with he2
                  subst he2
                  rw [h1untw] at h0twin
                  exact Option.noConfusion h0twin
                have hkey0 := hkeyed i0 sym0 j sym2 h0get h0twin hsym2g
                exact absurd ⟨hkey0.1.trans hkey12.1.symm, hkey0.2.trans hkey12.2.symm⟩
                  (hd i0 i sym0 sym1 hne h0get hg)
            set st2 : TwoElf :=
              { st with
                bsyms := updSym st.bsyms i (fun s => { s with twin := some j, status := Status.same })
                psyms := updSym st.psyms j (fun s => { s with twin := some i, status := Status.same }) }
              with hst2
            have hbAt : ∀ r, st2.bsyms.get? r =
                if r = i then some { sym1 with twin := some j, status := Status.same }
                else st.bsyms.get? r := by
              intro r
              by_cases hr : r = i
              · subst hr
                rw [if_pos rfl]
                exact updSym_self st.bsyms r _ sym1 hg
              · rw [if_neg hr]
                exact updSym_other st.bsyms i _ r hr
            have hpAt : ∀ r, st2.psyms.get? r =
                if r = j then some { sym2 with twin := some i, status := Status.same }
                else st.psyms.get? r := by
              intro r
              by_cases hr : r = j
              · subst hr
                rw [if_pos rfl]
                exact updSym_self st.psyms r _ sym2 hsym2g
              · rw [if_neg hr]
                exact updSym_other st.psyms j _ r hr
            have hd2 : BaseSymKeysDistinct st2 := by
              intro i1 i2 s1 s2 hne h1 h2
              rw [hbAt i1] at h1
              rw [hbAt i2] at h2
              by_cases h1i : i1 = i
              · rw [if_pos h1i] at h1
                injection h1 with h1e
                subst h1e
                by_cases h2i : i2 = i
                · exact absurd (h1i.trans h2i.symm) hne
                · rw [if_neg h2i] at h2
                  subst h1i
                  exact hd i1 i2 sym1 s2 hne hg h2
              · rw [if_neg h1i] at h1
                by_cases h2i : i2 = i
                · rw [if_pos h2i] at h2
                  injection h2 with h2e
                  subst h2e
                  subst h2i
                  exact hd i1 i2 s1 sym1 hne h1 hg
                · rw [if_neg h2i] at h2
                  exact hd i1 i2 s1 s2 hne h1 h2
            have huntw2 : ∀ r, r ∈ rest → ∀ sym, st2.bsyms.get? r = some sym →
                sym.twin = none := by
              intro r hr sym hget
              rw [hbAt r] at hget
              have hri : r ≠ i := fun he => hnd2.1 (he ▸ hr)
              rw [if_neg hri] at hget
              exact huntw r (List.mem_cons_of_mem _ hr) sym hget
            have hsymm2 : SymSymmetric st2 := by
              constructor
              · intro r sym jj hget htwin
                rw [hbAt r] at hget
                by_cases hri : r = i
                · rw [if_pos hri] at hget
                  injection hget with hge
                  subst hge
                  simp only at htwin
                  injection htwin with hje
                  refine ⟨{ sym2 with twin := some i, status := Status.same }, ?_, ?_⟩
                  · rw [hpAt jj, if_pos hje.symm]
                  · rw [hri]
                · rw [if_neg hri] at hget
                  obtain ⟨p, hpget, hptwin⟩ := hsym.1 r sym jj hget htwin
                  have hjj : jj ≠ j := by
                    intro he
                    subst he
                    rw [hsym2g] at hpget
                    injection hpget with hpe
                    subst hpe
                    rw [h2untw] at hptwin
                    exact Option.noConfusion hptwin
                  refine ⟨p, ?_, hptwin⟩
                  rw [hpAt jj, if_neg hjj]
                  exact hpget
              · intro r sym jj hget htwin
                rw [hpAt r] at hget
                by_cases hrj : r = j
                · rw [if_pos hrj] at hget
                  injection hget with hge
                  subst hge
                  simp only at htwin
                  injection htwin with hje
                  refine ⟨{ sym1 with twin := some j, status := Status.same }, ?_, ?_⟩
                  · rw [hbAt jj, if_pos hje.symm]
                  · rw [hrj]
                · rw [if_neg hrj] at hget
                  obtain ⟨p, hpget, hptwin⟩ := hsym.2 r sym jj hget htwin
                  have hjj : jj ≠ i := by
                    intro he
                    subst he
                    rw [hg] at hpget
                    injection hpget with hpe
                    subst hpe
                    rw [h1untw] at hptwin
                    exact Option.noConfusion hptwin
                  refine ⟨p, ?_, hptwin⟩
                  rw [hbAt jj, if_neg hjj]
                  exact hpget
            have hkeyed2 : SymPairsKeyed st2 := by
              intro r sym jj sym2b hget htwin hpget
              rw [hbAt r] at hget
              rw [hpAt jj] at hpget
              by_cases hri : r = i
              · rw [if_pos hri] at hget
                injection hget with hge
                subst hge
                simp only at htwin
                injection htwin with hje
                rw [if_pos hje.symm] at hpget
                injection hpget with hpe
                subst hpe
                exact hkey12
              · rw [if_neg hri] at hget
                by_cases hjj : jj = j
                · subst hjj
                  obtain ⟨p, hp2, hp3⟩ := hsym.1 r sym jj hget htwin
                  rw [hsym2g] at hp2
                  injection hp2 with hpe
                  subst hpe
                  rw [h2untw] at hp3
                  exact Option.noConfusion hp3
                · rw [if_neg hjj] at hpget
                  exact hkeyed r sym jj sym2b hget htwin hpget
            obtain ⟨hb1, hb2, hb3⟩ := ih st2 hnd2.2 hd2 huntw2 hsymm2 hkeyed2
            exact ⟨hb1, hb2, hb3⟩

/-- Helper: the symbol-correlation pass keeps the section lists intact
and establishes twin symmetry of the symbols when base symbol keys are
pairwise distinct and all symbol twins start unset. -/
theorem correlate_symbols_symmetric (st : TwoElf)
    (hd : BaseSymKeysDistinct st)
    (hbn : ∀ i sym, st.bsyms.get? i = some sym → sym.twin = none)
    (hpn : ∀ i sym, st.psyms.get? i = some sym → sym.twin = none) :
    (xsplice_correlate_symbols st).bsecs = st.bsecs ∧
    (xsplice_correlate_symbols st).psecs = st.psecs ∧
    SymSymmetric (xsplice_correlate_symbols st) := by
  apply symCorrLoop_symmetric (List.range st.bsyms.length) st (List.nodup_range _) hd
    (fun i _ sym hget => hbn i sym hget)
  · constructor
    · intro i sym j hget htwin
      rw [hbn i sym hget] at htwin
      exact Option.noConfusion htwin
    · intro j sym2 i hget htwin
      rw [hpn j sym2 hget] at htwin
      exact Option.noConfusion htwin
  · intro i sym j sym2 hget htwin _
    rw [hbn i sym hget] at htwin
    exact Option.noConfusion htwin

/-- Helper: `Except` bind on an error short-circuits. -/
theorem exceptBind_error {ε α β : Type} (e : ε) (f : α → Except ε β) :
    (Except.error e >>= f) = Except.error e := rfl

/-- Helper: `Except` bind on a success applies the continuation. -/
theorem exceptBind_ok {ε α β : Type} (a : α) (f : α → Except ε β) :
    (Except.ok a >>= f) = f a := rfl

/-- Helper: `foldlM` over `Except` on the empty list succeeds with the
accumulator. -/
theorem foldlM_ex_nil {ε σ α : Type} (f : σ → α → Except ε σ) (s : σ) :
    List.foldlM f s [] = Except.ok s := rfl

/-- Helper: `foldlM` over `Except` on a cons runs the head step and
binds. -/
theorem foldlM_ex_cons {ε σ α : Type} (f : σ → α → Except ε σ) (s : σ) (a : α) (l : List α) :
    List.foldlM f s (a :: l) = f s a >>= fun s2 => List.foldlM f s2 l := rfl

/-- Section twin symmetry only depends on the section lists. -/
theorem SecSymmetric_congr (st st2 : TwoElf) (h1 : st2.bsecs = st.bsecs)
    (h2 : st2.psecs = st.psecs) (h : SecSymmetric st) : SecSymmetric st2 := by
  unfold SecSymmetric at h ⊢
  rw [h1, h2]
  exact h

/-- Symbol twin symmetry only depends on the symbol lists. -/
theorem SymSymmetric_congr (st st2 : TwoElf) (h1 : st2.bsyms = st.bsyms)
    (h2 : st2.psyms = st.psyms) (h : SymSymmetric st) : SymSymmetric st2 := by
  unfold SymSymmetric at h ⊢
  rw [h1, h2]
  exact h

/-- A candidate index produced by the static-twin search always points at
an untwinned base symbol. -/
def UntwCand (st : TwoElf) (o : Option Nat) : Prop :=
  ∀ b, o = some b → ∃ bs, st.bsyms.get? b = some bs ∧ bs.twin = none

/-- Helper: one relocation step of the static-twin base scan keeps the
untwinned-candidate invariant. -/
theorem staticFoldStep_inv (st : TwoElf) (nm : List Char) (acc : Option Nat) (r : CRela)
    (a : Option Nat) (hok : staticFoldStep st nm acc r = .ok a)
    (hinv : UntwCand st acc) : UntwCand st a := by
  unfold staticFoldStep at hok
  cases hbs : st.bsyms.get? r.symIdx with
  | none =>
    simp only [hbs] at hok
    injection hok with he
    exact he ▸ hinv
  | some bs =>
    simp only [hbs] at hok
    by_cases htw : bs.twin.isSome = true
    · rw [if_pos htw] at hok
      injection hok with he
      exact he ▸ hinv
    · rw [if_neg htw] at hok
      by_cases hcmp : xsplice_mangled_strcmp bs.name nm ≠ 0
      · rw [if_pos hcmp] at hok
        injection hok with he
        exact he ▸ hinv
      · rw [if_neg hcmp] at hok
        cases hacc : acc with
        | some prev =>
          simp only [hacc] at hok
          by_cases hne : prev ≠ r.symIdx
          · rw [if_pos hne] at hok
            exact Except.noConfusion hok
          · rw [if_neg hne] at hok
            injection hok with he
            subst he
            exact hacc ▸ hinv
        | none =>
          simp only [hacc] at hok
          injection hok with he
          subst he
          intro b hb
          injection hb with hb2
          subst hb2
          refine ⟨bs, hbs, ?_⟩
          cases hx : bs.twin with
          | none => rfl
          | some v => rw [hx] at htw; exact absurd rfl htw

/-- Helper: the static-twin base scan keeps the untwinned-candidate
invariant along the whole relocation list. -/
theorem staticFold_inv (st : TwoElf) (nm : List Char) : ∀ (l : List CRela)
    (acc res : Option Nat),
    List.foldlM (staticFoldStep st nm) acc l = .ok res →
    UntwCand st acc → UntwCand st res := by
  intro l
  induction l with
  | nil =>
    intro acc res hok hinv
    rw [foldlM_ex_nil] at hok
    injection hok with he
    exact he ▸ hinv
  | cons r t ih =>
    intro acc res hok hinv
    rw [foldlM_ex_cons] at hok
    cases hstep : staticFoldStep st nm acc r with
    | error e =>
      rw [hstep, exceptBind_error] at hok
      exact Except.noConfusion hok
    | ok a =>
      rw [hstep, exceptBind_ok] at hok
      exact ih a res hok (staticFoldStep_inv st nm acc r a hstep hinv)

/-- Helper: a successful static-twin search returns an untwinned base
symbol when it returns a candidate at all. -/
theorem findStaticTwin_untw (st : TwoElf) (t k : Nat) (o : Option Nat)
    (hok : findStaticTwin st t k = .ok o) : UntwCand st o := by
  unfold findStaticTwin at hok
  cases hsec : st.psecs.get? t with
  | none =>
    simp only [hsec] at hok
    injection hok with he
    subst he
    intro b hb
    exact Option.noConfusion hb
  | some sec =>
    simp only [hsec] at hok
    cases htw : sec.twin with
    | none =>
      simp only [htw] at hok
      injection hok with he
      subst he
      intro b hb
      exact Option.noConfusion hb
    | some twinIdx =>
      simp only [htw] at hok
      cases hsym : st.psyms.get? k with
      | none =>
        simp only [hsym] at hok
        injection hok with he
        subst he
        intro b hb
        exact Option.noConfusion hb
      | some sym =>
        simp only [hsym] at hok
        by_cases hany : sec.relas.any (fun r =>
            (r.symIdx ≠ k) &&
            (((st.psyms.get? r.symIdx).map (fun s =>
              s.twin.isNone && decide (xsplice_mangled_strcmp s.name sym.name = 0))).getD
              false)) = true
        · rw [if_pos hany] at hok
          exact Except.noConfusion hok
        · rw [if_neg hany] at hok
          cases hts : st.bsecs.get? twinIdx with
          | none =>
            simp only [hts] at hok
            injection hok with he
            subst he
            intro b hb
            exact Option.noConfusion hb
          | some twinSec =>
            simp only [hts] at hok
            exact staticFold_inv st sym.name twinSec.relas none o hok
              (fun b hb => Option.noConfusion hb)

/-- Helper: one section step of the static-local scan keeps the
untwinned-candidate invariant on the second accumulator component. -/
theorem staticScanStep_inv (st : TwoElf) (k : Nat) (acc : Option Nat × Option Nat)
    (t : Nat) (a : Option Nat × Option Nat) (hok : staticScanStep st k acc t = .ok a)
    (hinv : UntwCand st acc.2) : UntwCand st a.2 := by
  unfold staticScanStep at hok
  cases hsec : st.psecs.get? t with
  | none =>
    simp only [hsec] at hok
    injection hok with he
    exact he ▸ hinv
  | some tmpsec =>
    simp only [hsec] at hok
    by_cases hb : tmpsec.baseIdx.isNone = true
    · rw [if_pos hb] at hok
      injection hok with he
      exact he ▸ hinv
    · rw [if_neg hb] at hok
      by_cases ht : ¬ isTextSectionName
          (((tmpsec.baseIdx.bind (fun b => st.psecs.get? b)).map (·.name)).getD []) = true
      · rw [if_pos ht] at hok
        injection hok with he
        exact he ▸ hinv
      · rw [if_neg ht] at hok
        by_cases hdb : isDebugSectionName tmpsec.name = true
        · rw [if_pos hdb] at hok
          injection hok with he
          exact he ▸ hinv
        · rw [if_neg hdb] at hok
          by_cases hany : tmpsec.relas.any (fun r => r.symIdx = k) = true
          · rw [if_pos hany] at hok
            cases hfs : findStaticTwin st t k with
            | error e =>
              simp only [hfs] at hok
              exact Except.noConfusion hok
            | ok tmpsym =>
              simp only [hfs] at hok
              have huc := findStaticTwin_untw st t k tmpsym hfs
              cases hacc2 : acc.2 with
              | some b0 =>
                cases htt : tmpsym with
                | some tb =>
                  simp only [hacc2, htt] at hok
                  by_cases hne : b0 ≠ tb
                  · rw [if_pos hne] at hok
                    exact Except.noConfusion hok
                  · rw [if_neg hne] at hok
                    injection hok with he
                    subst he
                    exact hacc2 ▸ hinv
                | none =>
                  simp only [hacc2, htt] at hok
                  injection hok with he
                  subst he
                  exact hacc2 ▸ hinv
              | none =>
                cases htt : tmpsym with
                | some tb =>
                  simp only [hacc2, htt] at hok
                  injection hok with he
                  subst he
                  intro b hb
                  injection hb with hb2
                  exact hb2 ▸ huc tb htt
                | none =>
                  simp only [hacc2, htt] at hok
                  injection hok with he
                  subst he
                  exact hacc2 ▸ hinv
          · rw [if_neg hany] at hok
            injection hok with he
            exact he ▸ hinv

/-- Helper: the static-local section scan keeps the untwinned-candidate
invariant on its result. -/
theorem scanFold_inv (st : TwoElf) (k : Nat) : ∀ (L : List Nat)
    (acc res : Option Nat × Option Nat),
    List.foldlM (staticScanStep st k) acc L = .ok res →
    UntwCand st acc.2 → UntwCand st res.2 := by
  intro L
  induction L with
  | nil =>
    intro acc res hok hinv
    rw [foldlM_ex_nil] at hok
    injection hok with he
    exact he ▸ hinv
  | cons t ts ih =>
    intro acc res hok hinv
    rw [foldlM_ex_cons] at hok
    cases hstep : staticScanStep st k acc t with
    | error e =>
      rw [hstep, exceptBind_error] at hok
      exact Except.noConfusion hok
    | ok a =>
      rw [hstep, exceptBind_ok] at hok
      exact ih a res hok (staticScanStep_inv st k acc t a hstep hinv)

/-- Helper: twinning a previously untwinned patched symbol with a
previously untwinned base symbol (as the static-local pass does,
renaming the patched one) preserves symbol twin symmetry. -/
theorem symTwinPair_symmetric (st : TwoElf) (k b : Nat) (sym bs : CSym) (nm : List Char)
    (hp : st.psyms.get? k = some sym) (hpn : sym.twin = none)
    (hb : st.bsyms.get? b = some bs) (hbn : bs.twin = none)
    (hs : SymSymmetric st) :
    SymSymmetric { st with
      psyms := updSym st.psyms k (fun s =>
        { s with name := nm, twin := some b, status := Status.same })
      bsyms := updSym st.bsyms b (fun s =>
        { s with twin := some k, status := Status.same }) } := by
  set st2 : TwoElf := { st with
      psyms := updSym st.psyms k (fun s =>
        { s with name := nm, twin := some b, status := Status.same })
      bsyms := updSym st.bsyms b (fun s =>
        { s with twin := some k, status := Status.same }) }
    with hst2
  have hbAt : ∀ r, st2.bsyms.get? r =
      if r = b then some { bs with twin := some k, status := Status.same }
      else st.bsyms.get? r := by
    intro r
    by_cases hr : r = b
    · subst hr
      rw [if_pos rfl]
      exact updSym_self st.bsyms r _ bs hb
    · rw [if_neg hr]
      exact updSym_other st.bsyms b _ r hr
  have hpAt : ∀ r, st2.psyms.get? r =
      if r = k then some { sym with name := nm, twin := some b, status := Status.same }
      else st.psyms.get? r := by
    intro r
    by_cases hr : r = k
    · subst hr
      rw [if_pos rfl]
      exact updSym_self st.psyms r _ sym hp
    · rw [if_neg hr]
      exact updSym_other st.psyms k _ r hr
  constructor
  · intro r s0 jj hget htwin
    rw [hbAt r] at hget
    by_cases hrb : r = b
    · rw [if_pos hrb] at hget
      injection hget with hge
      subst hge
      simp only at htwin
      injection htwin with hje
      refine ⟨{ sym with name := nm, twin := some b, status := Status.same }, ?_, ?_⟩
      · rw [hpAt jj, if_pos hje.symm]
      · rw [hrb]
    · rw [if_neg hrb] at hget
      obtain ⟨p, hpget, hptwin⟩ := hs.1 r s0 jj hget htwin
      have hjk : jj ≠ k := by
        intro he
        subst he
        rw [hp] at hpget
        injection hpget with hpe
        subst hpe
        rw [hpn] at hptwin
        exact Option.noConfusion hptwin
      refine ⟨p, ?_, hptwin⟩
      rw [hpAt jj, if_neg hjk]
      exact hpget
  · intro r s0 jj hget htwin
    rw [hpAt r] at hget
    by_cases hrk : r = k
    · rw [if_pos hrk] at hget
      injection hget with hge
      subst hge
      simp only at htwin
      injection htwin with hje
      refine ⟨{ bs with twin := some k, status := Status.same }, ?_, ?_⟩
      · rw [hbAt jj, if_pos hje.symm]
      · rw [hrk]
    · rw [if_neg hrk] at hget
      obtain ⟨p, hpget, hptwin⟩ := hs.2 r s0 jj hget htwin
      have hjb : jj ≠ b := by
        intro he
        subst he
        rw [hb] at hpget
        injection hpget with hpe
        subst hpe
        rw [hbn] at hptwin
        exact Option.noConfusion hptwin
      refine ⟨p, ?_, hptwin⟩
      rw [hbAt jj, if_neg hjb]
      exact hpget

/-- Helper: twinning a previously untwinned patched section with a
previously untwinned base section (the static-local bundled re-twin)
preserves section twin symmetry. -/
theorem secTwinPair_symmetric (st : TwoElf) (sid bsid : Nat) (psec bsec : CSec)
    (hp : st.psecs.get? sid = some psec) (hpn : psec.twin = none)
    (hb : st.bsecs.get? bsid = some bsec) (hbn : bsec.twin = none)
    (hs : SecSymmetric st) :
    SecSymmetric { st with
      psecs := updSec st.psecs sid (fun s => { s with twin := some bsid })
      bsecs := updSec st.bsecs bsid (fun s => { s with twin := some sid }) } := by
  set st2 : TwoElf := { st with
      psecs := updSec st.psecs sid (fun s => { s with twin := some bsid })
      bsecs := updSec st.bsecs bsid (fun s => { s with twin := some sid }) }
    with hst2
  have hbAt : ∀ r, st2.bsecs.get? r =
      if r = bsid then some { bsec with twin := some sid }
      else st.bsecs.get? r := by
    intro r
    by_cases hr : r = bsid
    · subst hr
      rw [if_pos rfl]
      exact updSec_self st.bsecs r _ bsec hb
    · rw [if_neg hr]
      exact updSec_other st.bsecs bsid _ r hr
  have hpAt : ∀ r, st2.psecs.get? r =
      if r = sid then some { psec with twin := some bsid }
      else st.psecs.get? r := by
    intro r
    by_cases hr : r = sid
    · subst hr
      rw [if_pos rfl]
      exact updSec_self st.psecs r _ psec hp
    · rw [if_neg hr]
      exact updSec_other st.psecs sid _ r hr
  constructor
  · intro r s0 jj hget htwin
    rw [hbAt r] at hget
    by_cases hrb : r = bsid
    · rw [if_pos hrb] at hget
      injection hget with hge
      subst hge
      simp only at htwin
      injection htwin with hje
      refine ⟨{ psec with twin := some bsid }, ?_, ?_⟩
      · rw [hpAt jj, if_pos hje.symm]
      · rw [hrb]
    · rw [if_neg hrb] at hget
      obtain ⟨p, hpget, hptwin⟩ := hs.1 r s0 jj hget htwin
      have hjk : jj ≠ sid := by
        intro he
        subst he
        rw [hp] at hpget
        injection hpget with hpe
        subst hpe
        rw [hpn] at hptwin
        exact Option.noConfusion hptwin
      refine ⟨p, ?_, hptwin⟩
      rw [hpAt jj, if_neg hjk]
      exact hpget
  · intro r s0 jj hget htwin
    rw [hpAt r] at hget
    by_cases hrk : r = sid
    · rw [if_pos hrk] at hget
      injection hget with hge
      subst hge
      simp only at htwin
      injection htwin with hje
      refine ⟨{ bsec with twin := some sid }, ?_, ?_⟩
      · rw [hbAt jj, if_pos hje.symm]
      · rw [hrk]
    · rw [if_neg hrk] at hget
      obtain ⟨p, hpget, hptwin⟩ := hs.2 r s0 jj hget htwin
      have hjb : jj ≠ bsid := by
        intro he
        subst he
        rw [hb] at hpget
        injection hpget with hpe
        subst hpe
        rw [hbn] at hptwin
        exact Option.noConfusion hptwin
      refine ⟨p, ?_, hptwin⟩
      rw [hbAt jj, if_neg hjb]
      exact hpget

/-- The invariant carried through the static-local pass: twin symmetry
on both kinds plus bundled-twin closure. -/
def CorrInv (st : TwoElf) : Prop :=
  SecSymmetric st ∧ SymSymmetric st ∧ BundledTwinClosed st

/-- Helper: one step of the static-local pass preserves twin symmetry
and bundled-twin closure. -/
theorem staticStep_preserves (st : TwoElf) (k : Nat) (st2 : TwoElf)
    (hok : staticStep st k = .ok st2) (h : CorrInv st) : CorrInv st2 := by
  obtain ⟨hSec, hSym, hCl⟩ := h
  unfold staticStep at hok
  cases hsg : st.psyms.get? k with
  | none =>
    simp only [hsg] at hok
    injection hok with he
    exact he ▸ ⟨hSec, hSym, hCl⟩
  | some sym =>
    simp only [hsg] at hok
    by_cases hA : sym.typ ≠ SymTy.stObject ∨ sym.bind ≠ SymBind.sbLocal ∨
        sym.twin.isSome = true
    · rw [if_pos hA] at hok
      injection hok with he
      exact he ▸ ⟨hSec, hSym, hCl⟩
    · rw [if_neg hA] at hok
      have hsymtw : sym.twin = none := by
        cases hx : sym.twin with
        | none => rfl
        | some v => exact absurd (Or.inr (Or.inr (by rw [hx]; rfl))) hA
      by_cases hB : isSpecialStaticC st.psecs st.psyms sym = true
      · rw [if_pos hB] at hok
        injection hok with he
        exact he ▸ ⟨hSec, hSym, hCl⟩
      · rw [if_neg hB] at hok
        by_cases hC : ¬ sym.name.contains '.' = true
        · rw [if_pos hC] at hok
          injection hok with he
          exact he ▸ ⟨hSec, hSym, hCl⟩
        · rw [if_neg hC] at hok
          cases hscan : List.foldlM (staticScanStep st k) (none, none)
              (List.range st.psecs.length) with
          | error e =>
            simp only [hscan] at hok
            exact Except.noConfusion hok
          | ok p =>
            simp only [hscan] at hok
            obtain ⟨p1, p2⟩ := p
            cases p1 with
            | none => exact Except.noConfusion hok
            | some s1 =>
              cases p2 with
              | none =>
                injection hok with he
                exact he ▸ ⟨hSec, hSym, hCl⟩
              | some bIdx =>
                have huc : UntwCand st (some bIdx) :=
                  scanFold_inv st k (List.range st.psecs.length) (none, none)
                    (some s1, some bIdx) hscan (fun b hb => Option.noConfusion hb)
                obtain ⟨bs0, hbs0, hbs0tw⟩ := huc bIdx rfl
                cases hbg : st.bsyms.get? bIdx with
                | none =>
                  simp only [hbg] at hok
                  injection hok with he
                  exact he ▸ ⟨hSec, hSym, hCl⟩
                | some basesym =>
                  simp only [hbg] at hok
                  rw [hbg] at hbs0
                  injection hbs0 with hbe
                  have hbasetw : basesym.twin = none := by
                    rw [hbe]
                    exact hbs0tw
                  cases hsid : sym.secIdx with
                  | none =>
                    simp only [hsid] at hok
                    exact Except.noConfusion hok
                  | some sid =>
                    simp only [hsid] at hok
                    cases hpsg : st.psecs.get? sid with
                    | none =>
                      simp only [hpsg] at hok
                      exact Except.noConfusion hok
                    | some psec =>
                      simp only [hpsg] at hok
                      cases hbsid : basesym.secIdx with
                      | none =>
                        simp only [hbsid] at hok
                        exact Except.noConfusion hok
                      | some bsid =>
                        simp only [hbsid] at hok
                        cases hbsg : st.bsecs.get? bsid with
                        | none =>
                          simp only [hbsg] at hok
                          exact Except.noConfusion hok
                        | some bsec =>
                          simp only [hbsg] at hok
                          by_cases hD : (decide (psec.symIdx = some k)) ≠
                              (decide (bsec.symIdx = some bIdx))
                          · rw [if_pos hD] at hok
                            exact Except.noConfusion hok
                          · rw [if_neg hD] at hok
                            have hDeq : (decide (psec.symIdx = some k)) =
                                (decide (bsec.symIdx = some bIdx)) := not_ne_iff.mp hD
                            by_cases hq : psec.symIdx = some k
                            · have hd1 : decide (psec.symIdx = some k) = true :=
                                decide_eq_true hq
                              rw [hd1] at hok
                              simp only [Bool.not_true, Bool.false_and] at hok
                              rw [if_neg Bool.false_ne_true] at hok
                              rw [if_pos hq] at hok
                              injection hok with he
                              subst he
                              have hbsidx : bsec.symIdx = some bIdx :=
                                of_decide_eq_true (hDeq ▸ hd1)
                              have hpsectw : psec.twin = none := by
                                cases hx : psec.twin with
                                | none => rfl
                                | some v =>
                                  have := hCl.1 sid psec k sym hpsg (by rw [hx]; rfl) hq hsg
                                  rw [hsymtw] at this
                                  exact absurd this (by decide)
                              have hbsectw : bsec.twin = none := by
                                cases hx : bsec.twin with
                                | none => rfl
                                | some v =>
                                  have := hCl.2 bsid bsec bIdx basesym hbsg
                                    (by rw [hx]; rfl) hbsidx hbg
                                  rw [hbasetw] at this
                                  exact absurd this (by decide)
                              refine ⟨?_, ?_, ?_⟩
                              · exact secTwinPair_symmetric
                                  { st with
                                    psyms := updSym st.psyms k (fun s =>
                                      { s with name := basesym.name, twin := some bIdx,
                                               status := Status.same })
                                    bsyms := updSym st.bsyms bIdx (fun s =>
                                      { s with twin := some k, status := Status.same }) }
                                  sid bsid psec bsec hpsg hpsectw hbsg hbsectw
                                  (SecSymmetric_congr st _ rfl rfl hSec)
                              · exact SymSymmetric_congr _ _ rfl rfl
                                  (symTwinPair_symmetric st k bIdx sym basesym basesym.name
                                    hsg hsymtw hbg hbasetw hSym)
                              · constructor
                                · intro i sec b2 s2 hsec hsome hsidx hs2
                                  have hsec2 : (updSec st.psecs sid (fun s =>
                                      { s with twin := some bsid })).get? i = some sec := hsec
                                  have hs2b : (updSym st.psyms k (fun s =>
                                      { s with name := basesym.name, twin := some bIdx,
                                               status := Status.same })).get? b2 = some s2 := hs2
                                  by_cases hbk : b2 = k
                                  · subst hbk
                                    rw [updSym_self st.psyms b2 _ sym hsg] at hs2b
                                    injection hs2b with hse
                                    subst hse
                                    rfl
                                  · rw [updSym_other st.psyms k _ b2 hbk] at hs2b
                                    by_cases hisid : i = sid
                                    · subst hisid
                                      rw [updSec_self st.psecs i _ psec hpsg] at hsec2
                                      injection hsec2 with hsece
                                      subst hsece
                                      have hx : psec.symIdx = some b2 := hsidx
                                      rw [hq] at hx
                                      injection hx with he2
                                      exact absurd he2.symm hbk
                                    · rw [updSec_other st.psecs sid _ i hisid] at hsec2
                                      exact hCl.1 i sec b2 s2 hsec2 hsome hsidx hs2b
                                · intro i sec b2 s2 hsec hsome hsidx hs2
                                  have hsec2 : (updSec st.bsecs bsid (fun s =>
                                      { s with twin := some sid })).get? i = some sec := hsec
                                  have hs2b : (updSym st.bsyms bIdx (fun s =>
                                      { s with twin := some k,
                                               status := Status.same })).get? b2 = some s2 := hs2
                                  by_cases hbk : b2 = bIdx
                                  · subst hbk
                                    rw [updSym_self st.bsyms b2 _ basesym hbg] at hs2b
                                    injection hs2b with hse
                                    subst hse
                                    rfl
                                  · rw [updSym_other st.bsyms bIdx _ b2 hbk] at hs2b
                                    by_cases hibs : i = bsid
                                    · subst hibs
                                      rw [updSec_self st.bsecs i _ bsec hbsg] at hsec2
                                      injection hsec2 with hsece
                                      subst hsece
                                      have hx : bsec.symIdx = some b2 := hsidx
                                      rw [hbsidx] at hx
                                      injection hx with he2
                                      exact absurd he2.symm hbk
                                    · rw [updSec_other st.bsecs bsid _ i hibs] at hsec2
                                      exact hCl.2 i sec b2 s2 hsec2 hsome hsidx hs2b
                            · have hd1 : decide (psec.symIdx = some k) = false :=
                                decide_eq_false hq
                              rw [hd1] at hok
                              simp only [Bool.not_false, Bool.true_and] at hok
                              by_cases htn : psec.twin ≠ some bsid
                              · rw [if_pos (decide_eq_true htn)] at hok
                                exact Except.noConfusion hok
                              · rw [decide_eq_false htn] at hok
                                rw [if_neg Bool.false_ne_true] at hok
                                rw [if_neg hq] at hok
                                injection hok with he
                                subst he
                                refine ⟨?_, ?_, ?_⟩
                                · exact SecSymmetric_congr _ _ rfl rfl hSec
                                · exact symTwinPair_symmetric st k bIdx sym basesym
                                    basesym.name hsg hsymtw hbg hbasetw hSym
                                · constructor
                                  · intro i sec b2 s2 hsec hsome hsidx hs2
                                    have hsec2 : st.psecs.get? i = some sec := hsec
                                    have hs2b : (updSym st.psyms k (fun s =>
                                        { s with name := basesym.name, twin := some bIdx,
                                                 status := Status.same })).get? b2 =
                                        some s2 := hs2
                                    by_cases hbk : b2 = k
                                    · subst hbk
                                      rw [updSym_self st.psyms b2 _ sym hsg] at hs2b
                                      injection hs2b with hse
                                      subst hse
                                      rfl
                                    · rw [updSym_other st.psyms k _ b2 hbk] at hs2b
                                      exact hCl.1 i sec b2 s2 hsec2 hsome hsidx hs2b
                                  · intro i sec b2 s2 hsec hsome hsidx hs2
                                    have hsec2 : st.bsecs.get? i = some sec := hsec
                                    have hs2b : (updSym st.bsyms bIdx (fun s =>
                                        { s with twin := some k,
                                                 status := Status.same })).get? b2 =
                                        some s2 := hs2
                                    by_cases hbk : b2 = bIdx
                                    · subst hbk
                                      rw [updSym_self st.bsyms b2 _ basesym hbg] at hs2b
                                      injection hs2b with hse
                                      subst hse
                                      rfl
                                    · rw [updSym_other st.bsyms bIdx _ b2 hbk] at hs2b
                                      exact hCl.2 i sec b2 s2 hsec2 hsome hsidx hs2b

/-- Helper: the static-local pass loop preserves the invariant. -/
theorem staticLoop_preserves : ∀ (L : List Nat) (st st3 : TwoElf),
    List.foldlM staticStep st L = .ok st3 → CorrInv st → CorrInv st3 := by
  intro L
  induction L with
  | nil =>
    intro st st3 hok hinv
    rw [foldlM_ex_nil] at hok
    injection hok with he
    exact he ▸ hinv
  | cons k t ih =>
    intro st st3 hok hinv
    rw [foldlM_ex_cons] at hok
    cases hstep : staticStep st k with
    | error e =>
      rw [hstep, exceptBind_error] at hok
      exact Except.noConfusion hok
    | ok s2 =>
      rw [hstep, exceptBind_ok] at hok
      exact ih s2 st3 hok (staticStep_preserves st k s2 hstep hinv)

/-- C6 (corrected): when the three correlation passes succeed, twin
pointers of sections and symbols are symmetric — provided base section
names and base symbol (name, type) keys are pairwise distinct, every
twin pointer starts unset, and the state reached after section and
symbol correlation is bundled-twin closed (so the static-local bundled
re-twin never orphans an already-correlated section).  Without the
distinctness provisos the property fails, see the counterexample. -/
theorem correlate_twin_symmetry_amended (st0 st3 : TwoElf)
    (hdsec : BaseSecNamesDistinct st0)
    (hdsym : BaseSymKeysDistinct st0)
    (hbsec0 : ∀ i sec, st0.bsecs.get? i = some sec → sec.twin = none)
    (hpsec0 : ∀ i sec, st0.psecs.get? i = some sec → sec.twin = none)
    (hbsym0 : ∀ i sym, st0.bsyms.get? i = some sym → sym.twin = none)
    (hpsym0 : ∀ i sym, st0.psyms.get? i = some sym → sym.twin = none)
    (hclosed : BundledTwinClosed (xsplice_correlate_symbols (xsplice_correlate_sections st0)))
    (hok : correlationPasses st0 = .ok st3) :
    TwinSymmetric st3 := by
  obtain ⟨hb1, hb2, hsecsym⟩ := correlate_sections_symmetric st0 hdsec hbsec0 hpsec0
  have hdsym1 : BaseSymKeysDistinct (xsplice_correlate_sections st0) := by
    intro i1 i2 s1 s2 hne h1 h2
    rw [hb1] at h1 h2
    exact hdsym i1 i2 s1 s2 hne h1 h2
  have hbsym1 : ∀ i sym, (xsplice_correlate_sections st0).bsyms.get? i = some sym →
      sym.twin = none := by
    intro i sym hgt
    rw [hb1] at hgt
    exact hbsym0 i sym hgt
  have hpsym1 : ∀ i sym, (xsplice_correlate_sections st0).psyms.get? i = some sym →
      sym.twin = none := by
    intro i sym hgt
    rw [hb2] at hgt
    exact hpsym0 i sym hgt
  obtain ⟨hc1, hc2, hsymsym⟩ :=
    correlate_symbols_symmetric (xsplice_correlate_sections st0) hdsym1 hbsym1 hpsym1
  have hsec2 : SecSymmetric (xsplice_correlate_symbols (xsplice_correlate_sections st0)) :=
    SecSymmetric_congr _ _ hc1 hc2 hsecsym
  have hok2 : List.foldlM staticStep
      (xsplice_correlate_symbols (xsplice_correlate_sections st0))
      (List.range (xsplice_correlate_symbols (xsplice_correlate_sections st0)).psyms.length) =
      .ok st3 := hok
  have hfin := staticLoop_preserves _ _ st3 hok2 ⟨hsec2, hsymsym, hclosed⟩
  exact ⟨hfin.1, hfin.2.1⟩

/-- C6 witness input: one base section `A`, one patched section `A`, no
symbols. -/
def wSt0 : TwoElf :=
  { bsecs := [c6secA], bsyms := [], psecs := [c6secA], psyms := [] }

/-- C6 witness output: the correlation passes twin the two `A` sections
with each other. -/
def wSt3 : TwoElf :=
  { bsecs := [{ c6secA with twin := some 0, status := Status.same }]
    bsyms := []
    psecs := [{ c6secA with twin := some 0, status := Status.same }]
    psyms := [] }

/-- Witness for the amended C6 theorem, at the concrete one-section
models. -/
theorem correlate_twin_symmetry_amended_witness : TwinSymmetric wSt3 := by
  apply correlate_twin_symmetry_amended wSt0 wSt3
  · intro i1 i2 s1 s2 hne h1 h2
    obtain ⟨hl1, _⟩ := List.get?_eq_some.mp h1
    obtain ⟨hl2, _⟩ := List.get?_eq_some.mp h2
    simp [wSt0] at hl1 hl2
    exact absurd (by omega : i1 = i2) hne
  · intro i1 i2 s1 s2 hne h1 h2
    obtain ⟨hl1, _⟩ := List.get?_eq_some.mp h1
    exact absurd hl1 (by simp [wSt0])
  · intro i sec h
    cases i with
    | zero =>
      injection h with he
      rw [← he]
      rfl
    | succ n =>
      obtain ⟨hl, _⟩ := List.get?_eq_some.mp h
      exact absurd hl (by simp [wSt0])
  · intro i sec h
    cases i with
    | zero =>
      injection h with he
      rw [← he]
      rfl
    | succ n =>
      obtain ⟨hl, _⟩ := List.get?_eq_some.mp h
      exact absurd hl (by simp [wSt0])
  · intro i sym h
    obtain ⟨hl, _⟩ := List.get?_eq_some.mp h
    exact absurd hl (by simp [wSt0])
  · intro i sym h
    obtain ⟨hl, _⟩ := List.get?_eq_some.mp h
    exact absurd hl (by simp [wSt0])
  · have he : xsplice_correlate_symbols (xsplice_correlate_sections wSt0) = wSt3 := rfl
    rw [he]
    constructor
    · intro i sec b sym h1 h2 h3 h4
      obtain ⟨hl, _⟩ := List.get?_eq_some.mp h4
      exact absurd hl (by simp [wSt3])
    · intro i sec b sym h1 h2 h3 h4
      obtain ⟨hl, _⟩ := List.get?_eq_some.mp h4
      exact absurd hl (by simp [wSt3])
  · rfl

/-! ### Inclusion passes (C1, C7) -/

/-- A relocation as seen by the inclusion passes: only its target symbol
matters here. -/
structure IRela where
  symIdx : Nat
deriving DecidableEq, Repr

/-- Model of `struct section` for the inclusion passes: name, the
`include` flag (called `incl`), the base back-reference (present exactly
for relocation sections), the section's own relocation section, the
section symbol, the bundled symbol and the relocation list. -/
structure ISec where
  name : List Char
  incl : Bool
  base : Option Nat
  rela : Option Nat
  secsym : Option Nat
  sym : Option Nat
  relas : List IRela
deriving DecidableEq, Repr

/-- Model of `struct symbol` for the inclusion passes. -/
structure ISym where
  name : List Char
  typ : SymTy
  bind : SymBind
  status : Status
  sec : Option Nat
  incl : Bool
deriving DecidableEq, Repr

/-- The patched ELF model the inclusion passes run on. -/
structure IElf where
  secs : List ISec
  syms : List ISym
deriving DecidableEq, Repr

/-- Update the section at an index (inclusion model). -/
def updISec (secs : List ISec) (i : Nat) (f : ISec → ISec) : List ISec :=
  match secs.get? i with
  | none => secs
  | some s => secs.set i (f s)

/-- Update the symbol at an index (inclusion model). -/
def updISym (syms : List ISym) (i : Nat) (f : ISym → ISym) : List ISym :=
  match syms.get? i with
  | none => syms
  | some s => syms.set i (f s)

/-- `sym->include = 1`. -/
def markSymIncl (e : IElf) (k : Nat) : IElf :=
  { e with syms := updISym e.syms k (fun s => { s with incl := true }) }

/-- `sym->include = 0` (hook stripping). -/
def markSymNotIncl (e : IElf) (k : Nat) : IElf :=
  { e with syms := updISym e.syms k (fun s => { s with incl := false }) }

/-- `sec->include = 1`. -/
def markSecIncl (e : IElf) (i : Nat) : IElf :=
  { e with secs := updISec e.secs i (fun s => { s with incl := true }) }

/-- `if (sec->secsym) sec->secsym->include = 1`. -/
def markOptSymIncl (e : IElf) (o : Option Nat) : IElf :=
  match o with
  | some ss => markSymIncl e ss
  | none => e

/-- `if (sec->secsym && sec->secsym != sym) sec->secsym->include = 1`
(the section-symbol step of `xsplice_include_symbol`). -/
def markSecsymIncl (e : IElf) (o : Option Nat) (k : Nat) : IElf :=
  match o with
  | some ss => if ss ≠ k then markSymIncl e ss else e
  | none => e

/-- The relocation list of the section at an index, empty when the index
is out of range. -/
def relasAt (e : IElf) (ri : Nat) : List IRela :=
  ((e.secs.get? ri).map (·.relas)).getD []

/-- Embedding of `xsplice_include_symbol` (create-diff-object.c:
1086-1118) with explicit recursion fuel: mark the symbol included; stop
on a symbol without a section (or a dangling section index), on a
section already included, or on an unchanged non-section symbol;
otherwise include the section, its section symbol (when distinct), and
its relocation section, then recurse into every relocation target.  Each
recursive level newly includes a section, so fuel exceeding the section
count makes the fuel bound unreachable. -/
def includeSymbolF : Nat → IElf → Nat → IElf
  | 0, e, _ => e
  | fuel+1, e, k =>
    match e.syms.get? k with
    | none => e
    | some sym =>
      match sym.sec with
      | none => markSymIncl e k
      | some si =>
        match e.secs.get? si with
        | none => markSymIncl e k
        | some sec =>
          if sec.incl = true then markSymIncl e k
          else if sym.typ ≠ SymTy.stSection ∧ sym.status = Status.same then markSymIncl e k
          else
            match sec.rela with
            | none => markSecsymIncl (markSecIncl (markSymIncl e k) si) sec.secsym k
            | some ri =>
              (relasAt e ri).foldl (fun acc r => includeSymbolF fuel acc r.symIdx)
                (markSecIncl (markSecsymIncl (markSecIncl (markSymIncl e k) si) sec.secsym k) ri)

/-- The section names included unconditionally by
`xsplice_include_standard_elements` (create-diff-object.c:1063-1080). -/
def isStandardSecName (n : List Char) : Bool :=
  (n = ".shstrtab".toList) || (n = ".strtab".toList) || (n = ".symtab".toList) ||
  (".rodata.str1.".toList.isPrefixOf n)

/-- One section step of `xsplice_include_standard_elements`. -/
def standardStep (e : IElf) (i : Nat) : IElf :=
  match e.secs.get? i with
  | none => e
  | some sec =>
    if isStandardSecName sec.name then markOptSymIncl (markSecIncl e i) sec.secsym
    else e

/-- Embedding of `xsplice_include_standard_elements`
(create-diff-object.c:1063-1080): include the standard sections and
their section symbols, then the NULL symbol (the first list entry). -/
def xsplice_include_standard_elements (e : IElf) : IElf :=
  markSymIncl ((List.range e.secs.length).foldl standardStep e) 0

/-- One symbol step of `xsplice_include_changed_functions`
(create-diff-object.c:1121-1140): changed functions are counted and
included transitively; `STT_FILE` symbols are included directly. -/
def changedStep (p : IElf × Nat) (k : Nat) : IElf × Nat :=
  match p.1.syms.get? k with
  | none => p
  | some sym =>
    if sym.status = Status.changed ∧ sym.typ = SymTy.stFunc then
      (if sym.typ = SymTy.stFile
       then markSymIncl (includeSymbolF (p.1.secs.length + 1) p.1 k) k
       else includeSymbolF (p.1.secs.length + 1) p.1 k, p.2 + 1)
    else (if sym.typ = SymTy.stFile then markSymIncl p.1 k else p.1, p.2)

/-- Embedding of `xsplice_include_changed_functions`
(create-diff-object.c:1121-1140); also returns `num_changed`. -/
def xsplice_include_changed_functions (e : IElf) : IElf × Nat :=
  (List.range e.syms.length).foldl changedStep (e, 0)

/-- Does the relocation's target symbol live in an included section?
(The keep test of the debug-relocation strip.) -/
def relaTargetSecIncl (e : IElf) (r : IRela) : Bool :=
  ((((e.syms.get? r.symIdx).bind (·.sec)).bind (fun si => e.secs.get? si)).map
    (·.incl)).getD false

/-- First loop of `xsplice_include_debug_sections`
(create-diff-object.c:1142-1166): include every debug section; for the
non-relocation ones also their section symbol. -/
def debugStep1 (e : IElf) (i : Nat) : IElf :=
  match e.secs.get? i with
  | none => e
  | some sec =>
    if isDebugSectionName sec.name then
      (if sec.base.isSome then markSecIncl e i
       else markOptSymIncl (markSecIncl e i) sec.secsym)
    else e

/-- Second loop of `xsplice_include_debug_sections`: strip from every
debug relocation section the relocations whose target symbol's section
is not included. -/
def debugStep2 (e : IElf) (i : Nat) : IElf :=
  match e.secs.get? i with
  | none => e
  | some sec =>
    if sec.base.isSome && isDebugSectionName sec.name then
      { e with secs := updISec e.secs i (fun s =>
          { s with relas := s.relas.filter (relaTargetSecIncl e) }) }
    else e

/-- Embedding of `xsplice_include_debug_sections`
(create-diff-object.c:1142-1166). -/
def xsplice_include_debug_sections (e : IElf) : IElf :=
  (List.range e.secs.length).foldl debugStep2
    ((List.range e.secs.length).foldl debugStep1 e)

/-- The four hook section names of `xsplice_include_hook_elements`. -/
def isHookSecName (n : List Char) : Bool :=
  (n = ".xsplice.hooks.load".toList) || (n = ".xsplice.hooks.unload".toList) ||
  (n = ".rela.xsplice.hooks.load".toList) || (n = ".rela.xsplice.hooks.unload".toList)

/-- `sec->sym = NULL` on the hook function's section. -/
def clearBundled (e : IElf) (i : Nat) : IElf :=
  { e with secs := updISec e.secs i (fun s => { s with sym := none }) }

/-- `rela->sym = sym->sec->secsym` on the first relocation of the hook
relocation section. -/
def retargetFirstRela (e : IElf) (i tgt : Nat) : IElf :=
  { e with secs := updISec e.secs i (fun s =>
      { s with relas := match s.relas with
                        | [] => []
                        | _ :: t => { symIdx := tgt } :: t }) }

/-- One section step of `xsplice_include_hook_elements`
(create-diff-object.c:1168-1207): include the hook sections; through a
hook relocation section, transitively include the hook function, then
strip the hook symbol itself, unbundle its section and re-point the
relocation at the section symbol.  `.error` models the NULL dereferences
(and the NULL store into `rela->sym`, which a later pass would
dereference) on malformed hook sections. -/
def hookStep (e : IElf) (i : Nat) : Except (List Char) IElf :=
  match e.secs.get? i with
  | none => .ok e
  | some sec =>
    if isHookSecName sec.name then
      if sec.base.isSome then
        match sec.relas with
        | [] => .error "empty hook rela section".toList
        | rela0 :: _ =>
          match e.syms.get? rela0.symIdx with
          | none => .error "NULL hook symbol".toList
          | some sym =>
            match sym.sec with
            | none => .error "NULL hook symbol section".toList
            | some hsid =>
              match e.secs.get? hsid with
              | none => .error "NULL hook symbol section".toList
              | some hsec =>
                match hsec.secsym with
                | none => .error "NULL hook section symbol".toList
                | some newTarget =>
                  .ok (retargetFirstRela
                        (clearBundled
                          (markSymNotIncl
                            (includeSymbolF (e.secs.length + 1) (markSecIncl e i)
                              rela0.symIdx)
                            rela0.symIdx)
                          hsid)
                        i newTarget)
      else
        match sec.secsym with
        | none => .error "NULL section symbol".toList
        | some ss => .ok (markSymIncl (markSecIncl e i) ss)
    else .ok e

/-- The temporary load/unload data objects stripped by
`xsplice_include_hook_elements`. -/
def isLoadDataName (n : List Char) : Bool :=
  (n = "xsplice_load_data".toList) || (n = "xsplice_unload_data".toList)

/-- The stripping loop at the end of `xsplice_include_hook_elements`. -/
def stripLoadStep (e : IElf) (k : Nat) : IElf :=
  match e.syms.get? k with
  | none => e
  | some sym => if isLoadDataName sym.name then markSymNotIncl e k else e

/-- Embedding of `xsplice_include_hook_elements`
(create-diff-object.c:1168-1207). -/
def xsplice_include_hook_elements (e : IElf) : Except (List Char) IElf :=
  match (List.range e.secs.length).foldlM hookStep e with
  | .error err => .error err
  | .ok e1 => .ok ((List.range e1.syms.length).foldl stripLoadStep e1)

/-- One symbol step of `xsplice_include_new_globals`
(create-diff-object.c:1209-1223). -/
def newGlobalsStep (p : IElf × Nat) (k : Nat) : IElf × Nat :=
  match p.1.syms.get? k with
  | none => p
  | some sym =>
    if sym.bind = SymBind.sbGlobal ∧ sym.sec.isSome = true ∧ sym.status = Status.new then
      (includeSymbolF (p.1.secs.length + 1) p.1 k, p.2 + 1)
    else p

/-- Embedding of `xsplice_include_new_globals`
(create-diff-object.c:1209-1223); also returns `new_globals_exist`. -/
def xsplice_include_new_globals (e : IElf) : IElf × Nat :=
  (List.range e.syms.length).foldl newGlobalsStep (e, 0)

/-- The five inclusion passes in `main`'s order, returning the final
model together with `num_changed` and `new_globals_exist`. -/
def inclusionPasses (e : IElf) : Except (List Char) (IElf × Nat × Nat) :=
  match xsplice_include_hook_elements (xsplice_include_debug_sections
      (xsplice_include_changed_functions (xsplice_include_standard_elements e)).1) with
  | .error err => .error err
  | .ok e2 =>
    .ok ((xsplice_include_new_globals e2).1,
         (xsplice_include_changed_functions (xsplice_include_standard_elements e)).2,
         (xsplice_include_new_globals e2).2)

/-- Outcome of `main` at the no-changes gate (create-diff-object.c:
1777-1780): exit code 3 before special-section processing, migration and
output writing, or proceeding into them. -/
inductive MainOutcome where
  | earlyExit3
  | proceeds
deriving DecidableEq, Repr

/-- The gate in `main` right after the inclusion passes: `return 3` when
no function changed and no new global exists. -/
def mainGateOutcome (e : IElf) : Except (List Char) MainOutcome :=
  match inclusionPasses e with
  | .error err => .error err
  | .ok (_, nc, ng) => if nc = 0 ∧ ng = 0 then .ok .earlyExit3 else .ok .proceeds

/-- C1 counterexample input: `foo` (symbol 2) is a CHANGED function and
`bar` (symbol 4) an unchanged one, both in `.text.foo` (section 0);
`.rela.debug_info` (section 2) carries one relocation targeting `bar`. -/
def c1elf : IElf :=
  { secs :=
      [ { name := ".text.foo".toList, incl := false, base := none, rela := none,
          secsym := some 1, sym := some 2, relas := [] },
        { name := ".debug_info".toList, incl := false, base := none, rela := some 2,
          secsym := some 3, sym := none, relas := [] },
        { name := ".rela.debug_info".toList, incl := false, base := some 1, rela := none,
          secsym := none, sym := none, relas := [{ symIdx := 4 }] } ]
    syms :=
      [ { name := [], typ := SymTy.stNotype, bind := SymBind.sbLocal,
          status := Status.same, sec := none, incl := false },
        { name := ".text.foo".toList, typ := SymTy.stSection, bind := SymBind.sbLocal,
          status := Status.same, sec := some 0, incl := false },
        { name := "foo".toList, typ := SymTy.stFunc, bind := SymBind.sbLocal,
          status := Status.changed, sec := some 0, incl := false },
        { name := ".debug_info".toList, typ := SymTy.stSection, bind := SymBind.sbLocal,
          status := Status.same, sec := some 1, incl := false },
        { name := "bar".toList, typ := SymTy.stFunc, bind := SymBind.sbLocal,
          status := Status.same, sec := some 0, incl := false } ] }

/-- C1 counterexample: after all five inclusion passes, symbol 2 (the
changed function) is included and the debug relocation section 2 is an
included relocation section still carrying its relocation against symbol
4, yet symbol 4 is not included — the debug strip keeps a relocation
because the target's SECTION is included, not the target itself, so the
claimed inclusion closure fails. -/
theorem inclusion_closure_counterexample :
    (inclusionPasses c1elf).toOption.map (fun t =>
      (t.1.syms.get? 2).map (·.incl)) = some (some true) ∧
    (inclusionPasses c1elf).toOption.map (fun t =>
      (t.1.secs.get? 2).map (fun s => (s.incl, s.base.isSome))) = some (some (true, true)) ∧
    (inclusionPasses c1elf).toOption.map (fun t =>
      (t.1.secs.get? 2).map (fun s => s.relas.map (·.symIdx))) = some (some [4]) ∧
    (inclusionPasses c1elf).toOption.map (fun t =>
      (t.1.syms.get? 4).map (·.incl)) = some (some false) :=
  ⟨by decide, by decide, by decide, by decide⟩

/-- Helper: `updISec` leaves other indices untouched. -/
theorem updISec_other (secs : List ISec) (i : Nat) (f : ISec → ISec) (j : Nat)
    (h : j ≠ i) : (updISec secs i f).get? j = secs.get? j := by
  unfold updISec
  cases hg : secs.get? i with
  | none => rfl
  | some s => exact List.get?_set_ne _ _ (fun he => h he.symm)

/-- Helper: `updISec` applies the function at the targeted index. -/
theorem updISec_self (secs : List ISec) (i : Nat) (f : ISec → ISec) (s : ISec)
    (hg : secs.get? i = some s) : (updISec secs i f).get? i = some (f s) := by
  have hlt : i < secs.length := by
    by_contra hc
    rw [List.get?_eq_none.mpr (le_of_not_lt hc)] at hg
    exact Option.noConfusion hg
  unfold updISec
  rw [hg]
  exact List.get?_set_eq_of_lt _ hlt

/-- Helper: `updISec` preserves the list length. -/
theorem updISec_length (secs : List ISec) (i : Nat) (f : ISec → ISec) :
    (updISec secs i f).length = secs.length := by
  unfold updISec
  cases secs.get? i with
  | none => rfl
  | some s => exact List.length_set secs i (f s)

/-- Helper: `updISym` leaves other indices untouched. -/
theorem updISym_other (syms : List ISym) (i : Nat) (f : ISym → ISym) (j : Nat)
    (h : j ≠ i) : (updISym syms i f).get? j = syms.get? j := by
  unfold updISym
  cases hg : syms.get? i with
  | none => rfl
  | some s => exact List.get?_set_ne _ _ (fun he => h he.symm)

/-- Helper: `updISym` applies the function at the targeted index. -/
theorem updISym_self (syms : List ISym) (i : Nat) (f : ISym → ISym) (s : ISym)
    (hg : syms.get? i = some s) : (updISym syms i f).get? i = some (f s) := by
  have hlt : i < syms.length := by
    by_contra hc
    rw [List.get?_eq_none.mpr (le_of_not_lt hc)] at hg
    exact Option.noConfusion hg
  unfold updISym
  rw [hg]
  exact List.get?_set_eq_of_lt _ hlt

/-- Helper: `updISym` preserves the list length. -/
theorem updISym_length (syms : List ISym) (i : Nat) (f : ISym → ISym) :
    (updISym syms i f).length = syms.length := by
  unfold updISym
  cases syms.get? i with
  | none => rfl
  | some s => exact List.length_set syms i (f s)

/-- The symbol at an index exists and is included. -/
def symIsIncl (e : IElf) (k : Nat) : Prop :=
  ∃ s, e.syms.get? k = some s ∧ s.incl = true

/-- The inclusion-closure invariant for the non-debug relocation
sections: every included one only carries relocations against included
symbols. -/
def InclClosed (e : IElf) : Prop :=
  ∀ i R, e.secs.get? i = some R → R.base.isSome = true → R.incl = true →
    ¬ isDebugSectionName R.name = true → ∀ r ∈ R.relas, symIsIncl e r.symIdx

/-- ELF well-formedness used by the inclusion argument: no symbol lives
in a relocation section, and every relocation targets an existing
symbol. -/
def InclWf (e : IElf) : Prop :=
  (∀ k s j S, e.syms.get? k = some s → s.sec = some j → e.secs.get? j = some S →
    S.base = none) ∧
  (∀ i S r, e.secs.get? i = some S → r ∈ S.relas → r.symIdx < e.syms.length)

/-- The number of not-yet-included sections (the fuel measure of the
inclusion recursion). -/
def unincl (e : IElf) : Nat := (e.secs.filter (fun s => !s.incl)).length

/-- Evolution along an include-only step: lengths and every field are
preserved except the include flags, which only ever turn on. -/
def InclEvol (e e2 : IElf) : Prop :=
  e2.secs.length = e.secs.length ∧
  e2.syms.length = e.syms.length ∧
  (∀ i s, e.secs.get? i = some s → ∃ s', e2.secs.get? i = some s' ∧
    s'.name = s.name ∧ s'.base = s.base ∧ s'.rela = s.rela ∧ s'.secsym = s.secsym ∧
    s'.relas = s.relas ∧ s'.sym = s.sym ∧ (s.incl = true → s'.incl = true)) ∧
  (∀ k s, e.syms.get? k = some s → ∃ s', e2.syms.get? k = some s' ∧
    s'.name = s.name ∧ s'.typ = s.typ ∧ s'.bind = s.bind ∧ s'.status = s.status ∧
    s'.sec = s.sec ∧ (s.incl = true → s'.incl = true))

/-- Helper: `InclEvol` is reflexive. -/
theorem InclEvol_refl (e : IElf) : InclEvol e e :=
  ⟨rfl, rfl,
   fun i s h => ⟨s, h, rfl, rfl, rfl, rfl, rfl, rfl, fun hi => hi⟩,
   fun k s h => ⟨s, h, rfl, rfl, rfl, rfl, rfl, fun hi => hi⟩⟩

/-- Helper: `InclEvol` composes. -/
theorem InclEvol_trans (e1 e2 e3 : IElf) (h12 : InclEvol e1 e2)
    (h23 : InclEvol e2 e3) : InclEvol e1 e3 := by
  obtain ⟨hl1, hl2, hsec12, hsym12⟩ := h12
  obtain ⟨hl3, hl4, hsec23, hsym23⟩ := h23
  refine ⟨hl3.trans hl1, hl4.trans hl2, ?_, ?_⟩
  · intro i s h
    obtain ⟨s2, h2, e1n, e1b, e1r, e1ss, e1rs, e1sy, e1i⟩ := hsec12 i s h
    obtain ⟨s3, h3, e2n, e2b, e2r, e2ss, e2rs, e2sy, e2i⟩ := hsec23 i s2 h2
    exact ⟨s3, h3, e2n.trans e1n, e2b.trans e1b, e2r.trans e1r, e2ss.trans e1ss,
      e2rs.trans e1rs, e2sy.trans e1sy, fun hi => e2i (e1i hi)⟩
  · intro k s h
    obtain ⟨s2, h2, e1n, e1t, e1b, e1st, e1se, e1i⟩ := hsym12 k s h
    obtain ⟨s3, h3, e2n, e2t, e2b, e2st, e2se, e2i⟩ := hsym23 k s2 h2
    exact ⟨s3, h3, e2n.trans e1n, e2t.trans e1t, e2b.trans e1b, e2st.trans e1st,
      e2se.trans e1se, fun hi => e2i (e1i hi)⟩

/-- Helper: along `InclEvol`, every section of the later state comes
from a section of the earlier one. -/
theorem InclEvol_sec_back (e e2 : IElf) (h : InclEvol e e2) (i : Nat) (s' : ISec)
    (hg : e2.secs.get? i = some s') : ∃ s, e.secs.get? i = some s ∧
      s'.name = s.name ∧ s'.base = s.base ∧ s'.rela = s.rela ∧ s'.secsym = s.secsym ∧
      s'.relas = s.relas ∧ s'.sym = s.sym ∧ (s.incl = true → s'.incl = true) := by
  obtain ⟨hl1, _, hsec, _⟩ := h
  obtain ⟨hlt, _⟩ := List.get?_eq_some.mp hg
  rw [hl1] at hlt
  obtain ⟨s, hgs⟩ : ∃ s, e.secs.get? i = some s := ⟨_, List.get?_eq_some.mpr ⟨hlt, rfl⟩⟩
  obtain ⟨s2, hgs2, hrest⟩ := hsec i s hgs
  rw [hg] at hgs2
  injection hgs2 with he
  exact ⟨s, hgs, he ▸ hrest⟩

/-- Helper: along `InclEvol`, every symbol of the later state comes from
a symbol of the earlier one. -/
theorem InclEvol_sym_back (e e2 : IElf) (h : InclEvol e e2) (k : Nat) (s' : ISym)
    (hg : e2.syms.get? k = some s') : ∃ s, e.syms.get? k = some s ∧
      s'.name = s.name ∧ s'.typ = s.typ ∧ s'.bind = s.bind ∧ s'.status = s.status ∧
      s'.sec = s.sec ∧ (s.incl = true → s'.incl = true) := by
  obtain ⟨_, hl2, _, hsym⟩ := h
  obtain ⟨hlt, _⟩ := List.get?_eq_some.mp hg
  rw [hl2] at hlt
  obtain ⟨s, hgs⟩ : ∃ s, e.syms.get? k = some s := ⟨_, List.get?_eq_some.mpr ⟨hlt, rfl⟩⟩
  obtain ⟨s2, hgs2, hrest⟩ := hsym k s hgs
  rw [hg] at hgs2
  injection hgs2 with he
  exact ⟨s, hgs, he ▸ hrest⟩

/-- Helper: included symbols stay included along `InclEvol`. -/
theorem symIsIncl_mono (e e2 : IElf) (h : InclEvol e e2) (k : Nat)
    (hs : symIsIncl e k) : symIsIncl e2 k := by
  obtain ⟨s, hg, hi⟩ := hs
  obtain ⟨s', hg', _, _, _, _, _, hmono⟩ := h.2.2.2 k s hg
  exact ⟨s', hg', hmono hi⟩

/-- Helper: marking a symbol included is an `InclEvol` step. -/
theorem markSymIncl_evol (e : IElf) (k : Nat) : InclEvol e (markSymIncl e k) := by
  refine ⟨rfl, updISym_length e.syms k _, ?_, ?_⟩
  · intro i s h
    exact ⟨s, h, rfl, rfl, rfl, rfl, rfl, rfl, fun hi => hi⟩
  · intro j s h
    by_cases hj : j = k
    · subst hj
      exact ⟨{ s with incl := true },
        updISym_self e.syms j _ s h, rfl, rfl, rfl, rfl, rfl, fun _ => rfl⟩
    · exact ⟨s, updISym_other e.syms k _ j hj ▸ h, rfl, rfl, rfl, rfl, rfl, fun hi => hi⟩

/-- Helper: marking a symbol included keeps the closure invariant. -/
theorem markSymIncl_closed (e : IElf) (k : Nat) (hc : InclClosed e) :
    InclClosed (markSymIncl e k) := by
  intro i R hget hbase hincl hdbg r hr
  have hget2 : e.secs.get? i = some R := hget
  exact symIsIncl_mono e _ (markSymIncl_evol e k) _ (hc i R hget2 hbase hincl hdbg r hr)

/-- Helper: the marked symbol is included afterwards (when it exists). -/
theorem markSymIncl_incl (e : IElf) (k : Nat) (s : ISym)
    (hg : e.syms.get? k = some s) : symIsIncl (markSymIncl e k) k :=
  ⟨{ s with incl := true }, updISym_self e.syms k _ s hg, rfl⟩

/-- Helper: marking a section included is an `InclEvol` step. -/
theorem markSecIncl_evol (e : IElf) (i : Nat) : InclEvol e (markSecIncl e i) := by
  refine ⟨updISec_length e.secs i _, rfl, ?_, ?_⟩
  · intro j s h
    by_cases hj : j = i
    · subst hj
      exact ⟨{ s with incl := true },
        updISec_self e.secs j _ s h, rfl, rfl, rfl, rfl, rfl, rfl, fun _ => rfl⟩
    · exact ⟨s, updISec_other e.secs i _ j hj ▸ h, rfl, rfl, rfl, rfl, rfl, rfl,
        fun hi => hi⟩
  · intro k s h
    exact ⟨s, h, rfl, rfl, rfl, rfl, rfl, fun hi => hi⟩

/-- Helper: marking a section included keeps the closure invariant when
the section either creates no obligation or its targets are already
included. -/
theorem markSecIncl_closed (e : IElf) (i : Nat)
    (hob : ∀ s, e.secs.get? i = some s → s.base.isSome = true →
      ¬ isDebugSectionName s.name = true → ∀ r ∈ s.relas, symIsIncl e r.symIdx)
    (hc : InclClosed e) : InclClosed (markSecIncl e i) := by
  intro j R hget hbase hincl hdbg r hr
  have hget2 : (updISec e.secs i (fun s => { s with incl := true })).get? j = some R := hget
  have hsyms : (markSecIncl e i).syms = e.syms := rfl
  by_cases hj : j = i
  · subst hj
    cases hgi : e.secs.get? j with
    | none =>
      have hid : updISec e.secs j (fun s => { s with incl := true }) = e.secs := by
        unfold updISec
        rw [hgi]
      rw [hid, hgi] at hget2
      exact Option.noConfusion hget2
    | some s =>
      rw [updISec_self e.secs j _ s hgi] at hget2
      injection hget2 with he
      subst he
      have := hob s hgi hbase hdbg r hr
      obtain ⟨sy, hsy, hin⟩ := this
      exact ⟨sy, hsy, hin⟩
  · rw [updISec_other e.secs i _ j hj] at hget2
    obtain ⟨sy, hsy, hin⟩ := hc j R hget2 hbase hincl hdbg r hr
    exact ⟨sy, hsy, hin⟩

/-- Helper: a filter does not get longer when one slot is overwritten
with a rejected element. -/
theorem filterLenSetLe {α : Type} (p : α → Bool) : ∀ (l : List α) (i : Nat) (a : α),
    p a = false → ((l.set i a).filter p).length ≤ (l.filter p).length := by
  intro l
  induction l with
  | nil => intro i a _; simp
  | cons x t ih =>
    intro i a hpa
    cases i with
    | zero =>
      rw [List.set_cons_zero]
      rw [List.filter_cons_of_neg (by rw [hpa]; exact Bool.false_ne_true)]
      cases hx : p x with
      | true =>
        rw [List.filter_cons_of_pos hx]
        exact Nat.le_succ_of_le le_rfl
      | false =>
        rw [List.filter_cons_of_neg (by rw [hx]; exact Bool.false_ne_true)]
    | succ n =>
      rw [List.set_cons_succ]
      cases hx : p x with
      | true =>
        rw [List.filter_cons_of_pos hx, List.filter_cons_of_pos hx]
        exact Nat.succ_le_succ (ih n a hpa)
      | false =>
        rw [List.filter_cons_of_neg (by rw [hx]; exact Bool.false_ne_true),
          List.filter_cons_of_neg (by rw [hx]; exact Bool.false_ne_true)]
        exact ih n a hpa

/-- Helper: a filter shrinks by exactly one when an accepted slot is
overwritten with a rejected element. -/
theorem filterLenSetDrop {α : Type} (p : α → Bool) : ∀ (l : List α) (i : Nat) (a b : α),
    l.get? i = some b → p b = true → p a = false →
    ((l.set i a).filter p).length + 1 = (l.filter p).length := by
  intro l
  induction l with
  | nil => intro i a b hg _ _; exact absurd hg (by simp)
  | cons x t ih =>
    intro i a b hg hpb hpa
    cases i with
    | zero =>
      injection hg with he
      subst he
      rw [List.set_cons_zero]
      rw [List.filter_cons_of_neg (by rw [hpa]; exact Bool.false_ne_true)]
      rw [List.filter_cons_of_pos hpb]
      rfl
    | succ n =>
      rw [List.set_cons_succ]
      have hg2 : t.get? n = some b := hg
      cases hx : p x with
      | true =>
        rw [List.filter_cons_of_pos hx, List.filter_cons_of_pos hx]
        rw [List.length_cons, List.length_cons]
        rw [Nat.succ_add]
        exact congrArg Nat.succ (ih n a b hg2 hpb hpa)
      | false =>
        rw [List.filter_cons_of_neg (by rw [hx]; exact Bool.false_ne_true),
          List.filter_cons_of_neg (by rw [hx]; exact Bool.false_ne_true)]
        exact ih n a b hg2 hpb hpa

/-- Helper: marking a symbol keeps the fuel measure. -/
theorem unincl_markSymIncl (e : IElf) (k : Nat) : unincl (markSymIncl e k) = unincl e :=
  rfl

/-- Helper: marking a section cannot raise the fuel measure. -/
theorem unincl_markSecIncl_le (e : IElf) (i : Nat) :
    unincl (markSecIncl e i) ≤ unincl e := by
  unfold unincl markSecIncl updISec
  cases hg : e.secs.get? i with
  | none => exact le_rfl
  | some s => exact filterLenSetLe _ e.secs i _ (by simp)

/-- Helper: marking a not-yet-included section drops the fuel measure by
one. -/
theorem unincl_markSecIncl_drop (e : IElf) (i : Nat) (s : ISec)
    (hg : e.secs.get? i = some s) (hni : s.incl = false) :
    unincl (markSecIncl e i) + 1 = unincl e := by
  unfold unincl markSecIncl updISec
  rw [hg]
  exact filterLenSetDrop _ e.secs i _ s hg (by rw [hni]; rfl) (by simp)

/-- Helper: the fuel measure never exceeds the section count. -/
theorem unincl_le_secs (e : IElf) : unincl e ≤ e.secs.length :=
  List.length_filter_le _ _

/-- Helper: the section-symbol step of the inclusion recursion, as an
evolution that keeps closure and the fuel measure. -/
theorem markSecsymIncl_all (e : IElf) (o : Option Nat) (k : Nat) (hc : InclClosed e) :
    InclEvol e (markSecsymIncl e o k) ∧ InclClosed (markSecsymIncl e o k) ∧
    unincl (markSecsymIncl e o k) = unincl e := by
  cases o with
  | none => exact ⟨InclEvol_refl e, hc, rfl⟩
  | some ss =>
    have hms : markSecsymIncl e (some ss) k = if ss ≠ k then markSymIncl e ss else e := rfl
    rw [hms]
    by_cases hss : ss ≠ k
    · rw [if_pos hss]
      exact ⟨markSymIncl_evol e ss, markSymIncl_closed e ss hc, rfl⟩
    · rw [if_neg hss]
      exact ⟨InclEvol_refl e, hc, rfl⟩

/-- Helper: the marked-symbol step of the option form. -/
theorem markOptSymIncl_all (e : IElf) (o : Option Nat) (hc : InclClosed e) :
    InclEvol e (markOptSymIncl e o) ∧ InclClosed (markOptSymIncl e o) ∧
    unincl (markOptSymIncl e o) = unincl e := by
  cases o with
  | none => exact ⟨InclEvol_refl e, hc, rfl⟩
  | some ss => exact ⟨markSymIncl_evol e ss, markSymIncl_closed e ss hc, rfl⟩

/-- Helper: well-formedness transports along `InclEvol`. -/
theorem InclWf_mono (e e2 : IElf) (h : InclEvol e e2) (hwf : InclWf e) : InclWf e2 := by
  obtain ⟨hwf1, hwf2⟩ := hwf
  constructor
  · intro k s j S hgs hsec hgS
    obtain ⟨s0, hgs0, _, _, _, _, hse, _⟩ := InclEvol_sym_back e e2 h k s hgs
    obtain ⟨S0, hgS0, _, hb, _, _, _, _, _⟩ := InclEvol_sec_back e e2 h j S hgS
    rw [hb]
    exact hwf1 k s0 j S0 hgs0 (hse ▸ hsec) hgS0
  · intro i S r hgS hr
    obtain ⟨S0, hgS0, _, _, _, _, hrelas, _, _⟩ := InclEvol_sec_back e e2 h i S hgS
    rw [h.2.1]
    exact hwf2 i S0 r hgS0 (hrelas ▸ hr)

/-- Helper: inclusion recursion, missing-symbol branch. -/
theorem inclF_eq_none (fuel : Nat) (e : IElf) (k : Nat)
    (hsg : e.syms.get? k = none) : includeSymbolF (fuel+1) e k = e := by
  unfold includeSymbolF
  rw [hsg]

/-- Helper: inclusion recursion, section-less symbol branch. -/
theorem inclF_eq_nosec (fuel : Nat) (e : IElf) (k : Nat) (sym : ISym)
    (hsg : e.syms.get? k = some sym) (hse : sym.sec = none) :
    includeSymbolF (fuel+1) e k = markSymIncl e k := by
  unfold includeSymbolF
  simp only [hsg, hse]

/-- Helper: inclusion recursion, dangling section index branch. -/
theorem inclF_eq_badsec (fuel : Nat) (e : IElf) (k : Nat) (sym : ISym) (si : Nat)
    (hsg : e.syms.get? k = some sym) (hse : sym.sec = some si)
    (hgs : e.secs.get? si = none) :
    includeSymbolF (fuel+1) e k = markSymIncl e k := by
  unfold includeSymbolF
  simp only [hsg, hse, hgs]

/-- Helper: inclusion recursion, section-already-included branch. -/
theorem inclF_eq_already (fuel : Nat) (e : IElf) (k : Nat) (sym : ISym) (si : Nat)
    (sec : ISec) (hsg : e.syms.get? k = some sym) (hse : sym.sec = some si)
    (hgs : e.secs.get? si = some sec) (hin : sec.incl = true) :
    includeSymbolF (fuel+1) e k = markSymIncl e k := by
  unfold includeSymbolF
  simp only [hsg, hse, hgs]
  rw [if_pos hin]

/-- Helper: inclusion recursion, unchanged non-section symbol branch. -/
theorem inclF_eq_same (fuel : Nat) (e : IElf) (k : Nat) (sym : ISym) (si : Nat)
    (sec : ISec) (hsg : e.syms.get? k = some sym) (hse : sym.sec = some si)
    (hgs : e.secs.get? si = some sec) (hin : ¬ sec.incl = true)
    (hsame : sym.typ ≠ SymTy.stSection ∧ sym.status = Status.same) :
    includeSymbolF (fuel+1) e k = markSymIncl e k := by
  unfold includeSymbolF
  simp only [hsg, hse, hgs]
  rw [if_neg hin, if_pos hsame]

/-- Helper: inclusion recursion, no-relocation-section branch. -/
theorem inclF_eq_norela (fuel : Nat) (e : IElf) (k : Nat) (sym : ISym) (si : Nat)
    (sec : ISec) (hsg : e.syms.get? k = some sym) (hse : sym.sec = some si)
    (hgs : e.secs.get? si = some sec) (hin : ¬ sec.incl = true)
    (hsame : ¬ (sym.typ ≠ SymTy.stSection ∧ sym.status = Status.same))
    (hre : sec.rela = none) :
    includeSymbolF (fuel+1) e k =
      markSecsymIncl (markSecIncl (markSymIncl e k) si) sec.secsym k := by
  unfold includeSymbolF
  simp only [hsg, hse, hgs]
  rw [if_neg hin, if_neg hsame]
  simp only [hre]

/-- Helper: inclusion recursion, recursive branch through the section's
relocation section. -/
theorem inclF_eq_rela (fuel : Nat) (e : IElf) (k : Nat) (sym : ISym) (si : Nat)
    (sec : ISec) (ri : Nat) (hsg : e.syms.get? k = some sym) (hse : sym.sec = some si)
    (hgs : e.secs.get? si = some sec) (hin : ¬ sec.incl = true)
    (hsame : ¬ (sym.typ ≠ SymTy.stSection ∧ sym.status = Status.same))
    (hre : sec.rela = some ri) :
    includeSymbolF (fuel+1) e k =
      (relasAt e ri).foldl (fun acc r => includeSymbolF fuel acc r.symIdx)
        (markSecIncl (markSecsymIncl (markSecIncl (markSymIncl e k) si) sec.secsym k) ri) := by
  conv_lhs => unfold includeSymbolF
  simp only [hsg, hse, hgs]
  rw [if_neg hin, if_neg hsame]
  simp only [hre]

/-- The closure invariant relative to an exception set `M` of pending
obligations (used while a relocation section is included before its
targets are). -/
def InclClosedX (e : IElf) (M : Nat → IRela → Prop) : Prop :=
  ∀ i R, e.secs.get? i = some R → R.base.isSome = true → R.incl = true →
    ¬ isDebugSectionName R.name = true → ∀ r ∈ R.relas, symIsIncl e r.symIdx ∨ M i r

/-- Helper: plain closure is the exception-free case. -/
theorem InclClosedX_false (e : IElf) (h : InclClosedX e (fun _ _ => False)) :
    InclClosed e := by
  intro i R hget hbase hincl hdbg r hr
  cases h i R hget hbase hincl hdbg r hr with
  | inl hs => exact hs
  | inr hf => exact absurd hf (fun x => x)

/-- Helper: plain closure gives the exception form for any `M`. -/
theorem InclClosed_toX (e : IElf) (M : Nat → IRela → Prop) (h : InclClosed e) :
    InclClosedX e M :=
  fun i R hget hbase hincl hdbg r hr => Or.inl (h i R hget hbase hincl hdbg r hr)

/-- Helper: marking a symbol keeps the relative closure invariant. -/
theorem markSymIncl_closedX (e : IElf) (k : Nat) (M : Nat → IRela → Prop)
    (hc : InclClosedX e M) : InclClosedX (markSymIncl e k) M := by
  intro i R hget hbase hincl hdbg r hr
  have hget2 : e.secs.get? i = some R := hget
  cases hc i R hget2 hbase hincl hdbg r hr with
  | inl hs => exact Or.inl (symIsIncl_mono e _ (markSymIncl_evol e k) _ hs)
  | inr hm => exact Or.inr hm

/-- Helper: marking a section keeps the relative closure invariant when
its own obligations already hold. -/
theorem markSecIncl_closedX (e : IElf) (i : Nat) (M : Nat → IRela → Prop)
    (hob : ∀ s, e.secs.get? i = some s → s.base.isSome = true →
      ¬ isDebugSectionName s.name = true → ∀ r ∈ s.relas, symIsIncl e r.symIdx ∨ M i r)
    (hc : InclClosedX e M) : InclClosedX (markSecIncl e i) M := by
  intro j R hget hbase hincl hdbg r hr
  have hget2 : (updISec e.secs i (fun s => { s with incl := true })).get? j = some R := hget
  have hmono : ∀ x, symIsIncl e x → symIsIncl (markSecIncl e i) x :=
    fun x hx => symIsIncl_mono e _ (markSecIncl_evol e i) x hx
  by_cases hj : j = i
  · subst hj
    cases hgi : e.secs.get? j with
    | none =>
      have hid : updISec e.secs j (fun s => { s with incl := true }) = e.secs := by
        unfold updISec
        rw [hgi]
      rw [hid, hgi] at hget2
      exact Option.noConfusion hget2
    | some s =>
      rw [updISec_self e.secs j _ s hgi] at hget2
      injection hget2 with he
      subst he
      cases hob s hgi hbase hdbg r hr with
      | inl hs => exact Or.inl (hmono _ hs)
      | inr hm => exact Or.inr hm
  · rw [updISec_other e.secs i _ j hj] at hget2
    cases hc j R hget2 hbase hincl hdbg r hr with
    | inl hs => exact Or.inl (hmono _ hs)
    | inr hm => exact Or.inr hm

/-- Helper: the section-symbol step keeps the relative closure
invariant. -/
theorem markSecsymIncl_allX (e : IElf) (o : Option Nat) (k : Nat)
    (M : Nat → IRela → Prop) (hc : InclClosedX e M) :
    InclEvol e (markSecsymIncl e o k) ∧ InclClosedX (markSecsymIncl e o k) M ∧
    unincl (markSecsymIncl e o k) = unincl e := by
  cases o with
  | none => exact ⟨InclEvol_refl e, hc, rfl⟩
  | some ss =>
    have hms : markSecsymIncl e (some ss) k = if ss ≠ k then markSymIncl e ss else e := rfl
    rw [hms]
    by_cases hss : ss ≠ k
    · rw [if_pos hss]
      exact ⟨markSymIncl_evol e ss, markSymIncl_closedX e ss M hc, rfl⟩
    · rw [if_neg hss]
      exact ⟨InclEvol_refl e, hc, rfl⟩

/-- Helper: an in-range index always has a list entry. -/
theorem exists_get?_of_lt {α : Type} (l : List α) (i : Nat) (h : i < l.length) :
    ∃ a, l.get? i = some a :=
  ⟨_, List.get?_eq_some.mpr ⟨h, rfl⟩⟩

/-- Helper: the main property of the inclusion recursion and of its
relocation-list folds, by induction on the fuel.  With fuel above the
not-yet-included section count, one call evolves the model
include-only, keeps the relative closure invariant, does not raise the
fuel measure, and includes the requested symbol; the fold moreover
includes every listed target. -/
theorem includeSymbolF_main : ∀ (f : Nat),
    (∀ (e : IElf) (k : Nat) (M : Nat → IRela → Prop), unincl e < f → InclWf e →
      InclClosedX e M →
      InclEvol e (includeSymbolF f e k) ∧ InclClosedX (includeSymbolF f e k) M ∧
      unincl (includeSymbolF f e k) ≤ unincl e ∧
      (∀ s, e.syms.get? k = some s → symIsIncl (includeSymbolF f e k) k)) ∧
    (∀ (L : List IRela) (acc : IElf) (M : Nat → IRela → Prop), unincl acc < f →
      InclWf acc → InclClosedX acc M →
      (∀ r, r ∈ L → r.symIdx < acc.syms.length) →
      InclEvol acc (L.foldl (fun a r => includeSymbolF f a r.symIdx) acc) ∧
      InclClosedX (L.foldl (fun a r => includeSymbolF f a r.symIdx) acc) M ∧
      unincl (L.foldl (fun a r => includeSymbolF f a r.symIdx) acc) ≤ unincl acc ∧
      (∀ r, r ∈ L →
        symIsIncl (L.foldl (fun a r => includeSymbolF f a r.symIdx) acc) r.symIdx)) := by
  intro f
  induction f with
  | zero =>
    constructor
    · intro e k M hfu _ _
      exact absurd hfu (by omega)
    · intro L acc M hfu _ _ _
      exact absurd hfu (by omega)
  | succ f ih =>
    have hM : ∀ (e : IElf) (k : Nat) (M : Nat → IRela → Prop), unincl e < f + 1 →
        InclWf e → InclClosedX e M →
        InclEvol e (includeSymbolF (f+1) e k) ∧ InclClosedX (includeSymbolF (f+1) e k) M ∧
        unincl (includeSymbolF (f+1) e k) ≤ unincl e ∧
        (∀ s, e.syms.get? k = some s → symIsIncl (includeSymbolF (f+1) e k) k) := by
      intro e k M hfu hwf hc
      cases hsg : e.syms.get? k with
      | none =>
        rw [inclF_eq_none f e k hsg]
        exact ⟨InclEvol_refl e, hc, le_rfl, fun s hs => Option.noConfusion hs⟩
      | some sym =>
        cases hsec : sym.sec with
        | none =>
          rw [inclF_eq_nosec f e k sym hsg hsec]
          exact ⟨markSymIncl_evol e k, markSymIncl_closedX e k M hc, le_rfl,
            fun s hs => markSymIncl_incl e k s (hsg.trans hs)⟩
        | some si =>
          cases hgs : e.secs.get? si with
          | none =>
            rw [inclF_eq_badsec f e k sym si hsg hsec hgs]
            exact ⟨markSymIncl_evol e k, markSymIncl_closedX e k M hc, le_rfl,
              fun s hs => markSymIncl_incl e k s (hsg.trans hs)⟩
          | some sec =>
            by_cases hin : sec.incl = true
            · rw [inclF_eq_already f e k sym si sec hsg hsec hgs hin]
              exact ⟨markSymIncl_evol e k, markSymIncl_closedX e k M hc, le_rfl,
                fun s hs => markSymIncl_incl e k s (hsg.trans hs)⟩
            · by_cases hsame : sym.typ ≠ SymTy.stSection ∧ sym.status = Status.same
              · rw [inclF_eq_same f e k sym si sec hsg hsec hgs hin hsame]
                exact ⟨markSymIncl_evol e k, markSymIncl_closedX e k M hc, le_rfl,
                  fun s hs => markSymIncl_incl e k s (hsg.trans hs)⟩
              · have hbase0 : sec.base = none := hwf.1 k sym si sec hsg hsec hgs
                have hinf : sec.incl = false := by
                  cases hb : sec.incl
                  · rfl
                  · exact absurd hb hin
                have he1get : (markSymIncl e k).secs.get? si = some sec := hgs
                have hEv1 := markSymIncl_evol e k
                have hc1 := markSymIncl_closedX e k M hc
                have hob1 : ∀ s, (markSymIncl e k).secs.get? si = some s →
                    s.base.isSome = true → ¬ isDebugSectionName s.name = true →
                    ∀ r ∈ s.relas, symIsIncl (markSymIncl e k) r.symIdx ∨ M si r := by
                  intro s hgs2 hbs _ r _
                  rw [he1get] at hgs2
                  injection hgs2 with hse2
                  rw [← hse2, hbase0] at hbs
                  exact absurd hbs (by simp)
                have hEv2 := markSecIncl_evol (markSymIncl e k) si
                have hc2 := markSecIncl_closedX (markSymIncl e k) si M hob1 hc1
                have hun2 : unincl (markSecIncl (markSymIncl e k) si) + 1 = unincl e :=
                  unincl_markSecIncl_drop (markSymIncl e k) si sec he1get hinf
                obtain ⟨hEv3, hc3, hun3⟩ :=
                  markSecsymIncl_allX (markSecIncl (markSymIncl e k) si) sec.secsym k M hc2
                cases hre : sec.rela with
                | none =>
                  rw [inclF_eq_norela f e k sym si sec hsg hsec hgs hin hsame hre]
                  refine ⟨InclEvol_trans _ _ _ hEv1 (InclEvol_trans _ _ _ hEv2 hEv3),
                    hc3, by omega, ?_⟩
                  intro s hs
                  exact symIsIncl_mono _ _ (InclEvol_trans _ _ _ hEv2 hEv3) k
                    (markSymIncl_incl e k s (hsg.trans hs))
                | some ri =>
                  rw [inclF_eq_rela f e k sym si sec ri hsg hsec hgs hin hsame hre]
                  have hEv4 := markSecIncl_evol
                    (markSecsymIncl (markSecIncl (markSymIncl e k) si) sec.secsym k) ri
                  have hEve4 : InclEvol e (markSecIncl
                      (markSecsymIncl (markSecIncl (markSymIncl e k) si) sec.secsym k) ri) :=
                    InclEvol_trans _ _ _ hEv1 (InclEvol_trans _ _ _ hEv2
                      (InclEvol_trans _ _ _ hEv3 hEv4))
                  have hwf4 := InclWf_mono e _ hEve4 hwf
                  have hun4 := unincl_markSecIncl_le
                    (markSecsymIncl (markSecIncl (markSymIncl e k) si) sec.secsym k) ri
                  have hun4f : unincl (markSecIncl
                      (markSecsymIncl (markSecIncl (markSymIncl e k) si) sec.secsym k) ri) <
                      f := by omega
                  have hEv13 : InclEvol e
                      (markSecsymIncl (markSecIncl (markSymIncl e k) si) sec.secsym k) :=
                    InclEvol_trans _ _ _ hEv1 (InclEvol_trans _ _ _ hEv2 hEv3)
                  have hc4 : InclClosedX (markSecIncl
                      (markSecsymIncl (markSecIncl (markSymIncl e k) si) sec.secsym k) ri)
                      (fun j r => M j r ∨ (j = ri ∧ r ∈ relasAt e ri)) := by
                    have hc3w : InclClosedX
                        (markSecsymIncl (markSecIncl (markSymIncl e k) si) sec.secsym k)
                        (fun j r => M j r ∨ (j = ri ∧ r ∈ relasAt e ri)) :=
                      fun i R hg hb hi hd r hr => (hc3 i R hg hb hi hd r hr).imp id Or.inl
                    refine markSecIncl_closedX _ ri _ ?_ hc3w
                    intro s hgs3 _ _ r hr
                    refine Or.inr (Or.inr ⟨rfl, ?_⟩)
                    obtain ⟨s0, hgs0, _, _, _, _, hrelas, _, _⟩ :=
                      InclEvol_sec_back e _ hEv13 ri s hgs3
                    unfold relasAt
                    rw [hgs0]
                    simpa using (hrelas ▸ hr)
                  have hrange : ∀ r, r ∈ relasAt e ri → r.symIdx <
                      (markSecIncl (markSecsymIncl (markSecIncl (markSymIncl e k) si)
                        sec.secsym k) ri).syms.length := by
                    intro r hr
                    unfold relasAt at hr
                    cases hgr : e.secs.get? ri with
                    | none =>
                      rw [hgr] at hr
                      simp at hr
                    | some R0 =>
                      rw [hgr] at hr
                      simp at hr
                      rw [hEve4.2.1]
                      exact hwf.2 ri R0 r hgr hr
                  obtain ⟨hFe, hFc, hFu, hFm⟩ := ih.2 (relasAt e ri) _ _ hun4f hwf4 hc4 hrange
                  refine ⟨InclEvol_trans _ _ _ hEve4 hFe, ?_, by omega, ?_⟩
                  · intro i R hget hbase hincl hdbg r hr
                    cases hFc i R hget hbase hincl hdbg r hr with
                    | inl hs => exact Or.inl hs
                    | inr hm =>
                      cases hm with
                      | inl hmm => exact Or.inr hmm
                      | inr hri => exact Or.inl (hFm r hri.2)
                  · intro s hs
                    exact symIsIncl_mono _ _ (InclEvol_trans _ _ _ hEv2
                      (InclEvol_trans _ _ _ hEv3 (InclEvol_trans _ _ _ hEv4 hFe))) k
                      (markSymIncl_incl e k s (hsg.trans hs))
    have hF : ∀ (L : List IRela) (acc : IElf) (M : Nat → IRela → Prop),
        unincl acc < f + 1 → InclWf acc → InclClosedX acc M →
        (∀ r, r ∈ L → r.symIdx < acc.syms.length) →
        InclEvol acc (L.foldl (fun a r => includeSymbolF (f+1) a r.symIdx) acc) ∧
        InclClosedX (L.foldl (fun a r => includeSymbolF (f+1) a r.symIdx) acc) M ∧
        unincl (L.foldl (fun a r => includeSymbolF (f+1) a r.symIdx) acc) ≤ unincl acc ∧
        (∀ r, r ∈ L →
          symIsIncl (L.foldl (fun a r => includeSymbolF (f+1) a r.symIdx) acc) r.symIdx) := by
      intro L
      induction L with
      | nil =>
        intro acc M hfu hwf hc _
        simp only [List.foldl_nil]
        exact ⟨InclEvol_refl acc, hc, le_rfl, fun r hr => absurd hr (List.not_mem_nil r)⟩
      | cons r t ihL =>
        intro acc M hfu hwf hc hrange
        simp only [List.foldl_cons]
        obtain ⟨hEvS, hcS, huS, hmS⟩ := hM acc r.symIdx M hfu hwf hc
        have hmid : symIsIncl (includeSymbolF (f+1) acc r.symIdx) r.symIdx := by
          obtain ⟨s, hg⟩ := exists_get?_of_lt acc.syms r.symIdx
            (hrange r (List.mem_cons_self r t))
          exact hmS s hg
        obtain ⟨hEvT, hcT, huT, hmT⟩ := ihL (includeSymbolF (f+1) acc r.symIdx) M
          (by omega) (InclWf_mono _ _ hEvS hwf) hcS
          (fun r2 hr2 => by
            rw [hEvS.2.1]
            exact hrange r2 (List.mem_cons_of_mem r hr2))
        refine ⟨InclEvol_trans _ _ _ hEvS hEvT, hcT, by omega, ?_⟩
        intro r2 hr2
        cases List.mem_cons.mp hr2 with
        | inl he =>
          rw [he]
          exact symIsIncl_mono _ _ hEvT _ hmid
        | inr ht => exact hmT r2 ht
    exact ⟨hM, hF⟩

/-- No standard-named section is a relocation section (in a well-formed
ELF the standard sections never have relocations). -/
def StdSafe (e : IElf) : Prop :=
  ∀ i S, e.secs.get? i = some S → isStandardSecName S.name = true → S.base = none

/-- Helper: one standard-elements step evolves include-only and keeps
closure, as standard-named sections are not relocation sections. -/
theorem standardStep_all (e : IElf) (i : Nat) (hstd : StdSafe e) (hc : InclClosed e) :
    InclEvol e (standardStep e i) ∧ InclClosed (standardStep e i) := by
  cases hg : e.secs.get? i with
  | none =>
    have he : standardStep e i = e := by
      unfold standardStep
      rw [hg]
    rw [he]
    exact ⟨InclEvol_refl e, hc⟩
  | some sec =>
    by_cases hn : isStandardSecName sec.name = true
    · have he : standardStep e i = markOptSymIncl (markSecIncl e i) sec.secsym := by
        unfold standardStep
        simp only [hg]
        rw [if_pos hn]
      rw [he]
      have hb : sec.base = none := hstd i sec hg hn
      have hcm : InclClosed (markSecIncl e i) := by
        refine markSecIncl_closed e i ?_ hc
        intro s hgs hbs _ r _
        rw [hg] at hgs
        injection hgs with hse
        rw [← hse, hb] at hbs
        exact absurd hbs (by simp)
      obtain ⟨hEvO, hcO, _⟩ := markOptSymIncl_all (markSecIncl e i) sec.secsym hcm
      exact ⟨InclEvol_trans _ _ _ (markSecIncl_evol e i) hEvO, hcO⟩
    · have he : standardStep e i = e := by
        unfold standardStep
        simp only [hg]
        rw [if_neg hn]
      rw [he]
      exact ⟨InclEvol_refl e, hc⟩

/-- Helper: `StdSafe` transports along `InclEvol`. -/
theorem StdSafe_mono (e e2 : IElf) (h : InclEvol e e2) (hs : StdSafe e) : StdSafe e2 := by
  intro i S hg hn
  obtain ⟨S0, hg0, hname, hbase, _, _, _, _, _⟩ := InclEvol_sec_back e e2 h i S hg
  rw [hbase]
  exact hs i S0 hg0 (hname ▸ hn)

/-- Helper: the standard-elements fold evolves include-only and keeps
closure. -/
theorem standardFold_all : ∀ (L : List Nat) (e : IElf), StdSafe e → InclClosed e →
    InclEvol e (L.foldl standardStep e) ∧ InclClosed (L.foldl standardStep e) := by
  intro L
  induction L with
  | nil => intro e _ hc; exact ⟨InclEvol_refl e, hc⟩
  | cons i t ih =>
    intro e hstd hc
    simp only [List.foldl_cons]
    obtain ⟨hEv, hc2⟩ := standardStep_all e i hstd hc
    obtain ⟨hEv2, hc3⟩ := ih (standardStep e i) (StdSafe_mono e _ hEv hstd) hc2
    exact ⟨InclEvol_trans _ _ _ hEv hEv2, hc3⟩

/-- Helper: the whole standard-elements pass evolves include-only and
keeps closure. -/
theorem include_standard_all (e : IElf) (hstd : StdSafe e) (hc : InclClosed e) :
    InclEvol e (xsplice_include_standard_elements e) ∧
    InclClosed (xsplice_include_standard_elements e) := by
  obtain ⟨hEv, hc2⟩ := standardFold_all (List.range e.secs.length) e hstd hc
  exact ⟨InclEvol_trans _ _ _ hEv (markSymIncl_evol _ 0), markSymIncl_closed _ 0 hc2⟩

/-- Helper: changed-functions step, missing-symbol form. -/
theorem changedStep_eq_none (p : IElf × Nat) (k : Nat)
    (hg : p.1.syms.get? k = none) : changedStep p k = p := by
  unfold changedStep
  rw [hg]

/-- Helper: changed-functions step, changed-function form. -/
theorem changedStep_eq_chg (p : IElf × Nat) (k : Nat) (sym : ISym)
    (hg : p.1.syms.get? k = some sym)
    (hch : sym.status = Status.changed ∧ sym.typ = SymTy.stFunc) :
    changedStep p k =
      (if sym.typ = SymTy.stFile
       then markSymIncl (includeSymbolF (p.1.secs.length + 1) p.1 k) k
       else includeSymbolF (p.1.secs.length + 1) p.1 k, p.2 + 1) := by
  unfold changedStep
  simp only [hg]
  rw [if_pos hch]

/-- Helper: changed-functions step, unchanged form. -/
theorem changedStep_eq_rest (p : IElf × Nat) (k : Nat) (sym : ISym)
    (hg : p.1.syms.get? k = some sym)
    (hch : ¬ (sym.status = Status.changed ∧ sym.typ = SymTy.stFunc)) :
    changedStep p k =
      (if sym.typ = SymTy.stFile then markSymIncl p.1 k else p.1, p.2) := by
  unfold changedStep
  simp only [hg]
  rw [if_neg hch]

/-- Helper: one changed-functions step evolves include-only and keeps
closure. -/
theorem changedStep_all (e0 : IElf) (hwf0 : InclWf e0) (p : IElf × Nat) (k : Nat)
    (hev : InclEvol e0 p.1) (hc : InclClosed p.1) :
    InclEvol e0 (changedStep p k).1 ∧ InclClosed (changedStep p k).1 := by
  cases hg : p.1.syms.get? k with
  | none =>
    rw [changedStep_eq_none p k hg]
    exact ⟨hev, hc⟩
  | some sym =>
    have hwf : InclWf p.1 := InclWf_mono e0 p.1 hev hwf0
    by_cases hch : sym.status = Status.changed ∧ sym.typ = SymTy.stFunc
    · rw [changedStep_eq_chg p k sym hg hch]
      have hfu : unincl p.1 < p.1.secs.length + 1 :=
        Nat.lt_succ_of_le (unincl_le_secs p.1)
      obtain ⟨hEv, hcx, _, _⟩ := (includeSymbolF_main (p.1.secs.length + 1)).1 p.1 k
        (fun _ _ => False) hfu hwf (InclClosed_toX p.1 _ hc)
      have hcI : InclClosed (includeSymbolF (p.1.secs.length + 1) p.1 k) :=
        InclClosedX_false _ hcx
      by_cases hf : sym.typ = SymTy.stFile
      · rw [if_pos hf]
        exact ⟨InclEvol_trans _ _ _ hev (InclEvol_trans _ _ _ hEv (markSymIncl_evol _ k)),
          markSymIncl_closed _ k hcI⟩
      · rw [if_neg hf]
        exact ⟨InclEvol_trans _ _ _ hev hEv, hcI⟩
    · rw [changedStep_eq_rest p k sym hg hch]
      by_cases hf : sym.typ = SymTy.stFile
      · rw [if_pos hf]
        exact ⟨InclEvol_trans _ _ _ hev (markSymIncl_evol _ k), markSymIncl_closed _ k hc⟩
      · rw [if_neg hf]
        exact ⟨hev, hc⟩

/-- Helper: the changed-functions fold evolves include-only and keeps
closure. -/
theorem changedFold_all (e0 : IElf) (hwf0 : InclWf e0) : ∀ (L : List Nat) (p : IElf × Nat),
    InclEvol e0 p.1 → InclClosed p.1 →
    InclEvol e0 (L.foldl changedStep p).1 ∧ InclClosed (L.foldl changedStep p).1 := by
  intro L
  induction L with
  | nil => intro p hev hc; exact ⟨hev, hc⟩
  | cons i t ih =>
    intro p hev hc
    simp only [List.foldl_cons]
    obtain ⟨hEv, hc2⟩ := changedStep_all e0 hwf0 p i hev hc
    exact ih (changedStep p i) hEv hc2

/-- Helper: the whole changed-functions pass evolves include-only and
keeps closure. -/
theorem include_changed_all (e : IElf) (hwf : InclWf e) (hc : InclClosed e) :
    InclEvol e (xsplice_include_changed_functions e).1 ∧
    InclClosed (xsplice_include_changed_functions e).1 :=
  changedFold_all e hwf (List.range e.syms.length) (e, 0) (InclEvol_refl e) hc

/-- Helper: one first-loop debug step evolves include-only and keeps
closure (only debug sections, which carry no closure obligation, are
newly included). -/
theorem debugStep1_all (e : IElf) (i : Nat) (hc : InclClosed e) :
    InclEvol e (debugStep1 e i) ∧ InclClosed (debugStep1 e i) := by
  cases hg : e.secs.get? i with
  | none =>
    have he : debugStep1 e i = e := by
      unfold debugStep1
      rw [hg]
    rw [he]
    exact ⟨InclEvol_refl e, hc⟩
  | some sec =>
    by_cases hn : isDebugSectionName sec.name = true
    · have hcm : InclClosed (markSecIncl e i) := by
        refine markSecIncl_closed e i ?_ hc
        intro s hgs _ hnd r _
        rw [hg] at hgs
        injection hgs with hse
        rw [← hse] at hnd
        exact absurd hn hnd
      by_cases hb : sec.base.isSome = true
      · have he : debugStep1 e i = markSecIncl e i := by
          unfold debugStep1
          simp only [hg]
          rw [if_pos hn, if_pos hb]
        rw [he]
        exact ⟨markSecIncl_evol e i, hcm⟩
      · have he : debugStep1 e i = markOptSymIncl (markSecIncl e i) sec.secsym := by
          unfold debugStep1
          simp only [hg]
          rw [if_pos hn, if_neg hb]
        rw [he]
        obtain ⟨hEvO, hcO, _⟩ := markOptSymIncl_all (markSecIncl e i) sec.secsym hcm
        exact ⟨InclEvol_trans _ _ _ (markSecIncl_evol e i) hEvO, hcO⟩
    · have he : debugStep1 e i = e := by
        unfold debugStep1
        simp only [hg]
        rw [if_neg hn]
      rw [he]
      exact ⟨InclEvol_refl e, hc⟩

/-- Helper: the first debug loop evolves include-only and keeps
closure. -/
theorem debugFold1_all : ∀ (L : List Nat) (e : IElf), InclClosed e →
    InclEvol e (L.foldl debugStep1 e) ∧ InclClosed (L.foldl debugStep1 e) := by
  intro L
  induction L with
  | nil => intro e hc; exact ⟨InclEvol_refl e, hc⟩
  | cons i t ih =>
    intro e hc
    simp only [List.foldl_cons]
    obtain ⟨hEv, hc2⟩ := debugStep1_all e i hc
    obtain ⟨hEv2, hc3⟩ := ih (debugStep1 e i) hc2
    exact ⟨InclEvol_trans _ _ _ hEv hEv2, hc3⟩

/-- Evolution along the debug-strip loop: symbols unchanged, section
fields unchanged save for the relocation lists, which only shrink. -/
def FilteredEvol (e e2 : IElf) : Prop :=
  e2.syms = e.syms ∧
  e2.secs.length = e.secs.length ∧
  (∀ i s', e2.secs.get? i = some s' → ∃ s, e.secs.get? i = some s ∧
    s'.name = s.name ∧ s'.base = s.base ∧ s'.rela = s.rela ∧ s'.secsym = s.secsym ∧
    s'.incl = s.incl ∧ ∀ r, r ∈ s'.relas → r ∈ s.relas)

/-- Helper: `FilteredEvol` is reflexive. -/
theorem FilteredEvol_refl (e : IElf) : FilteredEvol e e :=
  ⟨rfl, rfl, fun i s' h => ⟨s', h, rfl, rfl, rfl, rfl, rfl, fun r hr => hr⟩⟩

/-- Helper: `FilteredEvol` composes. -/
theorem FilteredEvol_trans (e1 e2 e3 : IElf) (h12 : FilteredEvol e1 e2)
    (h23 : FilteredEvol e2 e3) : FilteredEvol e1 e3 := by
  refine ⟨h23.1.trans h12.1, h23.2.1.trans h12.2.1, ?_⟩
  intro i s' h
  obtain ⟨s2, h2, e2n, e2b, e2r, e2ss, e2i, e2in⟩ := h23.2.2 i s' h
  obtain ⟨s1, h1, e1n, e1b, e1r, e1ss, e1i, e1in⟩ := h12.2.2 i s2 h2
  exact ⟨s1, h1, e2n.trans e1n, e2b.trans e1b, e2r.trans e1r, e2ss.trans e1ss,
    e2i.trans e1i, fun r hr => e1in r (e2in r hr)⟩

/-- Helper: one debug-strip step is a `FilteredEvol` step and keeps
closure (only debug relocation sections lose relocations). -/
theorem debugStep2_all (e : IElf) (i : Nat) (hc : InclClosed e) :
    FilteredEvol e (debugStep2 e i) ∧ InclClosed (debugStep2 e i) := by
  cases hg : e.secs.get? i with
  | none =>
    have he : debugStep2 e i = e := by
      unfold debugStep2
      rw [hg]
    rw [he]
    exact ⟨FilteredEvol_refl e, hc⟩
  | some sec =>
    by_cases hguard : (sec.base.isSome && isDebugSectionName sec.name) = true
    · have he : debugStep2 e i =
          { e with secs := updISec e.secs i (fun s =>
              { s with relas := s.relas.filter (relaTargetSecIncl e) }) } := by
        unfold debugStep2
        simp only [hg]
        rw [if_pos hguard]
      rw [he]
      have hdbg : isDebugSectionName sec.name = true := by
        rw [Bool.and_eq_true] at hguard
        exact hguard.2
      constructor
      · refine ⟨rfl, updISec_length e.secs i _, ?_⟩
        intro j s' hgj
        by_cases hj : j = i
        · subst hj
          rw [updISec_self e.secs j _ sec hg] at hgj
          injection hgj with he2
          exact ⟨sec, hg, by rw [← he2], by rw [← he2], by rw [← he2], by rw [← he2],
            by rw [← he2], fun r hr => by
              rw [← he2] at hr
              exact List.mem_of_mem_filter hr⟩
        · rw [updISec_other e.secs i _ j hj] at hgj
          exact ⟨s', hgj, rfl, rfl, rfl, rfl, rfl, fun r hr => hr⟩
      · intro j R hgj hbase hincl hnd r hr
        have hgj2 : (updISec e.secs i (fun s =>
            { s with relas := s.relas.filter (relaTargetSecIncl e) })).get? j = some R := hgj
        by_cases hj : j = i
        · subst hj
          rw [updISec_self e.secs j _ sec hg] at hgj2
          injection hgj2 with he2
          rw [← he2] at hnd
          exact absurd hdbg hnd
        · rw [updISec_other e.secs i _ j hj] at hgj2
          exact hc j R hgj2 hbase hincl hnd r hr
    · have he : debugStep2 e i = e := by
        unfold debugStep2
        simp only [hg]
        rw [if_neg hguard]
      rw [he]
      exact ⟨FilteredEvol_refl e, hc⟩

/-- Helper: the debug-strip loop is a `FilteredEvol` and keeps
closure. -/
theorem debugFold2_all : ∀ (L : List Nat) (e : IElf), InclClosed e →
    FilteredEvol e (L.foldl debugStep2 e) ∧ InclClosed (L.foldl debugStep2 e) := by
  intro L
  induction L with
  | nil => intro e hc; exact ⟨FilteredEvol_refl e, hc⟩
  | cons i t ih =>
    intro e hc
    simp only [List.foldl_cons]
    obtain ⟨hEv, hc2⟩ := debugStep2_all e i hc
    obtain ⟨hEv2, hc3⟩ := ih (debugStep2 e i) hc2
    exact ⟨FilteredEvol_trans _ _ _ hEv hEv2, hc3⟩

/-- Helper: well-formedness transports along `FilteredEvol`. -/
theorem InclWf_filtered (e e2 : IElf) (h : FilteredEvol e e2) (hwf : InclWf e) :
    InclWf e2 := by
  obtain ⟨hwf1, hwf2⟩ := hwf
  constructor
  · intro k s j S hgs hsec hgS
    obtain ⟨S0, hgS0, _, hb, _, _, _, _⟩ := h.2.2 j S hgS
    rw [hb]
    rw [h.1] at hgs
    exact hwf1 k s j S0 hgs hsec hgS0
  · intro i S r hgS hr
    obtain ⟨S0, hgS0, _, _, _, _, _, hin⟩ := h.2.2 i S hgS
    rw [h.1]
    exact hwf2 i S0 r hgS0 (hin r hr)

/-- No section carries one of the hook section names. -/
def HookFree (e : IElf) : Prop :=
  ∀ i S, e.secs.get? i = some S → ¬ isHookSecName S.name = true

/-- No symbol carries one of the load/unload data names. -/
def LoadFree (e : IElf) : Prop :=
  ∀ k s, e.syms.get? k = some s → ¬ isLoadDataName s.name = true

/-- Helper: `HookFree` transports along `InclEvol`. -/
theorem HookFree_evol (e e2 : IElf) (h : InclEvol e e2) (hf : HookFree e) :
    HookFree e2 := by
  intro i S hg
  obtain ⟨S0, hg0, hname, _, _, _, _, _, _⟩ := InclEvol_sec_back e e2 h i S hg
  rw [hname]
  exact hf i S0 hg0

/-- Helper: `HookFree` transports along `FilteredEvol`. -/
theorem HookFree_filtered (e e2 : IElf) (h : FilteredEvol e e2) (hf : HookFree e) :
    HookFree e2 := by
  intro i S hg
  obtain ⟨S0, hg0, hname, _, _, _, _, _⟩ := h.2.2 i S hg
  rw [hname]
  exact hf i S0 hg0

/-- Helper: `LoadFree` transports along `InclEvol`. -/
theorem LoadFree_evol (e e2 : IElf) (h : InclEvol e e2) (hf : LoadFree e) :
    LoadFree e2 := by
  intro k s hg
  obtain ⟨s0, hg0, hname, _, _, _, _, _⟩ := InclEvol_sym_back e e2 h k s hg
  rw [hname]
  exact hf k s0 hg0

/-- Helper: `LoadFree` transports along `FilteredEvol`. -/
theorem LoadFree_filtered (e e2 : IElf) (h : FilteredEvol e e2) (hf : LoadFree e) :
    LoadFree e2 := by
  intro k s hg
  rw [h.1] at hg
  exact hf k s hg

/-- Helper: without hook sections one hook step does nothing. -/
theorem hookStep_id (e : IElf) (i : Nat) (hf : HookFree e) : hookStep e i = .ok e := by
  cases hg : e.secs.get? i with
  | none =>
    unfold hookStep
    rw [hg]
  | some sec =>
    unfold hookStep
    simp only [hg]
    rw [if_neg (hf i sec hg)]

/-- Helper: without hook sections the hook fold does nothing. -/
theorem hookFold_id : ∀ (L : List Nat) (e : IElf), HookFree e →
    List.foldlM hookStep e L = .ok e := by
  intro L
  induction L with
  | nil => intro e _; rw [foldlM_ex_nil]
  | cons i t ih =>
    intro e hf
    rw [foldlM_ex_cons, hookStep_id e i hf, exceptBind_ok]
    exact ih e hf

/-- Helper: without load/unload data symbols the strip fold does
nothing. -/
theorem stripLoadFold_id : ∀ (L : List Nat) (e : IElf), LoadFree e →
    L.foldl stripLoadStep e = e := by
  intro L
  induction L with
  | nil => intro e _; rfl
  | cons k t ih =>
    intro e hf
    simp only [List.foldl_cons]
    have he : stripLoadStep e k = e := by
      cases hg : e.syms.get? k with
      | none =>
        unfold stripLoadStep
        rw [hg]
      | some sym =>
        unfold stripLoadStep
        simp only [hg]
        rw [if_neg (hf k sym hg)]
    rw [he]
    exact ih e hf

/-- Helper: the hook pass is the identity on hook-free, load-free
models. -/
theorem include_hooks_id (e : IElf) (hf : HookFree e) (hl : LoadFree e) :
    xsplice_include_hook_elements e = .ok e := by
  unfold xsplice_include_hook_elements
  rw [hookFold_id (List.range e.secs.length) e hf]
  show Except.ok (List.foldl stripLoadStep e (List.range e.syms.length)) = Except.ok e
  rw [stripLoadFold_id (List.range e.syms.length) e hl]

/-- Helper: one new-globals step evolves include-only and keeps
closure. -/
theorem newGlobalsStep_all (e0 : IElf) (hwf0 : InclWf e0) (p : IElf × Nat) (k : Nat)
    (hev : InclEvol e0 p.1) (hc : InclClosed p.1) :
    InclEvol e0 (newGlobalsStep p k).1 ∧ InclClosed (newGlobalsStep p k).1 := by
  cases hg : p.1.syms.get? k with
  | none =>
    have he : newGlobalsStep p k = p := by
      unfold newGlobalsStep
      rw [hg]
    rw [he]
    exact ⟨hev, hc⟩
  | some sym =>
    by_cases hch : sym.bind = SymBind.sbGlobal ∧ sym.sec.isSome = true ∧
        sym.status = Status.new
    · have he : newGlobalsStep p k =
          (includeSymbolF (p.1.secs.length + 1) p.1 k, p.2 + 1) := by
        unfold newGlobalsStep
        simp only [hg]
        rw [if_pos hch]
      rw [he]
      have hwf : InclWf p.1 := InclWf_mono e0 p.1 hev hwf0
      have hfu : unincl p.1 < p.1.secs.length + 1 :=
        Nat.lt_succ_of_le (unincl_le_secs p.1)
      obtain ⟨hEv, hcx, _, _⟩ := (includeSymbolF_main (p.1.secs.length + 1)).1 p.1 k
        (fun _ _ => False) hfu hwf (InclClosed_toX p.1 _ hc)
      exact ⟨InclEvol_trans _ _ _ hev hEv, InclClosedX_false _ hcx⟩
    · have he : newGlobalsStep p k = p := by
        unfold newGlobalsStep
        simp only [hg]
        rw [if_neg hch]
      rw [he]
      exact ⟨hev, hc⟩

/-- Helper: the new-globals fold evolves include-only and keeps
closure. -/
theorem newGlobalsFold_all (e0 : IElf) (hwf0 : InclWf e0) : ∀ (L : List Nat)
    (p : IElf × Nat), InclEvol e0 p.1 → InclClosed p.1 →
    InclEvol e0 (L.foldl newGlobalsStep p).1 ∧ InclClosed (L.foldl newGlobalsStep p).1 := by
  intro L
  induction L with
  | nil => intro p hev hc; exact ⟨hev, hc⟩
  | cons i t ih =>
    intro p hev hc
    simp only [List.foldl_cons]
    obtain ⟨hEv, hc2⟩ := newGlobalsStep_all e0 hwf0 p i hev hc
    exact ih (newGlobalsStep p i) hEv hc2

/-- C1 (corrected): after the five inclusion passes, every included
NON-DEBUG relocation section only carries relocations against included
symbols — provided the input has no hook sections and no load/unload
data symbols (whose handling clears include flags), standard-named
sections are not relocation sections, every relocation targets an
existing symbol, no symbol lives inside a relocation section, and all
section include flags start clear.  For debug relocation sections the
claim fails: the strip keeps relocations whose target's SECTION is
included even when the target symbol is not (see the counterexample). -/
theorem inclusion_closure_amended (e res : IElf) (nc ng : Nat)
    (hwf : InclWf e) (hstd : StdSafe e) (hhf : HookFree e) (hlf : LoadFree e)
    (hflags : ∀ i S, e.secs.get? i = some S → S.incl = false)
    (hok : inclusionPasses e = .ok (res, nc, ng)) :
    InclClosed res := by
  have hc0 : InclClosed e := by
    intro i R hget _ hincl _ r _
    rw [hflags i R hget] at hincl
    exact absurd hincl Bool.false_ne_true
  obtain ⟨hEv1, hc1⟩ := include_standard_all e hstd hc0
  have hwf1 := InclWf_mono e _ hEv1 hwf
  obtain ⟨hEv2, hc2⟩ := include_changed_all (xsplice_include_standard_elements e) hwf1 hc1
  set s2 := (xsplice_include_changed_functions (xsplice_include_standard_elements e)).1
    with hs2
  have hEv02 : InclEvol e s2 := InclEvol_trans _ _ _ hEv1 hEv2
  have hwf2 := InclWf_mono e s2 hEv02 hwf
  obtain ⟨hEv3, hc3⟩ := debugFold1_all (List.range s2.secs.length) s2 hc2
  set s3a := (List.range s2.secs.length).foldl debugStep1 s2 with hs3a
  obtain ⟨hFE, hc4⟩ := debugFold2_all (List.range s2.secs.length) s3a hc3
  set s3 := (List.range s2.secs.length).foldl debugStep2 s3a with hs3
  have hdbg_eq : xsplice_include_debug_sections s2 = s3 := rfl
  have hwf3a := InclWf_mono s2 s3a hEv3 hwf2
  have hwf3 := InclWf_filtered s3a s3 hFE hwf3a
  have hhf3 : HookFree s3 :=
    HookFree_filtered _ _ hFE (HookFree_evol _ _ hEv3 (HookFree_evol _ _ hEv02 hhf))
  have hlf3 : LoadFree s3 :=
    LoadFree_filtered _ _ hFE (LoadFree_evol _ _ hEv3 (LoadFree_evol _ _ hEv02 hlf))
  have hid := include_hooks_id s3 hhf3 hlf3
  unfold inclusionPasses at hok
  rw [← hs2] at hok
  simp only [hdbg_eq, hid] at hok
  injection hok with he
  have hres : (xsplice_include_new_globals s3).1 = res := congrArg Prod.fst he
  obtain ⟨hEv5, hc5⟩ := newGlobalsFold_all s3 hwf3 (List.range s3.syms.length) (s3, 0)
    (InclEvol_refl s3) hc4
  rw [← hres]
  exact hc5

/-- C1 witness input: a single section holding a changed function, its
section symbol and the null symbol. -/
def wc1elf : IElf :=
  { secs :=
      [ { name := ".text.foo".toList, incl := false, base := none, rela := none,
          secsym := some 1, sym := some 2, relas := [] } ]
    syms :=
      [ { name := [], typ := SymTy.stNotype, bind := SymBind.sbLocal,
          status := Status.same, sec := none, incl := false },
        { name := ".text.foo".toList, typ := SymTy.stSection, bind := SymBind.sbLocal,
          status := Status.same, sec := some 0, incl := false },
        { name := "foo".toList, typ := SymTy.stFunc, bind := SymBind.sbLocal,
          status := Status.changed, sec := some 0, incl := false } ] }

/-- C1 witness output: everything included. -/
def wc1res : IElf :=
  { secs :=
      [ { name := ".text.foo".toList, incl := true, base := none, rela := none,
          secsym := some 1, sym := some 2, relas := [] } ]
    syms :=
      [ { name := [], typ := SymTy.stNotype, bind := SymBind.sbLocal,
          status := Status.same, sec := none, incl := true },
        { name := ".text.foo".toList, typ := SymTy.stSection, bind := SymBind.sbLocal,
          status := Status.same, sec := some 0, incl := true },
        { name := "foo".toList, typ := SymTy.stFunc, bind := SymBind.sbLocal,
          status := Status.changed, sec := some 0, incl := true } ] }

/-- Witness for the amended C1 theorem at the concrete one-function
model. -/
theorem inclusion_closure_amended_witness : InclClosed wc1res := by
  apply inclusion_closure_amended wc1elf wc1res 1 0
  · constructor
    · intro k s j S h1 h2 h3
      cases j with
      | zero =>
        injection h3 with he
        subst he
        rfl
      | succ n =>
        obtain ⟨hl, _⟩ := List.get?_eq_some.mp h3
        simp [wc1elf] at hl
    · intro i S r h1 hr
      cases i with
      | zero =>
        injection h1 with he
        subst he
        exact absurd hr (List.not_mem_nil r)
      | succ n =>
        obtain ⟨hl, _⟩ := List.get?_eq_some.mp h1
        simp [wc1elf] at hl
  · intro i S h1 h2
    cases i with
    | zero =>
      injection h1 with he
      subst he
      exact absurd h2 (by decide)
    | succ n =>
      obtain ⟨hl, _⟩ := List.get?_eq_some.mp h1
      simp [wc1elf] at hl
  · intro i S h1
    cases i with
    | zero =>
      injection h1 with he
      subst he
      decide
    | succ n =>
      obtain ⟨hl, _⟩ := List.get?_eq_some.mp h1
      simp [wc1elf] at hl
  · intro k s h1
    cases k with
    | zero =>
      injection h1 with he
      subst he
      decide
    | succ k1 =>
      cases k1 with
      | zero =>
        injection h1 with he
        subst he
        decide
      | succ k2 =>
        cases k2 with
        | zero =>
          injection h1 with he
          subst he
          decide
        | succ n =>
          obtain ⟨hl, _⟩ := List.get?_eq_some.mp h1
          simp [wc1elf] at hl
          omega
  · intro i S h1
    cases i with
    | zero =>
      injection h1 with he
      subst he
      rfl
    | succ n =>
      obtain ⟨hl, _⟩ := List.get?_eq_some.mp h1
      simp [wc1elf] at hl
  · rfl

/-- No symbol is a changed function (so `num_changed` stays 0). -/
def NoChangedFunc (e : IElf) : Prop :=
  ∀ k s, e.syms.get? k = some s → ¬ (s.status = Status.changed ∧ s.typ = SymTy.stFunc)

/-- No global symbol with a section is NEW — after comparison, NEW marks
exactly the untwinned symbols, so this is the claim's "no untwinned
global with a section". -/
def NoNewGlobal (e : IElf) : Prop :=
  ∀ k s, e.syms.get? k = some s →
    ¬ (s.bind = SymBind.sbGlobal ∧ s.sec.isSome = true ∧ s.status = Status.new)

/-- Helper: `NoChangedFunc` transports along `InclEvol`. -/
theorem NoChangedFunc_evol (e e2 : IElf) (h : InclEvol e e2) (hn : NoChangedFunc e) :
    NoChangedFunc e2 := by
  intro k s hg hcontra
  obtain ⟨s0, hg0, _, ht, _, hst, _, _⟩ := InclEvol_sym_back e e2 h k s hg
  exact hn k s0 hg0 ⟨hst ▸ hcontra.1, ht ▸ hcontra.2⟩

/-- Helper: `NoNewGlobal` transports along `InclEvol`. -/
theorem NoNewGlobal_evol (e e2 : IElf) (h : InclEvol e e2) (hn : NoNewGlobal e) :
    NoNewGlobal e2 := by
  intro k s hg hcontra
  obtain ⟨s0, hg0, _, _, hb, hst, hse, _⟩ := InclEvol_sym_back e e2 h k s hg
  exact hn k s0 hg0 ⟨hb ▸ hcontra.1, hse ▸ hcontra.2.1, hst ▸ hcontra.2.2⟩

/-- Helper: `NoNewGlobal` transports along `FilteredEvol`. -/
theorem NoNewGlobal_filtered (e e2 : IElf) (h : FilteredEvol e e2) (hn : NoNewGlobal e) :
    NoNewGlobal e2 := by
  intro k s hg
  rw [h.1] at hg
  exact hn k s hg

/-- Helper: the option symbol mark is an evolution (no side
conditions). -/
theorem markOptSymIncl_evol (e : IElf) (o : Option Nat) :
    InclEvol e (markOptSymIncl e o) := by
  cases o with
  | none => exact InclEvol_refl e
  | some ss => exact markSymIncl_evol e ss

/-- Helper: one standard step is an evolution (no side conditions). -/
theorem standardStep_evol (e : IElf) (i : Nat) : InclEvol e (standardStep e i) := by
  cases hg : e.secs.get? i with
  | none =>
    have he : standardStep e i = e := by
      unfold standardStep
      rw [hg]
    rw [he]
    exact InclEvol_refl e
  | some sec =>
    by_cases hn : isStandardSecName sec.name = true
    · have he : standardStep e i = markOptSymIncl (markSecIncl e i) sec.secsym := by
        unfold standardStep
        simp only [hg]
        rw [if_pos hn]
      rw [he]
      exact InclEvol_trans _ _ _ (markSecIncl_evol e i) (markOptSymIncl_evol _ sec.secsym)
    · have he : standardStep e i = e := by
        unfold standardStep
        simp only [hg]
        rw [if_neg hn]
      rw [he]
      exact InclEvol_refl e

/-- Helper: the standard pass is an evolution (no side conditions). -/
theorem include_standard_evol (e : IElf) :
    InclEvol e (xsplice_include_standard_elements e) := by
  have hfold : ∀ (L : List Nat) (e2 : IElf), InclEvol e2 (L.foldl standardStep e2) := by
    intro L
    induction L with
    | nil => intro e2; exact InclEvol_refl e2
    | cons i t ih =>
      intro e2
      simp only [List.foldl_cons]
      exact InclEvol_trans _ _ _ (standardStep_evol e2 i) (ih (standardStep e2 i))
  exact InclEvol_trans _ _ _ (hfold (List.range e.secs.length) e) (markSymIncl_evol _ 0)

/-- Helper: without changed functions the changed-functions fold only
marks `STT_FILE` symbols, keeps the counter and the no-changed-function
property. -/
theorem changedFold_count : ∀ (L : List Nat) (p : IElf × Nat), NoChangedFunc p.1 →
    (L.foldl changedStep p).2 = p.2 ∧ NoChangedFunc (L.foldl changedStep p).1 ∧
    InclEvol p.1 (L.foldl changedStep p).1 := by
  intro L
  induction L with
  | nil => intro p hn; exact ⟨rfl, hn, InclEvol_refl p.1⟩
  | cons k t ih =>
    intro p hn
    simp only [List.foldl_cons]
    cases hg : p.1.syms.get? k with
    | none =>
      rw [changedStep_eq_none p k hg]
      exact ih p hn
    | some sym =>
      have hch : ¬ (sym.status = Status.changed ∧ sym.typ = SymTy.stFunc) := hn k sym hg
      rw [changedStep_eq_rest p k sym hg hch]
      by_cases hf : sym.typ = SymTy.stFile
      · rw [if_pos hf]
        obtain ⟨h1, h2, h3⟩ := ih (markSymIncl p.1 k, p.2)
          (NoChangedFunc_evol _ _ (markSymIncl_evol p.1 k) hn)
        exact ⟨h1, h2, InclEvol_trans _ _ _ (markSymIncl_evol p.1 k) h3⟩
      · rw [if_neg hf]
        exact ih p hn

/-- Helper: without new globals the new-globals fold does nothing. -/
theorem newGlobalsFold_count : ∀ (L : List Nat) (p : IElf × Nat), NoNewGlobal p.1 →
    L.foldl newGlobalsStep p = p := by
  intro L
  induction L with
  | nil => intro p _; rfl
  | cons k t ih =>
    intro p hn
    simp only [List.foldl_cons]
    have he : newGlobalsStep p k = p := by
      cases hg : p.1.syms.get? k with
      | none =>
        unfold newGlobalsStep
        rw [hg]
      | some sym =>
        unfold newGlobalsStep
        simp only [hg]
        rw [if_neg (hn k sym hg)]
    rw [he]
    exact ih p hn

/-- Helper: one first-loop debug step is an evolution (no side
conditions). -/
theorem debugStep1_evol (e : IElf) (i : Nat) : InclEvol e (debugStep1 e i) := by
  cases hg : e.secs.get? i with
  | none =>
    have he : debugStep1 e i = e := by
      unfold debugStep1
      rw [hg]
    rw [he]
    exact InclEvol_refl e
  | some sec =>
    by_cases hn : isDebugSectionName sec.name = true
    · by_cases hb : sec.base.isSome = true
      · have he : debugStep1 e i = markSecIncl e i := by
          unfold debugStep1
          simp only [hg]
          rw [if_pos hn, if_pos hb]
        rw [he]
        exact markSecIncl_evol e i
      · have he : debugStep1 e i = markOptSymIncl (markSecIncl e i) sec.secsym := by
          unfold debugStep1
          simp only [hg]
          rw [if_pos hn, if_neg hb]
        rw [he]
        exact InclEvol_trans _ _ _ (markSecIncl_evol e i) (markOptSymIncl_evol _ sec.secsym)
    · have he : debugStep1 e i = e := by
        unfold debugStep1
        simp only [hg]
        rw [if_neg hn]
      rw [he]
      exact InclEvol_refl e

/-- Helper: the first debug loop is an evolution. -/
theorem debugFold1_evol : ∀ (L : List Nat) (e : IElf),
    InclEvol e (L.foldl debugStep1 e) := by
  intro L
  induction L with
  | nil => intro e; exact InclEvol_refl e
  | cons i t ih =>
    intro e
    simp only [List.foldl_cons]
    exact InclEvol_trans _ _ _ (debugStep1_evol e i) (ih (debugStep1 e i))

/-- Helper: one debug-strip step is a `FilteredEvol` (no side
conditions). -/
theorem debugStep2_evol (e : IElf) (i : Nat) : FilteredEvol e (debugStep2 e i) := by
  cases hg : e.secs.get? i with
  | none =>
    have he : debugStep2 e i = e := by
      unfold debugStep2
      rw [hg]
    rw [he]
    exact FilteredEvol_refl e
  | some sec =>
    by_cases hguard : (sec.base.isSome && isDebugSectionName sec.name) = true
    · have he : debugStep2 e i =
          { e with secs := updISec e.secs i (fun s =>
              { s with relas := s.relas.filter (relaTargetSecIncl e) }) } := by
        unfold debugStep2
        simp only [hg]
        rw [if_pos hguard]
      rw [he]
      refine ⟨rfl, updISec_length e.secs i _, ?_⟩
      intro j s' hgj
      by_cases hj : j = i
      · subst hj
        rw [updISec_self e.secs j _ sec hg] at hgj
        injection hgj with he2
        exact ⟨sec, hg, by rw [← he2], by rw [← he2], by rw [← he2], by rw [← he2],
          by rw [← he2], fun r hr => by
            rw [← he2] at hr
            exact List.mem_of_mem_filter hr⟩
      · rw [updISec_other e.secs i _ j hj] at hgj
        exact ⟨s', hgj, rfl, rfl, rfl, rfl, rfl, fun r hr => hr⟩
    · have he : debugStep2 e i = e := by
        unfold debugStep2
        simp only [hg]
        rw [if_neg hguard]
      rw [he]
      exact FilteredEvol_refl e

/-- Helper: the debug-strip loop is a `FilteredEvol`. -/
theorem debugFold2_evol : ∀ (L : List Nat) (e : IElf),
    FilteredEvol e (L.foldl debugStep2 e) := by
  intro L
  induction L with
  | nil => intro e; exact FilteredEvol_refl e
  | cons i t ih =>
    intro e
    simp only [List.foldl_cons]
    exact FilteredEvol_trans _ _ _ (debugStep2_evol e i) (ih (debugStep2 e i))

/-- C7 (confirmed): when no function is CHANGED and no global symbol
with a section is NEW (equivalently, after comparison, untwinned), and
the input carries no hook elements, `main` takes the no-changes gate:
exit code 3 before special-section processing, migration and output
writing. -/
theorem no_changes_exit3 (e : IElf)
    (hhf : HookFree e) (hlf : LoadFree e)
    (hnc : NoChangedFunc e) (hng : NoNewGlobal e) :
    mainGateOutcome e = .ok MainOutcome.earlyExit3 := by
  have hEv1 := include_standard_evol e
  have hnc1 := NoChangedFunc_evol _ _ hEv1 hnc
  obtain ⟨hcnt, hnc2, hEv2⟩ := changedFold_count
    (List.range (xsplice_include_standard_elements e).syms.length)
    (xsplice_include_standard_elements e, 0) hnc1
  set s2 := (xsplice_include_changed_functions (xsplice_include_standard_elements e)).1
    with hs2
  have hEv02 : InclEvol e s2 := InclEvol_trans _ _ _ hEv1 hEv2
  have hEv3 := debugFold1_evol (List.range s2.secs.length) s2
  set s3a := (List.range s2.secs.length).foldl debugStep1 s2 with hs3a
  have hFE := debugFold2_evol (List.range s2.secs.length) s3a
  set s3 := (List.range s2.secs.length).foldl debugStep2 s3a with hs3
  have hdbg_eq : xsplice_include_debug_sections s2 = s3 := rfl
  have hhf3 : HookFree s3 :=
    HookFree_filtered _ _ hFE (HookFree_evol _ _ hEv3 (HookFree_evol _ _ hEv02 hhf))
  have hlf3 : LoadFree s3 :=
    LoadFree_filtered _ _ hFE (LoadFree_evol _ _ hEv3 (LoadFree_evol _ _ hEv02 hlf))
  have hng3 : NoNewGlobal s3 :=
    NoNewGlobal_filtered _ _ hFE (NoNewGlobal_evol _ _ hEv3
      (NoNewGlobal_evol _ _ (InclEvol_trans _ _ _ hEv02 (InclEvol_refl s2)) hng))
  have hid := include_hooks_id s3 hhf3 hlf3
  have hngp : xsplice_include_new_globals s3 = (s3, 0) :=
    newGlobalsFold_count (List.range s3.syms.length) (s3, 0) hng3
  have hncv : (xsplice_include_changed_functions (xsplice_include_standard_elements e)).2 =
      0 := hcnt
  unfold mainGateOutcome inclusionPasses
  rw [← hs2]
  simp only [hdbg_eq, hid]
  rw [hngp, hncv]
  rw [if_pos ⟨rfl, rfl⟩]

/-- C7 witness input: the one-function model with the function
unchanged. -/
def wc7elf : IElf :=
  { secs :=
      [ { name := ".text.foo".toList, incl := false, base := none, rela := none,
          secsym := some 1, sym := some 2, relas := [] } ]
    syms :=
      [ { name := [], typ := SymTy.stNotype, bind := SymBind.sbLocal,
          status := Status.same, sec := none, incl := false },
        { name := ".text.foo".toList, typ := SymTy.stSection, bind := SymBind.sbLocal,
          status := Status.same, sec := some 0, incl := false },
        { name := "foo".toList, typ := SymTy.stFunc, bind := SymBind.sbLocal,
          status := Status.same, sec := some 0, incl := false } ] }

/-- Witness for the C7 theorem at the concrete unchanged model. -/
theorem no_changes_exit3_witness : mainGateOutcome wc7elf = .ok MainOutcome.earlyExit3 := by
  apply no_changes_exit3 wc7elf
  · intro i S h1
    cases i with
    | zero =>
      injection h1 with he
      subst he
      decide
    | succ n =>
      obtain ⟨hl, _⟩ := List.get?_eq_some.mp h1
      simp [wc7elf] at hl
  · intro k s h1
    cases k with
    | zero =>
      injection h1 with he
      subst he
      decide
    | succ k1 =>
      cases k1 with
      | zero =>
        injection h1 with he
        subst he
        decide
      | succ k2 =>
        cases k2 with
        | zero =>
          injection h1 with he
          subst he
          decide
        | succ n =>
          obtain ⟨hl, _⟩ := List.get?_eq_some.mp h1
          simp [wc7elf] at hl
          omega
  · intro k s h1
    cases k with
    | zero =>
      injection h1 with he
      subst he
      decide
    | succ k1 =>
      cases k1 with
      | zero =>
        injection h1 with he
        subst he
        decide
      | succ k2 =>
        cases k2 with
        | zero =>
          injection h1 with he
          subst he
          decide
        | succ n =>
          obtain ⟨hl, _⟩ := List.get?_eq_some.mp h1
          simp [wc7elf] at hl
          omega
  · intro k s h1
    cases k with
    | zero =>
      injection h1 with he
      subst he
      decide
    | succ k1 =>
      cases k1 with
      | zero =>
        injection h1 with he
        subst he
        decide
      | succ k2 =>
        cases k2 with
        | zero =>
          injection h1 with he
          subst he
          decide
        | succ n =>
          obtain ⟨hl, _⟩ := List.get?_eq_some.mp h1
          simp [wc7elf] at hl
          omega

end XspliceBuild
